import Mathlib

/-!
Verification of the plan → safe-SQL → cached-result pipeline.

Shallow embedding of the repository sources:
  - `src/guards/sql_safety.py`   (SQLSafetyGuard)
  - `src/agents/sql_agent.py`    (SQLAgent)
  - `src/db/__init__.py`         (_enforce_select_only, run_sql_query)
  - `src/agents/executor.py`     (Executor)
  - `src/agents/critique_agent.py` (CritiqueAgent)
  - `src/core/run_pipeline.py`   (run_agentic_pipeline)

Strings are modelled as `List Char`; Python string primitives (`strip`,
`lower`, `split`, regular-expression searches used by the sources) are
re-implemented below on that representation.
-/

namespace Spec2Proof

/-- Python strings are modelled as lists of characters. -/
abbrev Str := List Char

def strOf (s : String) : Str := s.data

/-- Python's `\s` whitespace class, restricted to ASCII (space, tab,
newline, carriage return, vertical tab, form feed). -/
def isWs (c : Char) : Bool :=
  c = ' ' || c = '\t' || c = '\n' || c = '\r' || c = '\x0b' || c = '\x0c'

/-- Python's `\w` word-character class (ASCII fragment): letters, digits, underscore. -/
def isWordChar (c : Char) : Bool := c.isAlphanum || c = '_'

/-- Python `str.lower` for ASCII characters. -/
def pyToLower (c : Char) : Char :=
  match c with
  | 'A' => 'a' | 'B' => 'b' | 'C' => 'c' | 'D' => 'd' | 'E' => 'e' | 'F' => 'f'
  | 'G' => 'g' | 'H' => 'h' | 'I' => 'i' | 'J' => 'j' | 'K' => 'k' | 'L' => 'l'
  | 'M' => 'm' | 'N' => 'n' | 'O' => 'o' | 'P' => 'p' | 'Q' => 'q' | 'R' => 'r'
  | 'S' => 's' | 'T' => 't' | 'U' => 'u' | 'V' => 'v' | 'W' => 'w' | 'X' => 'x'
  | 'Y' => 'y' | 'Z' => 'z'
  | c => c

/-- Python `str.upper` for ASCII characters. -/
def pyToUpper (c : Char) : Char :=
  match c with
  | 'a' => 'A' | 'b' => 'B' | 'c' => 'C' | 'd' => 'D' | 'e' => 'E' | 'f' => 'F'
  | 'g' => 'G' | 'h' => 'H' | 'i' => 'I' | 'j' => 'J' | 'k' => 'K' | 'l' => 'L'
  | 'm' => 'M' | 'n' => 'N' | 'o' => 'O' | 'p' => 'P' | 'q' => 'Q' | 'r' => 'R'
  | 's' => 'S' | 't' => 'T' | 'u' => 'U' | 'v' => 'V' | 'w' => 'W' | 'x' => 'X'
  | 'y' => 'Y' | 'z' => 'Z'
  | c => c

def lowerStr (s : Str) : Str := s.map pyToLower

def upperStr (s : Str) : Str := s.map pyToUpper

/-- Python `str.rstrip()`. -/
def pyRStrip (s : Str) : Str := (s.reverse.dropWhile isWs).reverse

/-- Python `str.strip()`. -/
def pyStrip (s : Str) : Str := pyRStrip (s.dropWhile isWs)

/-- Python `str.split(sep)` for a single-character separator. -/
def splitOnChar (sep : Char) : Str → List Str
  | [] => [[]]
  | c :: rest =>
    let r := splitOnChar sep rest
    if c = sep then [] :: r
    else
      match r with
      | h :: t => (c :: h) :: t
      | [] => [[c]]

/-- Substring containment, i.e. `re.search` for a pattern of literal characters. -/
def containsSub (pat : Str) : Str → Bool
  | [] => pat.isEmpty
  | s@(_ :: rest) => pat.isPrefixOf s || containsSub pat rest

def wsRunLen (s : Str) : Nat := (s.takeWhile isWs).length

/-- A word-bounded match of `kw` at the head of `s`, where `prev` is the
character immediately before `s` (`none` at the beginning of the text).
This is the semantics of `re.search(rf"\b{kw}\b", ...)` anchored at one
position, for a keyword made of word characters. -/
def wbAt (kw : Str) (prev : Option Char) (s : Str) : Bool :=
  kw.isPrefixOf s
    && (match prev with | none => true | some c => !isWordChar c)
    && (match s.drop kw.length with | [] => true | c :: _ => !isWordChar c)

def cwbAux (kw : Str) (prev : Option Char) : Str → Bool
  | [] => wbAt kw prev []
  | s@(c :: rest) => wbAt kw prev s || cwbAux kw (some c) rest

/-- `re.search(rf"\b{kw}\b", s)` for a keyword of word characters. -/
def containsWB (kw : Str) (s : Str) : Bool := cwbAux kw none s

/-- Decimal digit character, i.e. one digit of Python `str(int)`. -/
def digitCh (k : Nat) : Char :=
  if k = 0 then '0' else if k = 1 then '1' else if k = 2 then '2'
  else if k = 3 then '3' else if k = 4 then '4' else if k = 5 then '5'
  else if k = 6 then '6' else if k = 7 then '7' else if k = 8 then '8' else '9'

/-- Digits of `n`, most significant first, prepended to `acc`.  Structurally
recursive on a fuel argument so that it reduces inside `decide`; any fuel at
least the number of digits (in particular `n + 1`) gives the exact digits. -/
def natToStrAux : Nat → Nat → Str → Str
  | 0, _, acc => acc
  | fuel + 1, n, acc =>
    if n < 10 then digitCh n :: acc
    else natToStrAux fuel (n / 10) (digitCh (n % 10) :: acc)

/-- Python `str` applied to a non-negative integer. -/
def natToStr (n : Nat) : Str := natToStrAux (n + 1) n []

/-- Python `str` applied to an `int`. -/
def intToStr : Int → Str
  | .ofNat n => natToStr n
  | .negSucc n => '-' :: natToStr (n + 1)

/-- `pat.isPrefixOf s` up to ASCII case (the pattern is given lowercase). -/
def ciPrefix (pat : Str) (s : Str) : Bool := pat.isPrefixOf (lowerStr s)

-- ---------------------------------------------------------------------------
-- Safety validator model: src/guards/sql_safety.py
-- ---------------------------------------------------------------------------

/-- `DISALLOWED_KEYWORDS` from `src/guards/sql_safety.py`. -/
def DISALLOWED_KEYWORDS : List Str :=
  [strOf "insert", strOf "update", strOf "delete", strOf "merge", strOf "drop",
   strOf "alter", strOf "truncate", strOf "create",
   strOf "exec", strOf "execute", strOf "call", strOf "grant", strOf "revoke"]

/-- `COMMENT_PATTERNS` from `src/guards/sql_safety.py` (all three patterns are
literal two-character strings once the regex escaping is removed). -/
def COMMENT_PATTERNS : List Str := [strOf "--", strOf "/*", strOf "*/"]

/-- `STACKING_PATTERN = r";\s*\S"`: a semicolon followed (after optional
whitespace) by a non-whitespace character.  Searching this pattern succeeds
iff some `;` has any non-whitespace character after it (the first
non-whitespace character after the `;` witnesses the match). -/
def stackingDetected : Str → Bool
  | [] => false
  | c :: rest => (c = ';' && rest.any (fun d => !isWs d)) || stackingDetected rest

/-- `_first_non_ws_token`: sqlparse's first non-whitespace token, modelled as
the first maximal run of non-whitespace characters (comment tokens cannot
occur at this point because comment markers were rejected earlier).  Only the
`startswith` tests below depend on this token. -/
def firstNonWsToken (s : Str) : Option Str :=
  let t := s.dropWhile isWs
  if t.isEmpty then none else some (t.takeWhile (fun c => !isWs c))

/-- Tail of `_has_select_star`'s pattern: `\s+(distinct\s+)?\*` matched
against the (lowercased) text following `select`. -/
def starAfterWs (s : Str) : Bool :=
  let k := wsRunLen s
  if k = 0 then false
  else
    let u := s.drop k
    u.head? = some '*'
    || ((strOf "distinct").isPrefixOf u
        && (let v := u.drop 8
            let k2 := wsRunLen v
            k2 ≠ 0 && (v.drop k2).head? = some '*'))

def selectStarFrom (prev : Option Char) : Str → Bool
  | [] => false
  | s@(c :: rest) =>
    (wbAt (strOf "select") prev s && starAfterWs (s.drop 6))
    || selectStarFrom (some c) rest

/-- `_has_select_star`: `re.search(r"\bselect\b\s+(distinct\s+)?\*", txt, IGNORECASE)`.
The source applies it to the statement's flattened token text; the flattening
preserves the characters relevant here (it can only change whitespace between
tokens), so the model searches the lowercased statement text. -/
def hasSelectStar (s : Str) : Bool := selectStarFrom none (lowerStr s)

/-- `re.search(r"\bselect\b\s+top\s*\(", lowered)`. -/
def topParenFrom (prev : Option Char) : Str → Bool
  | [] => false
  | s@(c :: rest) =>
    (wbAt (strOf "select") prev s
      && (let u := s.drop 6
          let k := wsRunLen u
          k ≠ 0
          && (let v := u.drop k
              (strOf "top").isPrefixOf v
              && (let w := v.drop 3
                  (w.drop (wsRunLen w)).head? = some '('))))
    || topParenFrom (some c) rest

/-- `re.search(r"\bselect\b\s+top\s+\d+", lowered)`. -/
def topNumFrom (prev : Option Char) : Str → Bool
  | [] => false
  | s@(c :: rest) =>
    (wbAt (strOf "select") prev s
      && (let u := s.drop 6
          let k := wsRunLen u
          k ≠ 0
          && (let v := u.drop k
              (strOf "top").isPrefixOf v
              && (let w := v.drop 3
                  let k2 := wsRunLen w
                  k2 ≠ 0 && (match (w.drop k2).head? with
                             | some d => d.isDigit
                             | none => false)))))
    || topNumFrom (some c) rest

/-- `re.search(r"\blimit\b\s+\d+", lowered)`. -/
def limitFrom (prev : Option Char) : Str → Bool
  | [] => false
  | s@(c :: rest) =>
    (wbAt (strOf "limit") prev s
      && (let u := s.drop 5
          let k := wsRunLen u
          k ≠ 0 && (match (u.drop k).head? with
                    | some d => d.isDigit
                    | none => false)))
    || limitFrom (some c) rest

def hasTopClause (low : Str) : Bool := topParenFrom none low || topNumFrom none low

def hasOffsetFetch (low : Str) : Bool :=
  containsSub (strOf "offset") low && containsSub (strOf "fetch") low

def hasLimitClause (low : Str) : Bool := limitFrom none low

/-- Length of the leftmost-at-this-position match of
`\bSELECT\s+(DISTINCT\s+)?` (IGNORECASE), or `none`. -/
def selMatchLen (prev : Option Char) (s : Str) : Option Nat :=
  if (match prev with | none => true | some c => !isWordChar c)
      && ciPrefix (strOf "select") (s.take 6) then
    let u := s.drop 6
    let k := wsRunLen u
    if k = 0 then none
    else
      let v := u.drop k
      if ciPrefix (strOf "distinct") (v.take 8) then
        let w := v.drop 8
        let k2 := wsRunLen w
        if k2 = 0 then some (6 + k) else some (6 + k + 8 + k2)
      else some (6 + k)
  else none

/-- Leftmost match of `\bSELECT\s+(DISTINCT\s+)?` in the whole string:
start index and match length. -/
def findSelMatch (prev : Option Char) (i : Nat) : Str → Option (Nat × Nat)
  | [] => (selMatchLen prev []).map (fun n => (i, n))
  | s@(c :: rest) =>
    match selMatchLen prev s with
    | some n => some (i, n)
    | none => findSelMatch (some c) (i + 1) rest

structure Settings where
  MAX_RETURNED_ROWS : Int := 200000
  DEFAULT_EXPLORATORY_TOP : Int := 10000
  STATEMENT_TIMEOUT_SECONDS : Int := 360000
  OFFLINE_ONLY : Bool := false
deriving Repr, DecidableEq

/-- `_enforce_row_limit_if_missing` from `src/guards/sql_safety.py`. -/
def enforceRowLimitIfMissing (st : Settings) (sql : Str) : Str :=
  let maxRows : Int := if st.MAX_RETURNED_ROWS ≤ 0 then 200000 else st.MAX_RETURNED_ROWS
  let low := lowerStr sql
  if hasTopClause low || hasOffsetFetch low || hasLimitClause low then sql
  else
    match findSelMatch none 0 sql with
    | none => sql
    | some (i, n) =>
      sql.take (i + n) ++ strOf " TOP (" ++ intToStr maxRows ++ strOf ") " ++ sql.drop (i + n)

structure EnforcedLimit where
  applied : Bool
  max_rows : Option Int := none
deriving Repr, DecidableEq

structure SafetyReport where
  ok : Bool
  reasons : List Str
  normalized_sql : Option Str := none
  enforced_limit : Option EnforcedLimit := none
deriving Repr, DecidableEq

def failReport (reason : Str) : SafetyReport :=
  { ok := false, reasons := [reason] }

/-- `sqlparse.format(s, keyword_case="upper", strip_comments=True, reindent=True)`.
Modelled as the identity: the reformatting of the external library is not part
of this repository; comment stripping is a no-op here because inputs with
comment markers are rejected before this point, and no claim depends on the
keyword casing or indentation that the library applies. -/
def formatSql (s : Str) : Str := s

/-- The success tail of `validate` (`src/guards/sql_safety.py` lines 99-111):
row-limit enforcement on the normalized SQL and the `enforced_limit` record,
whose `applied` flag is set exactly when the enforcement changed the text. -/
def limitReport (st : Settings) (normalized : Str) : SafetyReport :=
  let enforced := enforceRowLimitIfMissing st normalized
  if enforced ≠ normalized then
    { ok := true, reasons := [], normalized_sql := some enforced,
      enforced_limit := some { applied := true, max_rows := some st.MAX_RETURNED_ROWS } }
  else
    { ok := true, reasons := [], normalized_sql := some normalized,
      enforced_limit := some { applied := false } }

/-- `SQLSafetyGuard.validate` from `src/guards/sql_safety.py`.
sqlparse statement splitting is modelled by splitting on `;` and keeping
segments with non-whitespace content. -/
def validate (st : Settings) (sql : Str) : SafetyReport :=
  let s := pyStrip sql
  if s.isEmpty then failReport (strOf "Empty SQL.")
  else if COMMENT_PATTERNS.any (fun p => containsSub p s) then
    failReport (strOf "SQL contains comment tokens; rejected.")
  else if ((splitOnChar ';' s).filter (fun t => !(pyStrip t).isEmpty)).length ≠ 1 then
    failReport (strOf "Multiple statements detected; rejected.")
  else if stackingDetected s then
    failReport (strOf "Statement stacking via semicolon detected; rejected.")
  else
    match firstNonWsToken s with
    | none => failReport (strOf "No tokens found.")
    | some tok =>
      let startVal := pyStrip (lowerStr tok)
      if !((strOf "select").isPrefixOf startVal || (strOf "with").isPrefixOf startVal) then
        failReport (strOf "Only SELECT / WITH statements are allowed.")
      else
        match DISALLOWED_KEYWORDS.find? (fun kw => containsWB kw (lowerStr s)) with
        | some kw => failReport (strOf "Disallowed keyword detected: " ++ kw)
        | none =>
          if hasSelectStar s then
            failReport (strOf "SELECT * is not allowed; use explicit column lists.")
          else limitReport st (formatSql s)

-- ---------------------------------------------------------------------------
-- SQLAgent model: src/agents/sql_agent.py
-- ---------------------------------------------------------------------------

def allWs (s : Str) : Bool := s.all isWs

/-- Scanner for the lazy group of `\s+AS\s+\[(.+?)\]\s*$` after the opening
bracket: the shortest nonempty newline-free content whose closing `]` is
followed only by whitespace (`.` does not match a newline; on failure the
lazy group extends to the next candidate `]`). -/
def findClose (content : Str) : Str → Option Str
  | [] => none
  | c :: rest =>
    if c = ']' && !content.isEmpty && allWs rest then some content
    else if c = '\n' then none
    else findClose (content ++ [c]) rest

/-- Match of `\s+AS\s+\[(.+?)\]\s*$` (IGNORECASE) anchored at the start of
`u`, returning the bracketed group.  Since the characters of `AS` and `[`
are not whitespace, each `\s+` must consume a full whitespace run. -/
def tryAliasAt (u : Str) : Option Str :=
  let k := wsRunLen u
  if k = 0 then none
  else
    match u.drop k with
    | a :: s2 :: v =>
      if (a = 'a' || a = 'A') && (s2 = 's' || s2 = 'S') then
        let k2 := wsRunLen v
        if k2 = 0 then none
        else
          match v.drop k2 with
          | '[' :: w => findClose [] w
          | _ => none
      else none
    | _ => none

def aliasSearchAux (i : Nat) : Str → Option (Nat × Str)
  | [] => none
  | u@(_ :: rest) =>
    match tryAliasAt u with
    | some g => some (i, g)
    | none => aliasSearchAux (i + 1) rest

/-- Leftmost match of `\s+AS\s+\[(.+?)\]\s*$`: start index and group. -/
def aliasSearch (s : Str) : Option (Nat × Str) := aliasSearchAux 0 s

/-- `_alias_name`: the bracketed alias of a column expression, or the whole
expression when the alias pattern does not match. -/
def aliasName (colExpr : Str) : Str :=
  match aliasSearch colExpr with
  | some (_, g) => g
  | none => colExpr

/-- `_split_expr_alias`: `re.search(r"^(.*?)\s+AS\s+\[(.+?)\]\s*$", expr.strip())`.
The anchored lazy prefix `^(.*?)` cannot contain a newline; if the leftmost
alias match has a newline before it, every later start does too, so the
regex fails and the fallback branch is taken. -/
def splitExprAlias (colExpr : Str) : Str × Str :=
  let t := pyStrip colExpr
  match aliasSearch t with
  | some (i, g) =>
    if (t.take i).contains '\n' then (t, pyStrip (aliasName colExpr))
    else (pyStrip (t.take i), pyStrip g)
  | none => (t, pyStrip (aliasName colExpr))

/-- Text before the first occurrence of `" AS "` (the whole string when
absent): Python `s.split(" AS ")[0]`. -/
def beforeAS : Str → Str
  | [] => []
  | s@(c :: rest) => if (strOf " AS ").isPrefixOf s then [] else c :: beforeAS rest

/-- `col_ref.split(" AS ")[0].strip()` as used throughout the agent. -/
def splitASHead (s : Str) : Str := pyStrip (beforeAS s)

def collapseWsAux (prevWs : Bool) : Str → Str
  | [] => []
  | c :: rest =>
    if isWs c then
      (if prevWs then collapseWsAux true rest else ' ' :: collapseWsAux true rest)
    else c :: collapseWsAux false rest

/-- `re.sub(r"\s+", " ", s)`. -/
def collapseWs (s : Str) : Str := collapseWsAux false s

/-- `_safe_alias`. -/
def safeAlias (name : Str) : Str :=
  let n1 := pyStrip name
  let n2 := n1.filter (fun c => c.isAlphanum || c = ' ' || c = '_' || c = '-')
  let n3 := pyStrip (collapseWs n2)
  if n3.isEmpty then strOf "metric" else n3.take 64

/-- The loaded schema registry: insertion-ordered mapping from table key to
the ordered list of its column names (the only fields `SQLAgent` reads). -/
abbrev Registry := List (Str × List Str)

def regTablesOf (reg : Registry) : List Str := reg.map Prod.fst

/-- `SchemaRegistry.table_columns`. -/
def tableColumns (reg : Registry) (t : Str) : List Str :=
  match reg.find? (fun e => e.1 == t) with
  | some e => e.2
  | none => []

/-- `SchemaRegistry.has_column`. -/
def hasColumn (reg : Registry) (t c : Str) : Bool := (tableColumns reg t).contains c

structure JoinSpec where
  left_table : Option Str := none
  right_table : Option Str := none
  left_key : Option Str := none
  right_key : Option Str := none
  join_type : Option Str := none
deriving Repr, DecidableEq

structure Metric where
  name : Option Str := none
  agg : Option Str := none
  field : Option Str := none
  depends_on : Option (List Str) := none
deriving Repr, DecidableEq

/-- Filter values are treated opaquely by the agent except for the `in`
operator's list test; scalar values are modelled as strings. -/
inductive FVal where
  | vstr (s : Str)
  | vlist (elems : List Str)
deriving Repr, DecidableEq

structure Filter where
  field : Str := []
  op : Str := strOf "="
  value : FVal := .vstr []
deriving Repr, DecidableEq

structure OrderSpec where
  field : Str := []
  dir : Str := strOf "asc"
deriving Repr, DecidableEq

/-- Typed view of the plan dictionary: fields guarded by `isinstance` checks
in the source behave as their defaults when ill-typed, which this typed model
represents directly. -/
structure Plan where
  tables : List Str := []
  joins : List JoinSpec := []
  metrics : List Metric := []
  dimensions : List Str := []
  filters : List Filter := []
  time_field : Option Str := none
  time_grain : Option Str := none
  order_by : List OrderSpec := []
  aggregation : Bool := false
  group_by : Bool := false
  large_mode : Bool := false
  query_cost_risk : Option Str := none
  expected_columns : List Str := []
deriving Repr, DecidableEq

structure SqlBundle where
  sql : Str
  params : List (Str × FVal)
  expected_columns : List Str
  is_aggregated : Bool
  top : Int
  recovered_tables : Bool
  final_tables : List Str
deriving Repr, DecidableEq

/-- `SQLAgent._recover_tables`. -/
def recoverTables (regTabs allowedTables : List Str) : List Str :=
  if !allowedTables.isEmpty then
    let allowOk := allowedTables.filter (fun t => regTabs.contains t)
    if !allowOk.isEmpty then allowOk.take 2
    else regTabs.take 2
  else regTabs.take 2

/-- `SQLAgent._fmt_table`. -/
def fmtTable (tableKey : Str) : Str :=
  let t := pyStrip tableKey
  if t.contains '.' then
    let schema := t.takeWhile (fun c => c ≠ '.')
    let table := (t.dropWhile (fun c => c ≠ '.')).drop 1
    strOf "[" ++ schema ++ strOf "].[" ++ table ++ strOf "]"
  else strOf "[" ++ t ++ strOf "]"

/-- `SQLAgent._resolve_column`. -/
def resolveColumn (reg : Registry) (hint : Str) (tables : List Str)
    (aliasMap : List (Str × Str)) : Option Str :=
  let h := pyStrip hint
  if h.isEmpty then none
  else
    match splitOnChar '.' h with
    | [p0, p1, p2] =>
      let tpart := p0 ++ '.' :: p1
      match aliasMap.lookup tpart with
      | some a =>
        if hasColumn reg tpart p2 then
          some (a ++ strOf ".[" ++ p2 ++ strOf "] AS [" ++ p2 ++ strOf "]")
        else none
      | none => none
    | [_, _] => none
    | _ =>
      tables.findSome? (fun t =>
        (tableColumns reg t).findSome? (fun c =>
          if lowerStr c = lowerStr h then
            some (((aliasMap.lookup t).getD (strOf "t0"))
                  ++ strOf ".[" ++ c ++ strOf "] AS [" ++ c ++ strOf "]")
          else none))

/-- `SQLAgent._is_metric_agg`. -/
def isMetricAgg (m : Metric) : Bool := !(pyStrip (m.agg.getD [])).isEmpty

/-- `SQLAgent._agg_sql`. -/
def aggSql (agg : Str) (colLeft : Str) : Str :=
  let a := pyStrip (lowerStr agg)
  if a = strOf "sum" then strOf "SUM(" ++ colLeft ++ strOf ")"
  else if a = strOf "avg" || a = strOf "mean" then strOf "AVG(" ++ colLeft ++ strOf ")"
  else if a = strOf "min" then strOf "MIN(" ++ colLeft ++ strOf ")"
  else if a = strOf "max" then strOf "MAX(" ++ colLeft ++ strOf ")"
  else if a = strOf "count" then strOf "COUNT(1)"
  else if a = strOf "count_distinct" then strOf "COUNT(DISTINCT " ++ colLeft ++ strOf ")"
  else strOf "SUM(" ++ colLeft ++ strOf ")"

/-- `SQLAgent._time_bucket_sqlserver`. -/
def timeBucketSqlserver (colLeft : Str) (grain : Str) : Str :=
  let g := pyStrip (lowerStr grain)
  if g = strOf "day" then strOf "DATEADD(day, DATEDIFF(day, 0, " ++ colLeft ++ strOf "), 0)"
  else if g = strOf "week" then strOf "DATEADD(week, DATEDIFF(week, 0, " ++ colLeft ++ strOf "), 0)"
  else if g = strOf "month" then strOf "DATEADD(month, DATEDIFF(month, 0, " ++ colLeft ++ strOf "), 0)"
  else if g = strOf "year" then strOf "DATEADD(year, DATEDIFF(year, 0, " ++ colLeft ++ strOf "), 0)"
  else colLeft

structure JoinAcc where
  aliasMap : List (Str × Str)
  aliasI : Nat
  clauses : List Str
deriving Repr, DecidableEq

/-- One iteration of the join loop in `generate_sql`. -/
def joinStep (reg : Registry) (tables : List Str) (acc : JoinAcc) (j : JoinSpec) : JoinAcc :=
  match j.left_table, j.right_table, j.left_key, j.right_key with
  | some lt, some rt, some lk, some rk =>
    if !(tables.contains lt && tables.contains rt) then acc
    else if !(hasColumn reg lt lk && hasColumn reg rt rk) then acc
    else
      let st1 : List (Str × Str) × Nat :=
        if (acc.aliasMap.lookup lt).isSome then (acc.aliasMap, acc.aliasI)
        else (acc.aliasMap ++ [(lt, 't' :: natToStr acc.aliasI)], acc.aliasI + 1)
      let st2 : List (Str × Str) × Nat :=
        if (st1.1.lookup rt).isSome then st1
        else (st1.1 ++ [(rt, 't' :: natToStr st1.2)], st1.2 + 1)
      let jt0 := match j.join_type with
                 | some s => if s.isEmpty then strOf "LEFT" else upperStr s
                 | none => strOf "LEFT"
      let jt := if jt0 = strOf "INNER" || jt0 = strOf "LEFT"
                   || jt0 = strOf "RIGHT" || jt0 = strOf "FULL" then jt0
                else strOf "LEFT"
      let la := (st2.1.lookup lt).getD (strOf "t0")
      let ra := (st2.1.lookup rt).getD (strOf "t0")
      let clause := jt ++ strOf " JOIN " ++ fmtTable rt ++ strOf " AS " ++ ra
                    ++ strOf " ON " ++ la ++ strOf ".[" ++ lk ++ strOf "] = "
                    ++ ra ++ strOf ".[" ++ rk ++ strOf "]"
      { aliasMap := st2.1, aliasI := st2.2, clauses := acc.clauses ++ [clause] }
  | _, _, _, _ => acc

/-- The alias-map extension step inside the join loop (`st1`/`st2`). -/
def jsExtend (st : List (Str × Str) × Nat) (k : Str) : List (Str × Str) × Nat :=
  if (st.1.lookup k).isSome then st
  else (st.1 ++ [(k, 't' :: natToStr st.2)], st.2 + 1)

/-- The normalised join type of one join spec. -/
def jsJt (jto : Option Str) : Str :=
  let jt0 := match jto with
             | some s => if s.isEmpty then strOf "LEFT" else upperStr s
             | none => strOf "LEFT"
  if jt0 = strOf "INNER" || jt0 = strOf "LEFT"
      || jt0 = strOf "RIGHT" || jt0 = strOf "FULL" then jt0
  else strOf "LEFT"

/-- The textual join clause built by one join-loop iteration. -/
def jsClause (jt rt ra la lk rk : Str) : Str :=
  jt ++ strOf " JOIN " ++ fmtTable rt ++ strOf " AS " ++ ra
    ++ strOf " ON " ++ la ++ strOf ".[" ++ lk ++ strOf "] = "
    ++ ra ++ strOf ".[" ++ rk ++ strOf "]"

/-- The inner loop over `depends_on` columns of a metric without an
aggregation (raw pass-through selections). -/
def depLoop (reg : Registry) (tables : List Str) (am : List (Str × Str))
    (dimCols : List Str) (acc : List Str) : List Str → List Str
  | [] => acc
  | c :: cs =>
    match resolveColumn reg c tables am with
    | some cr =>
      if !(dimCols.contains cr) && !(acc.contains cr) then
        depLoop reg tables am dimCols (acc ++ [cr]) cs
      else depLoop reg tables am dimCols acc cs
    | none => depLoop reg tables am dimCols acc cs

/-- The metric loop of `generate_sql`, threading the metric select columns
and the expected metric aliases. -/
def metricLoop (reg : Registry) (tables : List Str) (am : List (Str × Str))
    (dimCols : List Str) (acc : List Str) (accNames : List Str) :
    List Metric → List Str × List Str
  | [] => (acc, accNames)
  | m :: rest =>
    match m.name with
    | none => metricLoop reg tables am dimCols acc accNames rest
    | some nm =>
      if (pyStrip nm).isEmpty then metricLoop reg tables am dimCols acc accNames rest
      else
        let agg := pyStrip (lowerStr (m.agg.getD []))
        if agg.isEmpty then
          let acc' := match m.depends_on with
                      | some dep => depLoop reg tables am dimCols acc dep
                      | none => acc
          metricLoop reg tables am dimCols acc' accNames rest
        else
          match m.field with
          | none => metricLoop reg tables am dimCols acc accNames rest
          | some fld =>
            match resolveColumn reg fld tables am with
            | none => metricLoop reg tables am dimCols acc accNames rest
            | some baseCol =>
              let baseLeft := splitASHead baseCol
              let sqlAgg := aggSql agg baseLeft
              let mal := safeAlias nm
              metricLoop reg tables am dimCols
                (acc ++ [sqlAgg ++ strOf " AS [" ++ mal ++ strOf "]"])
                (accNames ++ [mal]) rest

def dedupeByAliasAux (seen : List Str) : List Str → List Str
  | [] => []
  | c :: rest =>
    let al := pyStrip (aliasName c)
    if !al.isEmpty && !(seen.contains al) then c :: dedupeByAliasAux (al :: seen) rest
    else dedupeByAliasAux seen rest

/-- `SQLAgent._dedupe_by_alias`. -/
def dedupeByAlias (l : List Str) : List Str := dedupeByAliasAux [] l

def SAFE_OPS : List Str :=
  [strOf "=", strOf "!=", strOf "<>", strOf ">", strOf ">=", strOf "<",
   strOf "<=", strOf "like"]

/-- The filter loop of `generate_sql`, threading the parameter map and the
`WHERE` conjuncts.  `idx` counts every element of the filter list, as
`enumerate` does in the source. -/
def filterLoop (reg : Registry) (tables : List Str) (am : List (Str × Str))
    (idx : Nat) (params : List (Str × FVal)) (parts : List Str) :
    List Filter → List (Str × FVal) × List Str
  | [] => (params, parts)
  | f :: rest =>
    let field := pyStrip f.field
    let op := pyStrip f.op
    match resolveColumn reg field tables am with
    | none => filterLoop reg tables am (idx + 1) params parts rest
    | some colRef =>
      let left := splitASHead colRef
      let p := 'p' :: natToStr idx
      let opL := lowerStr op
      if opL = strOf "in" then
        match f.value with
        | .vlist elems =>
          if elems.isEmpty then filterLoop reg tables am (idx + 1) params parts rest
          else
            let withIdx := elems.enum
            let params' := params ++ withIdx.map (fun e => (p ++ '_' :: natToStr e.1, FVal.vstr e.2))
            let placeholders := withIdx.map (fun e => ':' :: p ++ '_' :: natToStr e.1)
            let part := left ++ strOf " IN (" ++ (strOf ", ").intercalate placeholders ++ strOf ")"
            filterLoop reg tables am (idx + 1) params' (parts ++ [part]) rest
        | _ => filterLoop reg tables am (idx + 1) params parts rest
      else
        let op' := if !(SAFE_OPS.contains opL) then strOf "=" else op
        let part := left ++ ' ' :: op' ++ strOf " :" ++ p
        filterLoop reg tables am (idx + 1) (params ++ [(p, f.value)]) (parts ++ [part]) rest

/-- The order-by loop of `generate_sql`. -/
def orderParts (reg : Registry) (tables : List Str) (am : List (Str × Str))
    (metricNames : List Str) (obs : List OrderSpec) : List Str :=
  obs.filterMap (fun ob =>
    let obField := pyStrip ob.field
    let dir0 := upperStr (pyStrip ob.dir)
    let dir1 := if dir0.isEmpty then strOf "ASC" else dir0
    let dir := if dir1 = strOf "ASC" || dir1 = strOf "DESC" then dir1 else strOf "ASC"
    match resolveColumn reg obField tables am with
    | some colRef => some (splitASHead colRef ++ ' ' :: dir)
    | none =>
      let sa := safeAlias obField
      if metricNames.contains sa then some ('[' :: sa ++ strOf "] " ++ dir)
      else none)

/-- `SQLAgent.generate_sql`.  Returns the result bundle together with the
plan as mutated by the call (recovered tables and `expected_columns` are
written back). -/
def generateSql (st : Settings) (reg : Registry) (plan : Plan)
    (allowedTables : List Str) (largeMode : Option Bool) :
    Except Str (SqlBundle × Plan) :=
  let regTabs := regTablesOf reg
  let planned := plan.tables
  let tables0 := planned.filter (fun t => regTabs.contains t)
  let tables1 :=
    if !allowedTables.isEmpty then
      let allowOk := allowedTables.filter (fun t => regTabs.contains t)
      tables0.filter (fun t => allowOk.contains t)
    else tables0
  let recovered := tables1.isEmpty
  let tables := if recovered then recoverTables regTabs allowedTables else tables1
  let plan1 := if recovered then { plan with tables := tables } else plan
  if tables.isEmpty then
    .error (strOf "Schema registry has no tables. Run schema bootstrap/ingestion first.")
  else
    let primary := tables.headD []
    let fromClause := strOf "FROM " ++ fmtTable primary ++ strOf " AS t0"
    let jacc := plan1.joins.foldl (joinStep reg tables) ⟨[(primary, strOf "t0")], 1, []⟩
    let am := jacc.aliasMap
    let joinClauses := jacc.clauses
    let isAgg0 := plan1.aggregation || plan1.group_by || plan1.metrics.any isMetricAgg
    let dims := plan1.dimensions
    -- dimension columns with their GROUP BY expressions
    let dimPairs := dims.filterMap (fun d =>
      (resolveColumn reg d tables am).map (fun cr => (cr, splitASHead cr)))
    -- time bucketing
    let timePairs : List (Str × Str) :=
      match plan1.time_field with
      | none => []
      | some tfh =>
        match resolveColumn reg tfh tables am with
        | none => []
        | some tf =>
          match plan1.time_grain with
          | some grain =>
            if isAgg0 then
              let ea := splitExprAlias tf
              let bucketLeft := timeBucketSqlserver ea.1 grain
              [(bucketLeft ++ strOf " AS [" ++ ea.2 ++ strOf "]", bucketLeft)]
            else
              if !(dimPairs.map Prod.fst).contains tf then [(tf, splitASHead tf)] else []
          | none =>
            if !(dimPairs.map Prod.fst).contains tf then [(tf, splitASHead tf)] else []
    let dimSelectCols := (dimPairs ++ timePairs).map Prod.fst
    let groupByCols := (dimPairs ++ timePairs).map Prod.snd
    let mets := metricLoop reg tables am dimSelectCols [] [] plan1.metrics
    let metricSelectCols := mets.1
    let metricNames := mets.2
    -- fallback to the first ≤ 12 columns of the primary table
    let fallback := dimSelectCols.isEmpty && metricSelectCols.isEmpty
    let dimSelectCols :=
      if fallback then
        (tableColumns reg primary).take 12 |>.map (fun c =>
          ((am.lookup primary).getD (strOf "t0")) ++ strOf ".[" ++ c ++ strOf "] AS [" ++ c ++ strOf "]")
      else dimSelectCols
    let isAgg := if fallback then false else isAgg0
    let selectCols := dedupeByAlias (dimSelectCols ++ metricSelectCols)
    let fl := filterLoop reg tables am 0 [] [] plan1.filters
    let params := fl.1
    let whereParts := fl.2
    let whereClause := if !whereParts.isEmpty then strOf "WHERE " ++ (strOf " AND ").intercalate whereParts else []
    let groupByClause :=
      if isAgg then
        let gb := groupByCols.filter (fun c => !c.isEmpty)
        if !gb.isEmpty then strOf "GROUP BY " ++ (strOf ", ").intercalate gb else []
      else []
    let obParts := if !plan1.order_by.isEmpty then orderParts reg tables am metricNames plan1.order_by else []
    let orderByClause := if !obParts.isEmpty then strOf "ORDER BY " ++ (strOf ", ").intercalate obParts else []
    let lm := match largeMode with
              | some b => b
              | none => plan1.large_mode
    let top : Int := if lm then st.MAX_RETURNED_ROWS else st.DEFAULT_EXPLORATORY_TOP
    let sql := pyStrip ((strOf "\n").intercalate
      ([strOf "SELECT TOP (" ++ intToStr top ++ strOf ")",
        strOf "  " ++ (strOf ",\n  ").intercalate selectCols,
        fromClause]
       ++ joinClauses
       ++ [whereClause, groupByClause, orderByClause]))
    let expected := selectCols.map aliasName
    let plan2 := { plan1 with expected_columns := expected }
    .ok ({ sql := sql, params := params, expected_columns := expected,
           is_aggregated := isAgg, top := top,
           recovered_tables := planned.isEmpty || (!planned.isEmpty && planned ≠ tables),
           final_tables := tables }, plan2)

/-- The table list of `generate_sql` after registry and allowlist filtering,
before recovery (a definitional reading of the same code path, factored out
for reasoning). -/
def gsTables1 (reg : Registry) (plan : Plan) (allowedTables : List Str) : List Str :=
  let regTabs := regTablesOf reg
  let tables0 := plan.tables.filter (fun t => regTabs.contains t)
  if !allowedTables.isEmpty then
    let allowOk := allowedTables.filter (fun t => regTabs.contains t)
    tables0.filter (fun t => allowOk.contains t)
  else tables0

/-- The final table list of `generate_sql`, recovery included. -/
def gsTables (reg : Registry) (plan : Plan) (allowedTables : List Str) : List Str :=
  if (gsTables1 reg plan allowedTables).isEmpty then
    recoverTables (regTablesOf reg) allowedTables
  else gsTables1 reg plan allowedTables

/-- The plan as seen downstream of the recovery write-back. -/
def gsPlan1 (reg : Registry) (plan : Plan) (allowedTables : List Str) : Plan :=
  if (gsTables1 reg plan allowedTables).isEmpty then
    { plan with tables := gsTables reg plan allowedTables }
  else plan

/-- The success branch of `generate_sql` (everything after the empty-registry
guard), with the validated table set and mutated plan as inputs; definitional
factoring of the same code. -/
def okBundle (st : Settings) (reg : Registry) (plan1 : Plan) (planned : List Str)
    (largeMode : Option Bool) (tables : List Str) : SqlBundle × Plan :=
  let primary := tables.headD []
  let fromClause := strOf "FROM " ++ fmtTable primary ++ strOf " AS t0"
  let jacc := plan1.joins.foldl (joinStep reg tables) ⟨[(primary, strOf "t0")], 1, []⟩
  let am := jacc.aliasMap
  let joinClauses := jacc.clauses
  let isAgg0 := plan1.aggregation || plan1.group_by || plan1.metrics.any isMetricAgg
  let dims := plan1.dimensions
  let dimPairs := dims.filterMap (fun d =>
    (resolveColumn reg d tables am).map (fun cr => (cr, splitASHead cr)))
  let timePairs : List (Str × Str) :=
    match plan1.time_field with
    | none => []
    | some tfh =>
      match resolveColumn reg tfh tables am with
      | none => []
      | some tf =>
        match plan1.time_grain with
        | some grain =>
          if isAgg0 then
            let ea := splitExprAlias tf
            let bucketLeft := timeBucketSqlserver ea.1 grain
            [(bucketLeft ++ strOf " AS [" ++ ea.2 ++ strOf "]", bucketLeft)]
          else
            if !(dimPairs.map Prod.fst).contains tf then [(tf, splitASHead tf)] else []
        | none =>
          if !(dimPairs.map Prod.fst).contains tf then [(tf, splitASHead tf)] else []
  let dimSelectCols := (dimPairs ++ timePairs).map Prod.fst
  let groupByCols := (dimPairs ++ timePairs).map Prod.snd
  let mets := metricLoop reg tables am dimSelectCols [] [] plan1.metrics
  let metricSelectCols := mets.1
  let metricNames := mets.2
  let fallback := dimSelectCols.isEmpty && metricSelectCols.isEmpty
  let dimSelectCols :=
    if fallback then
      (tableColumns reg primary).take 12 |>.map (fun c =>
        ((am.lookup primary).getD (strOf "t0")) ++ strOf ".[" ++ c ++ strOf "] AS [" ++ c ++ strOf "]")
    else dimSelectCols
  let isAgg := if fallback then false else isAgg0
  let selectCols := dedupeByAlias (dimSelectCols ++ metricSelectCols)
  let fl := filterLoop reg tables am 0 [] [] plan1.filters
  let params := fl.1
  let whereParts := fl.2
  let whereClause := if !whereParts.isEmpty then strOf "WHERE " ++ (strOf " AND ").intercalate whereParts else []
  let groupByClause :=
    if isAgg then
      let gb := groupByCols.filter (fun c => !c.isEmpty)
      if !gb.isEmpty then strOf "GROUP BY " ++ (strOf ", ").intercalate gb else []
    else []
  let obParts := if !plan1.order_by.isEmpty then orderParts reg tables am metricNames plan1.order_by else []
  let orderByClause := if !obParts.isEmpty then strOf "ORDER BY " ++ (strOf ", ").intercalate obParts else []
  let lm := match largeMode with
            | some b => b
            | none => plan1.large_mode
  let top : Int := if lm then st.MAX_RETURNED_ROWS else st.DEFAULT_EXPLORATORY_TOP
  let sql := pyStrip ((strOf "\n").intercalate
    ([strOf "SELECT TOP (" ++ intToStr top ++ strOf ")",
      strOf "  " ++ (strOf ",\n  ").intercalate selectCols,
      fromClause]
     ++ joinClauses
     ++ [whereClause, groupByClause, orderByClause]))
  let expected := selectCols.map aliasName
  let plan2 := { plan1 with expected_columns := expected }
  ({ sql := sql, params := params, expected_columns := expected,
     is_aggregated := isAgg, top := top,
     recovered_tables := planned.isEmpty || (!planned.isEmpty && planned ≠ tables),
     final_tables := tables }, plan2)

/-- Named components of `okBundle`, definitionally equal to its `let`
bindings (see `okBundle_sql_eq`). -/
def obPrimary (tables : List Str) : Str := tables.headD []

def obFrom (tables : List Str) : Str :=
  strOf "FROM " ++ fmtTable (obPrimary tables) ++ strOf " AS t0"

def obJacc (reg : Registry) (plan1 : Plan) (tables : List Str) : JoinAcc :=
  plan1.joins.foldl (joinStep reg tables) ⟨[(obPrimary tables, strOf "t0")], 1, []⟩

def obIsAgg0 (plan1 : Plan) : Bool :=
  plan1.aggregation || plan1.group_by || plan1.metrics.any isMetricAgg

def obDimPairs (reg : Registry) (plan1 : Plan) (tables : List Str) : List (Str × Str) :=
  plan1.dimensions.filterMap (fun d =>
    (resolveColumn reg d tables (obJacc reg plan1 tables).aliasMap).map
      (fun cr => (cr, splitASHead cr)))

def obTimePairs (reg : Registry) (plan1 : Plan) (tables : List Str) : List (Str × Str) :=
  match plan1.time_field with
  | none => []
  | some tfh =>
    match resolveColumn reg tfh tables (obJacc reg plan1 tables).aliasMap with
    | none => []
    | some tf =>
      match plan1.time_grain with
      | some grain =>
        if obIsAgg0 plan1 then
          let ea := splitExprAlias tf
          let bucketLeft := timeBucketSqlserver ea.1 grain
          [(bucketLeft ++ strOf " AS [" ++ ea.2 ++ strOf "]", bucketLeft)]
        else
          if !((obDimPairs reg plan1 tables).map Prod.fst).contains tf
          then [(tf, splitASHead tf)] else []
      | none =>
        if !((obDimPairs reg plan1 tables).map Prod.fst).contains tf
        then [(tf, splitASHead tf)] else []

def obDimSelectCols0 (reg : Registry) (plan1 : Plan) (tables : List Str) : List Str :=
  (obDimPairs reg plan1 tables ++ obTimePairs reg plan1 tables).map Prod.fst

def obGroupByCols (reg : Registry) (plan1 : Plan) (tables : List Str) : List Str :=
  (obDimPairs reg plan1 tables ++ obTimePairs reg plan1 tables).map Prod.snd

def obMets (reg : Registry) (plan1 : Plan) (tables : List Str) : List Str × List Str :=
  metricLoop reg tables (obJacc reg plan1 tables).aliasMap
    (obDimSelectCols0 reg plan1 tables) [] [] plan1.metrics

def obFallback (reg : Registry) (plan1 : Plan) (tables : List Str) : Bool :=
  (obDimSelectCols0 reg plan1 tables).isEmpty && (obMets reg plan1 tables).1.isEmpty

def obDimSelectCols (reg : Registry) (plan1 : Plan) (tables : List Str) : List Str :=
  if obFallback reg plan1 tables then
    (tableColumns reg (obPrimary tables)).take 12 |>.map (fun c =>
      (((obJacc reg plan1 tables).aliasMap.lookup (obPrimary tables)).getD (strOf "t0"))
        ++ strOf ".[" ++ c ++ strOf "] AS [" ++ c ++ strOf "]")
  else obDimSelectCols0 reg plan1 tables

def obIsAgg (reg : Registry) (plan1 : Plan) (tables : List Str) : Bool :=
  if obFallback reg plan1 tables then false else obIsAgg0 plan1

def obSelectCols (reg : Registry) (plan1 : Plan) (tables : List Str) : List Str :=
  dedupeByAlias (obDimSelectCols reg plan1 tables ++ (obMets reg plan1 tables).1)

def obWhereParts (reg : Registry) (plan1 : Plan) (tables : List Str) : List Str :=
  (filterLoop reg tables (obJacc reg plan1 tables).aliasMap 0 [] [] plan1.filters).2

def obWhere (reg : Registry) (plan1 : Plan) (tables : List Str) : Str :=
  if !(obWhereParts reg plan1 tables).isEmpty then
    strOf "WHERE " ++ (strOf " AND ").intercalate (obWhereParts reg plan1 tables)
  else []

def obGroup (reg : Registry) (plan1 : Plan) (tables : List Str) : Str :=
  if obIsAgg reg plan1 tables then
    let gb := (obGroupByCols reg plan1 tables).filter (fun c => !c.isEmpty)
    if !gb.isEmpty then strOf "GROUP BY " ++ (strOf ", ").intercalate gb else []
  else []

def obObParts (reg : Registry) (plan1 : Plan) (tables : List Str) : List Str :=
  if !plan1.order_by.isEmpty then
    orderParts reg tables (obJacc reg plan1 tables).aliasMap
      (obMets reg plan1 tables).2 plan1.order_by
  else []

def obOrder (reg : Registry) (plan1 : Plan) (tables : List Str) : Str :=
  if !(obObParts reg plan1 tables).isEmpty then
    strOf "ORDER BY " ++ (strOf ", ").intercalate (obObParts reg plan1 tables)
  else []

def obLm (plan1 : Plan) (largeMode : Option Bool) : Bool :=
  match largeMode with
  | some b => b
  | none => plan1.large_mode

def obTop (st : Settings) (plan1 : Plan) (largeMode : Option Bool) : Int :=
  if obLm plan1 largeMode then st.MAX_RETURNED_ROWS else st.DEFAULT_EXPLORATORY_TOP

/-- A text fragment that cannot make the safety validator reject: no
disallowed keyword occurs word-bounded in its lowercase form, and it has no
semicolon, star, dash or slash (so no statement stacking, no `SELECT *` and
no comment markers can arise from it). -/
def CleanFrag (s : Str) : Prop :=
  (∀ kw ∈ DISALLOWED_KEYWORDS, containsWB kw (lowerStr s) = false)
  ∧ ';' ∉ s ∧ '*' ∉ s ∧ '-' ∉ s ∧ '/' ∉ s

/-- A schema or metric name that is safe to splice into generated SQL: no
disallowed keyword occurs in its lowercase form even as a plain substring,
and none of the characters the validator scans for. -/
def CleanName (n : Str) : Prop :=
  (∀ kw ∈ DISALLOWED_KEYWORDS, containsSub kw (lowerStr n) = false)
  ∧ ';' ∉ n ∧ '*' ∉ n ∧ '-' ∉ n ∧ '/' ∉ n

/-- No two adjacent alphabetic characters (alias and parameter names such
as `t0` or `p1_2` satisfy this, so no alphabetic keyword can occur in them). -/
def noAdjAlpha : Str → Bool
  | [] => true
  | [_] => true
  | c :: d :: rest => (!(c.isAlpha && d.isAlpha)) && noAdjAlpha (d :: rest)

-- ---------------------------------------------------------------------------
-- DB layer model: src/db/__init__.py
-- ---------------------------------------------------------------------------

/-- `_BANNED` from `src/db/__init__.py` (note: unlike the guard's list it has
no `call`). -/
def DB_BANNED : List Str :=
  [strOf "insert", strOf "update", strOf "delete", strOf "merge", strOf "drop",
   strOf "alter", strOf "truncate", strOf "create", strOf "grant", strOf "revoke",
   strOf "execute", strOf "exec"]

/-- Suffix immediately after the first occurrence of `c`, if any. -/
def afterChar (c : Char) : Str → Option Str
  | [] => none
  | d :: rest => if d = c then some rest else afterChar c rest

/-- Suffixes immediately after every occurrence of `pat`. -/
def allAfterSub (pat : Str) : Str → List Str
  | [] => []
  | s@(_ :: rest) =>
    (if pat.isPrefixOf s then [s.drop pat.length] else []) ++ allAfterSub pat rest

/-- Suffix immediately after the first occurrence of `pat`, if any. -/
def afterSub (pat : Str) : Str → Option Str
  | [] => none
  | s@(_ :: rest) =>
    if pat.isPrefixOf s then some (s.drop pat.length) else afterSub pat rest

/-- The first semantic token of an SQL text, read by standard SQL lexing:
skip whitespace, `--` line comments (up to the first newline) and `/* ... */`
block comments (up to the FIRST closing `*/`), then take the next maximal run
of non-whitespace characters.  This renders the property's phrase "first
semantic token"; it is to be compared with the source's `_SELECT_ONLY_RE`,
whose lazy block-comment group may instead extend to any later `*/`.
Fuel-based structural recursion; each step consumes at least one character,
so fuel `length + 1` is exact. -/
def firstSemanticTokenAux : Nat → Str → Option Str
  | 0, _ => none
  | fuel + 1, u =>
    match u with
    | [] => none
    | c :: rest =>
      if (strOf "--").isPrefixOf u then
        match afterChar '\n' (u.drop 2) with
        | some v => firstSemanticTokenAux fuel v
        | none => none
      else if (strOf "/*").isPrefixOf u then
        match afterSub (strOf "*/") (u.drop 2) with
        | some v => firstSemanticTokenAux fuel v
        | none => none
      else if isWs c then firstSemanticTokenAux fuel rest
      else some (u.takeWhile fun d => !isWs d)

def firstSemanticToken (s : Str) : Option Str :=
  firstSemanticTokenAux (s.length + 1) s

/-- The skipping part of `_SELECT_ONLY_RE =
`^\s*(?:--[^\n]*\n|\s|/\*.*?\*/)*select\b`` (IGNORECASE | DOTALL): from the
current suffix, either `select\b` matches here, or one alternative of the
group consumes a prefix and we continue.  A `--` comment must end at the
first newline (its body cannot contain one); a `/*` comment may end at any
later `*/` (the lazy `.*?` backtracks under DOTALL).  Structural recursion on
a fuel argument; every step consumes at least one character, so fuel
`length + 1` is exact. -/
def selectOnlySkip : Nat → Str → Bool
  | 0, _ => false
  | fuel + 1, u =>
    (ciPrefix (strOf "select") (u.take 6) && u.length ≥ 6
      && (match u.drop 6 with | [] => true | c :: _ => !isWordChar c))
    || (match u with
        | [] => false
        | c :: rest =>
          if (strOf "--").isPrefixOf u then
            match afterChar '\n' (u.drop 2) with
            | some v => selectOnlySkip fuel v
            | none => false
          else if (strOf "/*").isPrefixOf u then
            (allAfterSub (strOf "*/") (u.drop 2)).any (fun v => selectOnlySkip fuel v)
          else if isWs c then selectOnlySkip fuel rest
          else false)

/-- `_SELECT_ONLY_RE.search(s)` (the pattern is anchored with `^`). -/
def selectOnlyMatches (s : Str) : Bool := selectOnlySkip (s.length + 1) s

/-- `_enforce_select_only` from `src/db/__init__.py`; `.error` models a
raised `ValueError`. -/
def enforceSelectOnly (sql : Str) : Except Str Unit :=
  let s := pyStrip sql
  if s.isEmpty then .error (strOf "Empty SQL")
  else if DB_BANNED.any (fun kw => containsWB kw (lowerStr s)) then
    .error (strOf "Unsafe SQL blocked at DB layer: non-SELECT keyword detected")
  else if s.contains ';'
      && ((splitOnChar ';' s).filter (fun p => !(pyStrip p).isEmpty)).length > 1 then
    .error (strOf "Unsafe SQL blocked at DB layer: multiple statements detected")
  else if !selectOnlyMatches s then
    .error (strOf "Unsafe SQL blocked at DB layer: only SELECT allowed")
  else .ok ()

structure Frame where
  cols : List Str := []
  rows : List (List Str) := []
deriving Repr, DecidableEq

/-- `df.head(n)`. -/
def frameHead (n : Nat) (df : Frame) : Frame := { df with rows := df.rows.take n }

/-- `pd.concat(frames, ignore_index=True)`: rows concatenated; the column
list is that of the first frame (all chunks of one result set share it). -/
def concatFrames (frames : List Frame) : Frame :=
  { cols := (frames.headD {}).cols, rows := (frames.map Frame.rows).flatten }

/-- What `pd.read_sql_query` yields: either a whole `DataFrame` (chunksize
ignored) or a stream of chunks, each paired with the wall-clock seconds
elapsed when the loop's timeout check runs after consuming it. -/
inductive SourceResult where
  | whole (df : Frame)
  | chunked (chunks : List (Frame × Int))
deriving Repr, DecidableEq

/-- The chunk-consumption loop of `run_sql_query`: empty chunks are skipped
(without row or time checks), the row ceiling is checked after appending,
then the wall-clock cutoff. -/
def ingest (m : Nat) (t : Int) (acc : List Frame) (rows : Nat) :
    List (Frame × Int) → List Frame
  | [] => acc
  | (ch, el) :: rest =>
    if ch.rows.isEmpty then ingest m t acc rows rest
    else
      let acc' := acc ++ [ch]
      let rows' := rows + ch.rows.length
      if rows' ≥ m then acc'
      else if el > t then acc'
      else ingest m t acc' rows' rest

/-- `run_sql_query` from `src/db/__init__.py`.  Engine construction, session
guards and the chunk size bound do not affect the returned rows and are not
modelled; the data source's output is the `src` argument. -/
def runSqlQuery (sql : Str) (_params : List (Str × FVal))
    (timeoutSeconds maxRows : Int) (src : SourceResult) : Except Str Frame :=
  match enforceSelectOnly sql with
  | .error e => .error e
  | .ok _ =>
    let t : Int := if timeoutSeconds > 0 then timeoutSeconds else 3600
    let m : Nat := (if maxRows > 0 then maxRows else 200000).toNat
    match src with
    | .whole df => .ok (frameHead m df)
    | .chunked cs =>
      let frames := ingest m t [] 0 cs
      if frames.isEmpty then .ok {}
      else
        let df := concatFrames frames
        .ok (if df.rows.length > m then frameHead m df else df)

-- ---------------------------------------------------------------------------
-- Executor model: src/agents/executor.py
-- ---------------------------------------------------------------------------

/-- Lexicographic `≤` on strings by code point, as Python compares them. -/
def strLeB : Str → Str → Bool
  | [], _ => true
  | _ :: _, [] => false
  | c :: cs, d :: ds => if c = d then strLeB cs ds else decide (c < d)

def pairKeyLe (x y : Str × FVal) : Prop := strLeB x.1 y.1 = true

instance : DecidableRel pairKeyLe := fun x y => by
  unfold pairKeyLe; infer_instance

/-- `sorted(params.items())`: Python sorts the key/value tuples
lexicographically; since dictionary keys are unique the order is determined
by the keys alone, which is how the sort is modelled. -/
def sortPairs (l : List (Str × FVal)) : List (Str × FVal) :=
  l.insertionSort pairKeyLe

def reprFVal : FVal → Str
  | .vstr s => s
  | .vlist l => (strOf ",").intercalate l

/-- Rendering of `repr(sorted((params or {}).items()))`; the exact quoting of
`repr` is immaterial to the claims and is simplified. -/
def reprPairs (l : List (Str × FVal)) : Str :=
  (strOf ", ").intercalate
    (l.map (fun e => strOf "(" ++ e.1 ++ strOf ", " ++ reprFVal e.2 ++ strOf ")"))

/-- `Executor._cache_key`: the SHA-256 hex digest is modelled as the hashed
payload itself (an injective stand-in; the claims depend only on equal
payloads producing equal keys). -/
def cacheKey (sql : Str) (params : List (Str × FVal)) : Str :=
  sql ++ '|' :: reprPairs (sortPairs params)

structure ExecMeta where
  cache_key : Str
  cache_hit : Bool
  rows : Nat
  mode : Str
deriving Repr, DecidableEq

/-- Executor-side state: the snapshot cache, the DuckDB catalog's registered
keys, and a count of reads from the data source. -/
structure ExecState where
  cache : List (Str × Frame) := []
  catalog : List Str := []
  sourceCalls : Nat := 0
deriving Repr, DecidableEq

/-- Modelled from the spec: `cache/snapshot_cache.py` (class `SnapshotCache`)
is not among the sources; per the spec it is a content-addressed columnar
snapshot store — `get` returns the frame stored under a key. -/
def cacheGet (st : ExecState) (k : Str) : Option Frame :=
  (st.cache.find? (fun e => e.1 == k)).map Prod.snd

/-- Modelled from the spec: `SnapshotCache.put` stores (or idempotently
overwrites) the frame under the key. -/
def cachePut (st : ExecState) (k : Str) (df : Frame) : ExecState :=
  if (st.cache.find? (fun e => e.1 == k)).isSome then
    { st with cache := st.cache.map (fun e => if e.1 == k then (k, df) else e) }
  else { st with cache := st.cache ++ [(k, df)] }

/-- `DuckDBStore.register_parquet`: idempotent insert-or-update keyed by the
cache key. -/
def catalogRegister (st : ExecState) (k : Str) : ExecState :=
  { st with catalog := if st.catalog.contains k then st.catalog else st.catalog ++ [k] }

/-- `Executor.run`.  The read from the data source (`run_sql_query`) is the
oracle `dbResult`, deterministic in `(sql, params)`; `sourceCalls` counts its
invocations.  Timing metadata is omitted. -/
def executorRun (st : Settings) (dbResult : Str → List (Str × FVal) → Frame)
    (es : ExecState) (sql : Str) (params : List (Str × FVal)) :
    Except Str (Frame × ExecMeta × ExecState) :=
  match cacheGet es (cacheKey sql params) with
  | some df =>
    .ok (df, { cache_key := cacheKey sql params, cache_hit := true,
               rows := df.rows.length, mode := strOf "cache" },
         catalogRegister es (cacheKey sql params))
  | none =>
    if st.OFFLINE_ONLY then
      .error (strOf "OFFLINE_ONLY is enabled and no cache snapshot exists for this query. Run once with OFFLINE_ONLY=false to populate cache.")
    else
      .ok (dbResult sql params,
           { cache_key := cacheKey sql params, cache_hit := false,
             rows := (dbResult sql params).rows.length, mode := strOf "db" },
           { catalogRegister (cachePut es (cacheKey sql params) (dbResult sql params))
               (cacheKey sql params) with
             sourceCalls := es.sourceCalls + 1 })

-- ---------------------------------------------------------------------------
-- Critique agent model: src/agents/critique_agent.py
-- ---------------------------------------------------------------------------

/-- The view of a stage payload that `critique_step` reads: `None`-ness, and
for dict payloads the truthiness of `get("tables")`, the value of
`get("query_cost_risk")` and the truthiness of `get("ok", False)`. -/
inductive CPayload where
  | isNone
  | dictP (tablesTruthy : Bool) (query_cost_risk : Option Str) (okTruthy : Bool)
  | otherP
deriving Repr, DecidableEq

structure Critique where
  step : Str
  confidence : ℚ
  force_hitl : Bool
  issues : List Str
  recommendation : Str
deriving Repr, DecidableEq

/-- `CritiqueAgent.critique_step`. -/
def critiqueStep (step : Str) (payload : CPayload) : Critique :=
  let s0 : List Str × ℚ × Bool :=
    match payload with
    | .isNone => ([strOf "Payload is None."], 0.2, true)
    | _ => ([], 0.7, false)
  let s1 : List Str × ℚ × Bool :=
    if step = strOf "C_plan" then
      match payload with
      | .dictP tablesTruthy qcr _ =>
        let sA : List Str × ℚ × Bool :=
          if !tablesTruthy then (s0.1 ++ [strOf "Plan missing tables."], 0.2, true)
          else s0
        if qcr = some (strOf "high") then
          (sA.1 ++ [strOf "Query cost risk HIGH - recommend human review."],
           min sA.2.1 0.5, true)
        else sA
      | _ => s0
    else s0
  let s2 : List Str × ℚ × Bool :=
    if step = strOf "F_sql_safety" then
      match payload with
      | .dictP _ _ okTruthy =>
        if !okTruthy then (s1.1 ++ [strOf "Safety validation failed."], 0.1, s1.2.2)
        else s1
      | _ => s1
    else s1
  let s3 : List Str × ℚ × Bool :=
    if step = strOf "H_data_validation" then
      match payload with
      | .dictP _ _ okTruthy =>
        if !okTruthy then (s2.1 ++ [strOf "Data quality checks failed; cannot proceed."], 0.1, true)
        else s2
      | _ => s2
    else s2
  { step := step, confidence := s3.2.1, force_hitl := s3.2.2, issues := s3.1,
    recommendation := if !s3.2.2 then strOf "Proceed" else strOf "Needs human review" }

-- ---------------------------------------------------------------------------
-- Pipeline orchestrator model: src/core/run_pipeline.py
-- ---------------------------------------------------------------------------

structure DQReport where
  ok : Bool
deriving Repr, DecidableEq

/-- The only field of an explicit human-review packet that
`run_agentic_pipeline` itself reads is `large_mode`; the rest is consumed by
`planner.apply_human_review`, whose outcome is the `applyReview` oracle. -/
structure HumanReview where
  large_mode : Option Bool := none
deriving Repr, DecidableEq

/-- The collaborator calls of the pipeline, given as oracles; `.error`
models a raised exception inside the corresponding stage. -/
structure Oracles where
  intent : Except Str CPayload := .ok .otherP
  schemaReasoning : Except Str CPayload := .ok .otherP
  buildPlan : Except Str Plan := .ok {}
  reviewPacket : Except Str Unit := .ok ()
  applyReview : Except Str (Plan × List Str) := .ok ({}, [])
  execute : Except Str Frame := .ok {}
  dataQuality : Except Str DQReport := .ok { ok := true }
  insights : Except Str CPayload := .ok .otherP
  dashboard : Except Str Unit := .ok ()
deriving Repr

/-- The pipeline's returned dictionary, extended with the observables that
the source writes to the trace store (the plan and D-stage critiques) and
with the list of statements passed to `Executor.run`. -/
structure PipeResult where
  run_id : Str
  status : Str
  error : Option Str := none
  human_review_packet_present : Bool := false
  planCritique : Option Critique := none
  dCritique : Option Critique := none
  safety : Option SafetyReport := none
  executedSqls : List Str := []
  sql : Option Str := none
deriving Repr, DecidableEq

/-- View of the plan dict for `critique_step("C_plan", plan)`:
`get("tables")` truthiness, `get("query_cost_risk")`, and `get("ok", False)`
(absent, hence falsy). -/
def planPayload (p : Plan) : CPayload :=
  .dictP (!p.tables.isEmpty) p.query_cost_risk false

/-- View of the safety report dict for `critique_step("F_sql_safety", ...)`. -/
def safetyPayload (r : SafetyReport) : CPayload := .dictP false none r.ok

/-- View of the dict `{"review_packet": ..., "applied": ...}` passed to
`critique_step("D_human_review", ...)`: it is a dict (never `None`), with no
`tables`, `query_cost_risk` or `ok` keys. -/
def reviewPayloadView : CPayload := .dictP false none false

def failedResult (runId : Str) (e : Str) : PipeResult :=
  { run_id := runId, status := strOf "failed", error := some e }

/-- Stages D(halt check) through L of `run_agentic_pipeline`, after the
human-review packet was built and any explicit edits were applied. -/
def pipelineAfterReview (st : Settings) (reg : Registry) (orc : Oracles)
    (runId : Str) (critC : Critique) (plan : Plan) (allowed : List Str)
    (hrNone : Bool) : PipeResult :=
  let critD := critiqueStep (strOf "D_human_review") reviewPayloadView
  if critD.force_hitl && hrNone then
    { run_id := runId, status := strOf "needs_human_review",
      human_review_packet_present := true,
      planCritique := some critC, dCritique := some critD }
  else
    match generateSql st reg plan allowed (some plan.large_mode) with
    | .error e =>
      { failedResult runId (strOf "SQL generation failed: " ++ e) with
        planCritique := some critC, dCritique := some critD }
    | .ok sb =>
      let bundle := sb.1
      let safety := validate st bundle.sql
      if !safety.ok then
        { run_id := runId, status := strOf "rejected",
          planCritique := some critC, dCritique := some critD,
          safety := some safety, sql := some bundle.sql }
      else
        -- G) Executor.run is invoked with bundle.sql
        let executed := [bundle.sql]
        match orc.execute with
        | .error e =>
          { failedResult runId (strOf "Execution failed: " ++ e) with
            planCritique := some critC, dCritique := some critD,
            safety := some safety, executedSqls := executed, sql := some bundle.sql }
        | .ok _df =>
          match orc.dataQuality with
          | .error e =>
            { failedResult runId (strOf "Data validation failed: " ++ e) with
              planCritique := some critC, dCritique := some critD,
              safety := some safety, executedSqls := executed, sql := some bundle.sql }
          | .ok dq =>
            if !dq.ok then
              { run_id := runId, status := strOf "failed_data_quality",
                planCritique := some critC, dCritique := some critD,
                safety := some safety, executedSqls := executed, sql := some bundle.sql }
            else
              match orc.insights with
              | .error e =>
                { failedResult runId (strOf "Insights failed: " ++ e) with
                  planCritique := some critC, dCritique := some critD,
                  safety := some safety, executedSqls := executed, sql := some bundle.sql }
              | .ok _ =>
                match orc.dashboard with
                | .error e =>
                  { failedResult runId (strOf "Dashboard failed: " ++ e) with
                    planCritique := some critC, dCritique := some critD,
                    safety := some safety, executedSqls := executed, sql := some bundle.sql }
                | .ok _ =>
                  { run_id := runId, status := strOf "success",
                    planCritique := some critC, dCritique := some critD,
                    safety := some safety, executedSqls := executed, sql := some bundle.sql }

/-- `run_agentic_pipeline` from `src/core/run_pipeline.py`.  Trace-store
writes are mirrored by the observable fields of `PipeResult`; the SQL agent
and the safety guard are the concrete models above, every other collaborator
is an oracle. -/
def runAgenticPipeline (st : Settings) (reg : Registry) (orc : Oracles)
    (runId : Str) (allowedTables : List Str) (humanReview : Option HumanReview)
    (largeMode : Bool) : PipeResult :=
  match orc.intent with
  | .error e => failedResult runId (strOf "Intent failed: " ++ e)
  | .ok _ =>
    match orc.schemaReasoning with
    | .error e => failedResult runId (strOf "Schema reasoning failed: " ++ e)
    | .ok _ =>
      match orc.buildPlan with
      | .error e => failedResult runId (strOf "Plan failed: " ++ e)
      | .ok plan0 =>
        let plan := { plan0 with large_mode := largeMode }
        let critC := critiqueStep (strOf "C_plan") (planPayload plan)
        match orc.reviewPacket with
        | .error e => failedResult runId (strOf "Human review failed: " ++ e)
        | .ok _ =>
          match humanReview with
          | some hr =>
            match orc.applyReview with
            | .error e => failedResult runId (strOf "Human review failed: " ++ e)
            | .ok ap =>
              let plan1 := { ap.1 with large_mode :=
                match hr.large_mode with
                | some b => b
                | none => largeMode }
              pipelineAfterReview st reg orc runId critC plan1 ap.2 false
          | none => pipelineAfterReview st reg orc runId critC plan allowedTables true

end Spec2Proof

-- Executable sanity checks: the validator model on concrete inputs
namespace Spec2Proof
example : (validate {} (strOf "SELECT * FROM dbo.Users")).ok = false := by decide
example : (validate {} (strOf "SELECT * FROM dbo.Users")).reasons
    = [strOf "SELECT * is not allowed; use explicit column lists."] := by decide
example : (validate {} (strOf "SELECT 1; SELECT 2")).reasons
    = [strOf "Multiple statements detected; rejected."] := by decide
example : (validate {} (strOf "UPDATE users SET a=1")).ok = false := by decide
example : (validate {} (strOf "SELECT a FROM t")).ok = true := by decide
example : (validate {} (strOf "SELECT a FROM t")).normalized_sql
    = some (strOf "SELECT  TOP (200000) a FROM t") := by decide
example : (validate {} (strOf "SELECT a FROM t")).enforced_limit
    = some { applied := true, max_rows := some 200000 } := by decide
example : (validate {} (strOf "SELECT TOP (10) a FROM t")).enforced_limit
    = some { applied := false } := by decide
example : (validate {} (strOf "SELECT t0.[update] AS [update] FROM [t] AS t0")).reasons
    = [strOf "Disallowed keyword detected: update"] := by decide
example : (validate {} (strOf "WITH a AS (SELECT 1 AS x FROM t) SELECT x FROM a")).ok = true := by decide
example : (validate {} (strOf "SELECT a -- hi")).ok = false := by decide
example : (validate {} (strOf "")).reasons = [strOf "Empty SQL."] := by decide
example : (validate {} (strOf "SELECT DISTINCT * FROM t")).ok = false := by decide
example : (validate {} (strOf "SELECT a FROM t;")).ok = true := by decide
example : (validate {} (strOf "SELECT a FROM t ORDER BY a OFFSET 5 ROWS FETCH NEXT 3 ROWS ONLY")).enforced_limit = some { applied := false } := by decide
end Spec2Proof

-- Executable sanity checks: the SQL compiler model on concrete inputs
namespace Spec2Proof
def tReg : Registry := [(strOf "t", [strOf "a", strOf "b", strOf "dt"])]
example : (generateSql {} tReg {} [] none).isOk = true := by decide
example :
    (match generateSql {} tReg {} [] none with
     | .ok r => r.1.sql
     | .error _ => []) =
    strOf "SELECT TOP (10000)\n  t0.[a] AS [a],\n  t0.[b] AS [b],\n  t0.[dt] AS [dt]\nFROM [t] AS t0" := by decide
example :
    (match generateSql {} tReg { dimensions := [strOf "a"], metrics := [{ name := some (strOf "total b"), agg := some (strOf "SUM"), field := some (strOf "b") }] } [] none with
     | .ok r => r.1.sql
     | .error _ => []) =
    strOf "SELECT TOP (10000)\n  t0.[a] AS [a],\n  SUM(t0.[b]) AS [total b]\nFROM [t] AS t0\n\nGROUP BY t0.[a]" := by decide
example :
    (match generateSql {} tReg { dimensions := [strOf "a"], filters := [{ field := strOf "b", op := strOf ">", value := .vstr (strOf "5") }] } [] none with
     | .ok r => (r.1.sql, r.1.params)
     | .error _ => ([], [])) =
    (strOf "SELECT TOP (10000)\n  t0.[a] AS [a]\nFROM [t] AS t0\nWHERE t0.[b] > :p0",
     [(strOf "p0", .vstr (strOf "5"))]) := by decide
example : (generateSql {} [] {} [] none).isOk = false := by decide
example :
    (match generateSql {} [(strOf "t", [])] {} [] none with
     | .ok r => some r.1.expected_columns
     | .error _ => none) = some [] := by decide
end Spec2Proof

-- Executable sanity checks: the pipeline and executor models on concrete inputs
namespace Spec2Proof
example :
    (runAgenticPipeline {} tReg
      { buildPlan := .ok { tables := [strOf "t"], query_cost_risk := some (strOf "high") } }
      (strOf "r1") [] none false).status = strOf "success" := by decide
example :
    (runAgenticPipeline {} tReg
      { buildPlan := .ok { tables := [strOf "t"], query_cost_risk := some (strOf "high") } }
      (strOf "r1") [] none false).executedSqls.length = 1 := by decide
example :
    (critiqueStep (strOf "C_plan") (planPayload { tables := [strOf "t"], query_cost_risk := some (strOf "high") })).force_hitl = true := by decide
example :
    (runAgenticPipeline {} [(strOf "t", [strOf "update"])] {}
      (strOf "r2") [] none false).status = strOf "rejected" := by decide
example :
    (runAgenticPipeline {} [(strOf "t", [strOf "update"])] {}
      (strOf "r2") [] none false).executedSqls = [] := by decide
example :
    (runSqlQuery (strOf "SELECT a FROM t") [] 60 2
      (.chunked [({ cols := [strOf "a"], rows := [[strOf "1"], [strOf "2"], [strOf "3"]] }, 0)])
     |>.toOption.map (fun f => f.rows.length)) = some 2 := by decide
example :
    (runSqlQuery (strOf "WITH q AS (SELECT 1 AS b FROM t) SELECT b FROM q") [] 60 2
      (.whole {})).isOk = false := by decide
example :
    (runSqlQuery (strOf "/* c */ WITH x */ select a from t") [] 60 2
      (.whole {})).isOk = true := by decide
example :
    (executorRun {} (fun _ _ => { cols := [strOf "a"], rows := [[strOf "1"]] }) {}
      (strOf "SELECT a FROM t") []).isOk = true := by decide
example :
    (match executorRun {} (fun _ _ => { cols := [strOf "a"], rows := [[strOf "1"]] }) {}
        (strOf "SELECT a FROM t") [(strOf "p0", .vstr (strOf "x")), (strOf "p1", .vstr (strOf "y"))] with
     | .ok r =>
        (match executorRun {} (fun _ _ => { cols := [strOf "a"], rows := [] }) r.2.2
            (strOf "SELECT a FROM t") [(strOf "p1", .vstr (strOf "y")), (strOf "p0", .vstr (strOf "x"))] with
         | .ok r2 => some (r2.2.1.cache_hit, r2.1.rows.length, r2.2.2.sourceCalls)
         | .error _ => none)
     | .error _ => none) = some (true, 1, 1) := by decide
end Spec2Proof

-- ===========================================================================
-- Theorems
-- ===========================================================================

namespace Spec2Proof

/-- Helper: the seven recognized aggregation keywords. -/
def RECOGNIZED_AGGS : List Str :=
  [strOf "sum", strOf "avg", strOf "mean", strOf "min", strOf "max",
   strOf "count", strOf "count_distinct"]

/-- C6: an aggregation keyword that normalizes (lowercase, stripped) to none
of `sum, avg, mean, min, max, count, count_distinct` is compiled to `SUM`
over the resolved column; `count` ignores its column and counts rows with
`COUNT(1)`; `avg` and `mean` compile to the same `AVG` expression. -/
theorem c6_agg_mapping (agg col col' : Str)
    (h : pyStrip (lowerStr agg) ∉ RECOGNIZED_AGGS) :
    aggSql agg col = strOf "SUM(" ++ col ++ strOf ")"
    ∧ aggSql (strOf "count") col = strOf "COUNT(1)"
    ∧ aggSql (strOf "count") col = aggSql (strOf "count") col'
    ∧ aggSql (strOf "avg") col = aggSql (strOf "mean") col := by
  refine ⟨?_, rfl, rfl, rfl⟩
  simp only [RECOGNIZED_AGGS, List.mem_cons, List.not_mem_nil, or_false, not_or] at h
  obtain ⟨h1, h2, h3, h4, h5, h6, h7⟩ := h
  unfold aggSql
  simp only [h1, h2, h3, h4, h5, h6, h7, if_false, ite_false, or_self,
    decide_False, Bool.or_self, Bool.false_or, if_neg, Bool.false_eq_true]

theorem c6_agg_mapping_witness :
    pyStrip (lowerStr (strOf "SUMM")) ∉ RECOGNIZED_AGGS
    ∧ aggSql (strOf "SUMM") (strOf "t0.[b]") = strOf "SUM(" ++ strOf "t0.[b]" ++ strOf ")" :=
  ⟨by decide, (c6_agg_mapping (strOf "SUMM") (strOf "t0.[b]") (strOf "c") (by decide)).1⟩

end Spec2Proof

namespace Spec2Proof

/-- All rows the data source would yield for a query. -/
def sourceRowsAll : SourceResult → List (List Str)
  | .whole df => df.rows
  | .chunked cs => (cs.map (fun c => c.1.rows)).flatten

lemma ingest_spec (m : Nat) (t : Int) :
    ∀ (cs : List (Frame × Int)) (acc : List Frame) (rows : Nat),
      ∃ l, ingest m t acc rows cs = acc ++ l
        ∧ (l.map Frame.rows).flatten <+: (cs.map (fun c => c.1.rows)).flatten := by
  intro cs
  induction cs with
  | nil => intro acc rows; exact ⟨[], by simp [ingest]⟩
  | cons hd rest ih =>
    intro acc rows
    obtain ⟨ch, el⟩ := hd
    by_cases hemp : ch.rows.isEmpty
    · obtain ⟨l, hl, hp⟩ := ih acc rows
      refine ⟨l, by simp [ingest, hemp, hl], ?_⟩
      have : ch.rows = [] := by simpa [List.isEmpty_iff] using hemp
      simpa [this] using hp
    · by_cases h1 : rows + ch.rows.length ≥ m
      · refine ⟨[ch], by simp [ingest, hemp, h1], ?_⟩
        simp only [List.map_cons, List.map_nil, List.flatten_cons, List.flatten_nil,
          List.append_nil]
        exact (List.prefix_append ch.rows _)
      · by_cases h2 : el > t
        · refine ⟨[ch], by simp [ingest, hemp, h1, h2], ?_⟩
          simp only [List.map_cons, List.map_nil, List.flatten_cons, List.flatten_nil,
            List.append_nil]
          exact (List.prefix_append ch.rows _)
        · obtain ⟨l, hl, hp⟩ := ih (acc ++ [ch]) (rows + ch.rows.length)
          refine ⟨ch :: l, ?_, ?_⟩
          · simp [ingest, hemp, h1, h2, hl]
          · simp only [List.map_cons, List.flatten_cons]
            obtain ⟨tl, htl⟩ := hp
            exact ⟨tl, by rw [List.append_assoc, htl]⟩

/-- C9: `run_sql_query` never returns more than `max_rows` rows, whatever the
source stream yields, and the returned rows are an initial segment of the
source's rows (ingestion stops early; the concatenated result is truncated to
the ceiling even when the last consumed chunk overshoots it). -/
theorem c9_row_cap (sql : Str) (params : List (Str × FVal))
    (timeoutSeconds maxRows : Int) (src : SourceResult) (df : Frame)
    (hm : 0 < maxRows)
    (h : runSqlQuery sql params timeoutSeconds maxRows src = .ok df) :
    df.rows.length ≤ maxRows.toNat ∧ df.rows <+: sourceRowsAll src := by
  unfold runSqlQuery at h
  cases henf : enforceSelectOnly sql with
  | error e => rw [henf] at h; exact absurd h (by simp)
  | ok u =>
    rw [henf] at h
    have hmp : (if maxRows > 0 then maxRows else 200000) = maxRows := if_pos hm
    simp only [hmp] at h
    cases src with
    | whole df0 =>
      simp only [Except.ok.injEq] at h
      subst h
      constructor
      · simp only [frameHead]
        exact List.length_take_le _ _
      · simp only [frameHead, sourceRowsAll]
        exact List.take_prefix _ _
    | chunked cs =>
      simp only at h
      obtain ⟨l, hl, hp⟩ := ingest_spec maxRows.toNat
        (if timeoutSeconds > 0 then timeoutSeconds else 3600) cs [] 0
      rw [List.nil_append] at hl
      rw [hl] at h
      by_cases hle : l.isEmpty
      · rw [if_pos hle] at h
        simp only [Except.ok.injEq] at h
        subst h
        exact ⟨by simp, by simp [sourceRowsAll]⟩
      · rw [if_neg hle] at h
        set dfc := concatFrames l with hdfc
        have hrows : dfc.rows = (l.map Frame.rows).flatten := rfl
        by_cases hgt : dfc.rows.length > maxRows.toNat
        · rw [if_pos hgt] at h
          simp only [Except.ok.injEq] at h
          subst h
          refine ⟨by simp [frameHead], ?_⟩
          have h1 : (frameHead maxRows.toNat dfc).rows <+: dfc.rows := by
            simpa [frameHead] using List.take_prefix _ _
          rw [hrows] at h1
          exact h1.trans (by simpa [sourceRowsAll] using hp)
        · rw [if_neg hgt] at h
          simp only [Except.ok.injEq] at h
          subst h
          refine ⟨Nat.le_of_not_lt hgt, ?_⟩
          rw [hrows]
          simp only [sourceRowsAll]
          exact hp

theorem c9_row_cap_witness :
    (0 : Int) < 2
    ∧ runSqlQuery (strOf "SELECT a FROM t") [] 60 2
        (.chunked [({ cols := [strOf "a"], rows := [[strOf "1"], [strOf "2"], [strOf "3"]] }, 0)])
      = .ok { cols := [strOf "a"], rows := [[strOf "1"], [strOf "2"]] }
    ∧ ([[strOf "1"], [strOf "2"]] : List (List Str)).length ≤ (2 : Int).toNat
    ∧ ([[strOf "1"], [strOf "2"]] : List (List Str)) <+:
        sourceRowsAll (.chunked [({ cols := [strOf "a"], rows := [[strOf "1"], [strOf "2"], [strOf "3"]] }, 0)]) := by
  refine ⟨by decide, rfl, ?_, ?_⟩
  · exact (c9_row_cap (strOf "SELECT a FROM t") [] 60 2
      (.chunked [({ cols := [strOf "a"], rows := [[strOf "1"], [strOf "2"], [strOf "3"]] }, 0)])
      { cols := [strOf "a"], rows := [[strOf "1"], [strOf "2"]] } (by decide) rfl).1
  · exact (c9_row_cap (strOf "SELECT a FROM t") [] 60 2
      (.chunked [({ cols := [strOf "a"], rows := [[strOf "1"], [strOf "2"], [strOf "3"]] }, 0)])
      { cols := [strOf "a"], rows := [[strOf "1"], [strOf "2"]] } (by decide) rfl).2

end Spec2Proof

namespace Spec2Proof

/-- A registry with one table `t` holding one column `a`. -/
def regTA : Registry := [(strOf "t", [strOf "a"])]

/-- A plan whose `query_cost_risk` field is `"high"` (with a valid table, so
the only review trigger is the cost risk). -/
def highRiskPlan : Plan := { tables := [strOf "t"], query_cost_risk := some (strOf "high") }

/-- The pipeline run on `highRiskPlan` with no human-review edits supplied. -/
def highRiskRun : PipeResult :=
  runAgenticPipeline {} regTA { buildPlan := .ok highRiskPlan } (strOf "run1") [] none false

/-- C2 (code bug): the halt condition at the human-review checkpoint consults
the critique of the D-stage payload — a dict that is never `None` and carries
no plan fields — so its `force_hitl` is `false` for every payload the
pipeline can build there, and a run whose plan is flagged
`query_cost_risk="high"` (with no human-review edits) is never halted with
`needs_human_review`: it proceeds through SQL generation and execution to
`success`, even though the C-stage critique did set `force_hitl`. -/
theorem c2_high_risk_run_reaches_execution :
    (∀ (tt okT : Bool) (qcr : Option Str),
        (critiqueStep (strOf "D_human_review") (.dictP tt qcr okT)).force_hitl = false)
    ∧ highRiskRun.planCritique.map Critique.force_hitl = some true
    ∧ highRiskRun.status = strOf "success"
    ∧ highRiskRun.status ≠ strOf "needs_human_review"
    ∧ highRiskRun.executedSqls.length = 1 := by
  refine ⟨fun tt okT qcr => rfl, ?_, ?_, ?_, ?_⟩ <;> decide

end Spec2Proof

namespace Spec2Proof

lemma critD_force_false :
    (critiqueStep (strOf "D_human_review") reviewPayloadView).force_hitl = false := rfl

lemma pipelineAfterReview_spec (st : Settings) (reg : Registry) (orc : Oracles)
    (runId : Str) (critC : Critique) (plan : Plan) (allowed : List Str)
    (hrNone : Bool) :
    (∀ rep, (pipelineAfterReview st reg orc runId critC plan allowed hrNone).safety = some rep →
        rep.ok = false →
        (pipelineAfterReview st reg orc runId critC plan allowed hrNone).status = strOf "rejected"
        ∧ (pipelineAfterReview st reg orc runId critC plan allowed hrNone).executedSqls = [])
    ∧ (∀ s, s ∈ (pipelineAfterReview st reg orc runId critC plan allowed hrNone).executedSqls →
        (validate st s).ok = true) := by
  unfold pipelineAfterReview
  have hcd : (critiqueStep (strOf "D_human_review") reviewPayloadView).force_hitl = false := rfl
  simp only [hcd, Bool.false_and, Bool.false_eq_true, if_false]
  cases hgen : generateSql st reg plan allowed (some plan.large_mode) with
  | error e =>
    exact ⟨fun rep hrep hok => by simp [failedResult] at hrep, fun s hs => by simp [failedResult] at hs⟩
  | ok sb =>
      simp only
      by_cases hv : (validate st sb.1.sql).ok = false
      · simp only [hv, Bool.not_false, if_true]
        refine ⟨fun rep hrep hok => ⟨trivial, trivial⟩, fun s hs => by simp at hs⟩
      · have hvt : (validate st sb.1.sql).ok = true := by
          cases hx : (validate st sb.1.sql).ok with
          | false => exact absurd hx hv
          | true => rfl
        simp only [hvt, Bool.not_true, Bool.false_eq_true, if_false]
        have hfst : ∀ rep, some (validate st sb.1.sql) = some rep → rep.ok = false → False := by
          intro rep hrep hok
          rw [Option.some.injEq] at hrep
          rw [← hrep] at hok
          rw [hvt] at hok
          exact absurd hok (by simp)
        have hsnd : ∀ s : Str, s ∈ [sb.1.sql] → (validate st s).ok = true := by
          intro s hs
          rw [List.mem_singleton] at hs
          rw [hs]
          exact hvt
        cases orc.execute with
        | error e => exact ⟨fun rep hrep hok => absurd (hfst rep (by simpa [failedResult] using hrep) hok) not_false, fun s hs => hsnd s (by simpa [failedResult] using hs)⟩
        | ok df =>
          cases orc.dataQuality with
          | error e => exact ⟨fun rep hrep hok => absurd (hfst rep (by simpa [failedResult] using hrep) hok) not_false, fun s hs => hsnd s (by simpa [failedResult] using hs)⟩
          | ok dq =>
            by_cases hdq : dq.ok = false
            · simp only [hdq]
              exact ⟨fun rep hrep hok => absurd (hfst rep (by simpa using hrep) hok) not_false, fun s hs => hsnd s (by simpa using hs)⟩
            · have hdqt : (!dq.ok) = false := by
                cases hx : dq.ok with
                | false => exact absurd hx hdq
                | true => rfl
              simp only [hdqt, Bool.false_eq_true, if_false]
              cases orc.insights with
              | error e => exact ⟨fun rep hrep hok => absurd (hfst rep (by simpa [failedResult] using hrep) hok) not_false, fun s hs => hsnd s (by simpa [failedResult] using hs)⟩
              | ok _ =>
                cases orc.dashboard with
                | error e => exact ⟨fun rep hrep hok => absurd (hfst rep (by simpa [failedResult] using hrep) hok) not_false, fun s hs => hsnd s (by simpa [failedResult] using hs)⟩
                | ok _ => exact ⟨fun rep hrep hok => absurd (hfst rep (by simpa using hrep) hok) not_false, fun s hs => hsnd s (by simpa using hs)⟩

end Spec2Proof

namespace Spec2Proof

/-- C4: in every pipeline run, a safety report with `ok=false` halts the run
with terminal status `rejected` before the execute stage, and `Executor.run`
is only ever invoked with statements whose safety report has `ok=true`. -/
theorem c4_safety_gate (st : Settings) (reg : Registry) (orc : Oracles)
    (runId : Str) (allowedTables : List Str) (humanReview : Option HumanReview)
    (largeMode : Bool) :
    (∀ rep, (runAgenticPipeline st reg orc runId allowedTables humanReview largeMode).safety = some rep →
        rep.ok = false →
        (runAgenticPipeline st reg orc runId allowedTables humanReview largeMode).status = strOf "rejected"
        ∧ (runAgenticPipeline st reg orc runId allowedTables humanReview largeMode).executedSqls = [])
    ∧ (∀ s, s ∈ (runAgenticPipeline st reg orc runId allowedTables humanReview largeMode).executedSqls →
        (validate st s).ok = true) := by
  unfold runAgenticPipeline
  cases orc.intent with
  | error e => exact ⟨fun rep hrep hok => by simp [failedResult] at hrep, fun s hs => by simp [failedResult] at hs⟩
  | ok _ =>
    cases orc.schemaReasoning with
    | error e => exact ⟨fun rep hrep hok => by simp [failedResult] at hrep, fun s hs => by simp [failedResult] at hs⟩
    | ok _ =>
      cases orc.buildPlan with
      | error e => exact ⟨fun rep hrep hok => by simp [failedResult] at hrep, fun s hs => by simp [failedResult] at hs⟩
      | ok plan0 =>
        cases orc.reviewPacket with
        | error e => exact ⟨fun rep hrep hok => by simp [failedResult] at hrep, fun s hs => by simp [failedResult] at hs⟩
        | ok _ =>
          cases humanReview with
          | some hr =>
            cases orc.applyReview with
            | error e => exact ⟨fun rep hrep hok => by simp [failedResult] at hrep, fun s hs => by simp [failedResult] at hs⟩
            | ok ap => exact pipelineAfterReview_spec st reg orc runId _ _ _ _
          | none => exact pipelineAfterReview_spec st reg orc runId _ _ _ _

/-- Witness for C4: a run whose compiler output fails validation (a registry
column named `update`) ends `rejected` with nothing executed, and a healthy
run's single executed statement passes validation. -/
theorem c4_safety_gate_witness :
    ((runAgenticPipeline {} [(strOf "t", [strOf "update"])] {} (strOf "r2") [] none false).safety
        = some (validate {} (strOf "SELECT TOP (10000)\n  t0.[update] AS [update]\nFROM [t] AS t0"))
      ∧ (validate {} (strOf "SELECT TOP (10000)\n  t0.[update] AS [update]\nFROM [t] AS t0")).ok = false
      ∧ (runAgenticPipeline {} [(strOf "t", [strOf "update"])] {} (strOf "r2") [] none false).status = strOf "rejected"
      ∧ (runAgenticPipeline {} [(strOf "t", [strOf "update"])] {} (strOf "r2") [] none false).executedSqls = [])
    ∧ ((strOf "SELECT TOP (10000)\n  t0.[a] AS [a]\nFROM [t] AS t0")
          ∈ (runAgenticPipeline {} regTA { buildPlan := .ok { tables := [strOf "t"] } } (strOf "r3") [] none false).executedSqls
      ∧ (validate ({} : Settings) (strOf "SELECT TOP (10000)\n  t0.[a] AS [a]\nFROM [t] AS t0")).ok = true) := by
  refine ⟨⟨by decide, by decide, ?_, ?_⟩, ?_, ?_⟩
  · exact ((c4_safety_gate {} [(strOf "t", [strOf "update"])] {} (strOf "r2") [] none false).1
      (validate {} (strOf "SELECT TOP (10000)\n  t0.[update] AS [update]\nFROM [t] AS t0"))
      (by decide) (by decide)).1
  · exact ((c4_safety_gate {} [(strOf "t", [strOf "update"])] {} (strOf "r2") [] none false).1
      (validate {} (strOf "SELECT TOP (10000)\n  t0.[update] AS [update]\nFROM [t] AS t0"))
      (by decide) (by decide)).2
  · decide
  · exact (c4_safety_gate {} regTA { buildPlan := .ok { tables := [strOf "t"] } } (strOf "r3") [] none false).2
      (strOf "SELECT TOP (10000)\n  t0.[a] AS [a]\nFROM [t] AS t0") (by decide)

end Spec2Proof

namespace Spec2Proof

/-- C7: a plan with zero valid tables, given a non-empty allowlist whose
intersection with the registry is non-empty, compiles successfully; the final
table set is the first at most two tables of that intersection (hence
non-empty), it is written back into the plan, and the bundle reports
`recovered_tables = true`. -/
theorem c7_recovery (st : Settings) (reg : Registry) (plan : Plan)
    (allowedTables : List Str) (largeMode : Option Bool)
    (h1 : allowedTables.isEmpty = false)
    (h2 : (allowedTables.filter (fun t => (regTablesOf reg).contains t)).isEmpty = false)
    (h3 : (plan.tables.filter (fun t => (regTablesOf reg).contains t)).filter
            (fun t => (allowedTables.filter (fun u => (regTablesOf reg).contains u)).contains t) = []) :
    ∃ b plan2, generateSql st reg plan allowedTables largeMode = .ok (b, plan2)
      ∧ b.final_tables = (allowedTables.filter (fun t => (regTablesOf reg).contains t)).take 2
      ∧ b.final_tables ≠ []
      ∧ plan2.tables = b.final_tables
      ∧ b.recovered_tables = true := by
  have hrec : recoverTables (regTablesOf reg) allowedTables
      = (allowedTables.filter (fun t => (regTablesOf reg).contains t)).take 2 := by
    unfold recoverTables
    rw [h1]
    simp only [Bool.not_false, if_true]
    rw [h2]
    simp only [Bool.not_false, if_true]
  have hne : (allowedTables.filter (fun t => (regTablesOf reg).contains t)).take 2 ≠ [] := by
    intro hcon
    rw [List.take_eq_nil_iff] at hcon
    rcases hcon with hcon | hcon
    · exact absurd hcon (by decide)
    · rw [hcon] at h2
      simp at h2
  have hmem2 : ∀ t ∈ (allowedTables.filter (fun u => (regTablesOf reg).contains u)).take 2,
      (regTablesOf reg).contains t = true
      ∧ (allowedTables.filter (fun u => (regTablesOf reg).contains u)).contains t = true := by
    intro t ht
    have htm := List.mem_of_mem_take ht
    refine ⟨(List.of_mem_filter htm), ?_⟩
    exact List.elem_eq_true_of_mem htm
  unfold generateSql
  rw [h1]
  simp only [Bool.not_false, if_true, h3, List.isEmpty_nil, if_true, hrec]
  rw [if_neg (by simpa [List.isEmpty_iff] using hne)]
  refine ⟨_, _, rfl, rfl, hne, rfl, ?_⟩
  by_cases hpl : plan.tables.isEmpty
  · simp [hpl]
  · simp only [hpl, Bool.false_or, Bool.not_false, Bool.true_and]
    have hneq : plan.tables ≠ (allowedTables.filter (fun u => (regTablesOf reg).contains u)).take 2 := by
      intro heqq
      have hall : ∀ t ∈ plan.tables, (regTablesOf reg).contains t = true := by
        intro t ht
        rw [heqq] at ht
        exact (hmem2 t ht).1
      have hf0 : plan.tables.filter (fun t => (regTablesOf reg).contains t) = plan.tables :=
        List.filter_eq_self.mpr hall
      rw [hf0] at h3
      have hall2 : ∀ t ∈ plan.tables,
          ((allowedTables.filter (fun u => (regTablesOf reg).contains u)).contains t) = true := by
        intro t ht
        rw [heqq] at ht
        exact (hmem2 t ht).2
      have hf1 : plan.tables.filter
          (fun t => (allowedTables.filter (fun u => (regTablesOf reg).contains u)).contains t)
          = plan.tables := List.filter_eq_self.mpr hall2
      rw [hf1] at h3
      rw [h3] at hpl
      simp at hpl
    simpa using hneq

theorem c7_recovery_witness :
    (([strOf "u"] : List Str).isEmpty = false
      ∧ (([strOf "u"].filter (fun t => (regTablesOf [(strOf "u", [strOf "c"]), (strOf "t", [strOf "a"])]).contains t))).isEmpty = false
      ∧ ((([] : List Str).filter (fun t => (regTablesOf [(strOf "u", [strOf "c"]), (strOf "t", [strOf "a"])]).contains t)).filter
            (fun t => (([strOf "u"] : List Str).filter (fun u => (regTablesOf [(strOf "u", [strOf "c"]), (strOf "t", [strOf "a"])]).contains u)).contains t) = []))
    ∧ ∃ b plan2, generateSql {} [(strOf "u", [strOf "c"]), (strOf "t", [strOf "a"])] {} [strOf "u"] none = .ok (b, plan2)
      ∧ b.final_tables = ([strOf "u"].filter (fun t => (regTablesOf [(strOf "u", [strOf "c"]), (strOf "t", [strOf "a"])]).contains t)).take 2
      ∧ b.final_tables ≠ []
      ∧ plan2.tables = b.final_tables
      ∧ b.recovered_tables = true := by
  refine ⟨⟨by decide, by decide, by decide⟩, ?_⟩
  exact c7_recovery {} [(strOf "u", [strOf "c"]), (strOf "t", [strOf "a"])] {} [strOf "u"] none
    (by decide) (by decide) (by decide)

end Spec2Proof

namespace Spec2Proof

lemma strLeB_total : ∀ a b : Str, strLeB a b = true ∨ strLeB b a = true := by
  intro a
  induction a with
  | nil => intro b; left; rfl
  | cons c cs ih =>
    intro b
    cases b with
    | nil => right; rfl
    | cons d ds =>
      by_cases h : c = d
      · subst h
        simp only [strLeB, if_pos rfl]
        exact ih ds
      · rcases lt_trichotomy c d with hlt | heq | hgt
        · left; simp [strLeB, h, hlt]
        · exact absurd heq h
        · right; simp [strLeB, Ne.symm h, hgt]

lemma strLeB_trans : ∀ a b c : Str, strLeB a b = true → strLeB b c = true → strLeB a c = true := by
  intro a
  induction a with
  | nil => intro b c _ _; rfl
  | cons x xs ih =>
    intro b c hab hbc
    cases b with
    | nil => simp [strLeB] at hab
    | cons y ys =>
      cases c with
      | nil => simp [strLeB] at hbc
      | cons z zs =>
        by_cases hxy : x = y
        · subst hxy
          by_cases hyz : x = z
          · subst hyz
            simp only [strLeB, if_pos rfl] at hab hbc ⊢
            exact ih ys zs hab hbc
          · simp only [strLeB, if_neg hyz] at hbc ⊢
            exact hbc
        · simp only [strLeB, if_neg hxy] at hab
          by_cases hyz : y = z
          · subst hyz
            simp only [strLeB, if_neg hxy]
            exact hab
          · simp only [strLeB, if_neg hyz] at hbc
            have hxz : x < z := lt_trans (of_decide_eq_true hab) (of_decide_eq_true hbc)
            simp only [strLeB, if_neg (ne_of_lt hxz)]
            exact decide_eq_true hxz

lemma strLeB_antisymm : ∀ a b : Str, strLeB a b = true → strLeB b a = true → a = b := by
  intro a
  induction a with
  | nil => intro b _ hba; cases b with
    | nil => rfl
    | cons d ds => simp [strLeB] at hba
  | cons c cs ih =>
    intro b hab hba
    cases b with
    | nil => simp [strLeB] at hab
    | cons d ds =>
      by_cases h : c = d
      · subst h
        simp only [strLeB, if_pos rfl] at hab hba
        rw [ih ds hab hba]
      · simp only [strLeB, if_neg h, if_neg (Ne.symm h)] at hab hba
        exact absurd (lt_trans (of_decide_eq_true hab) (of_decide_eq_true hba)) (lt_irrefl c)

instance : IsTotal (Str × FVal) pairKeyLe :=
  ⟨fun a b => strLeB_total a.1 b.1⟩

instance : IsTrans (Str × FVal) pairKeyLe :=
  ⟨fun a b c => strLeB_trans a.1 b.1 c.1⟩

/-- Strict-by-key ordering used to identify the two sorted permutations. -/
def pairKeyLt (x y : Str × FVal) : Prop := pairKeyLe x y ∧ x.1 ≠ y.1

instance : IsAntisymm (Str × FVal) pairKeyLt :=
  ⟨fun _ _ hab hba => absurd (strLeB_antisymm _ _ hab.1 hba.1) hab.2⟩

lemma sortPairs_eq_of_perm (l₁ l₂ : List (Str × FVal)) (hp : l₁.Perm l₂)
    (hnd : (l₁.map Prod.fst).Nodup) : sortPairs l₁ = sortPairs l₂ := by
  have hperm : (sortPairs l₁).Perm (sortPairs l₂) :=
    (List.perm_insertionSort _ l₁).trans (hp.trans (List.perm_insertionSort _ l₂).symm)
  have hnd2 : (l₂.map Prod.fst).Nodup := ((hp.map Prod.fst).nodup_iff).mp hnd
  have hndk1 : ((sortPairs l₁).map Prod.fst).Nodup :=
    (((List.perm_insertionSort pairKeyLe l₁).map Prod.fst).nodup_iff).mpr hnd
  have hndk2 : ((sortPairs l₂).map Prod.fst).Nodup :=
    (((List.perm_insertionSort pairKeyLe l₂).map Prod.fst).nodup_iff).mpr hnd2
  have hkne1 : (sortPairs l₁).Pairwise (fun a b => a.1 ≠ b.1) :=
    (List.pairwise_map).mp hndk1
  have hkne2 : (sortPairs l₂).Pairwise (fun a b => a.1 ≠ b.1) :=
    (List.pairwise_map).mp hndk2
  have hs1 : (sortPairs l₁).Pairwise pairKeyLt :=
    (List.sorted_insertionSort pairKeyLe l₁).and hkne1
  have hs2 : (sortPairs l₂).Pairwise pairKeyLt :=
    (List.sorted_insertionSort pairKeyLe l₂).and hkne2
  exact List.eq_of_perm_of_sorted hperm hs1 hs2

lemma find?_map_update (k : Str) (df : Frame) :
    ∀ l : List (Str × Frame), (l.find? (fun e => e.1 == k)).isSome = true →
      (l.map (fun e => if e.1 == k then (k, df) else e)).find? (fun e => e.1 == k)
        = some (k, df) := by
  intro l
  induction l with
  | nil => intro h; simp [List.find?] at h
  | cons e es ih =>
    intro h
    by_cases he : (e.1 == k) = true
    · have heq : e.1 = k := eq_of_beq he
      simp [List.find?_cons, he, heq]
    · simp only [List.find?_cons, he, cond_false] at h
      simp only [List.map_cons, List.find?_cons, he, cond_false, Bool.false_eq_true, if_false]
      exact ih h

lemma find?_append_single (k : Str) (df : Frame) :
    ∀ l : List (Str × Frame), l.find? (fun e => e.1 == k) = none →
      (l ++ [(k, df)]).find? (fun e => e.1 == k) = some (k, df) := by
  intro l
  induction l with
  | nil => intro _; simp [List.find?]
  | cons e es ih =>
    intro h
    by_cases he : (e.1 == k) = true
    · simp only [List.find?_cons, he, cond_true] at h
      exact absurd h (by simp)
    · simp only [List.find?_cons, he, cond_false] at h
      rw [List.cons_append]
      simp only [List.find?_cons, he, cond_false]
      exact ih h

lemma cacheGet_cachePut_self (es : ExecState) (k : Str) (df : Frame) :
    cacheGet (cachePut es k df) k = some df := by
  unfold cacheGet cachePut
  by_cases h : (es.cache.find? (fun e => e.1 == k)).isSome = true
  · rw [if_pos h]
    rw [find?_map_update k df es.cache h]
    rfl
  · rw [if_neg h]
    have hn : es.cache.find? (fun e => e.1 == k) = none := by
      cases hx : es.cache.find? (fun e => e.1 == k) with
      | none => rfl
      | some v => rw [hx] at h; simp at h
    rw [find?_append_single k df es.cache hn]
    rfl

/-- C8: running the same statement with the same parameter map (in any key
order — the fingerprint sorts the pairs, and dict keys are unique) a second
time is served from the snapshot cache: `cache_hit=true`, identical row count
and columns, and no further read from the data source (whatever the source
would now return). -/
theorem c8_cache_roundtrip (st : Settings) (dbr dbr2 : Str → List (Str × FVal) → Frame)
    (es : ExecState) (sql : Str) (p p2 : List (Str × FVal))
    (hnd : (p.map Prod.fst).Nodup) (hperm : p2.Perm p)
    (df : Frame) (meta : ExecMeta) (es1 : ExecState)
    (h1 : executorRun st dbr es sql p = .ok (df, meta, es1)) :
    ∃ df2 meta2 es2, executorRun st dbr2 es1 sql p2 = .ok (df2, meta2, es2)
      ∧ meta2.cache_hit = true
      ∧ df2.rows.length = df.rows.length
      ∧ df2.cols = df.cols
      ∧ es2.sourceCalls = es1.sourceCalls := by
  have hkey : cacheKey sql p2 = cacheKey sql p := by
    unfold cacheKey
    rw [sortPairs_eq_of_perm p2 p hperm (((hperm.map Prod.fst).nodup_iff).mpr hnd)]
  unfold executorRun at h1
  cases hget : cacheGet es (cacheKey sql p) with
  | some df0 =>
    rw [hget] at h1
    simp only [Except.ok.injEq, Prod.mk.injEq] at h1
    obtain ⟨hdf, _, hes1⟩ := h1
    have hget1 : cacheGet es1 (cacheKey sql p) = some df := by
      rw [← hes1, ← hdf]
      exact hget
    unfold executorRun
    rw [hkey, hget1]
    exact ⟨df, _, _, rfl, rfl, rfl, rfl, rfl⟩
  | none =>
    rw [hget] at h1
    by_cases hoff : st.OFFLINE_ONLY = true
    · rw [if_pos hoff] at h1
      exact absurd h1 (by simp)
    · rw [if_neg hoff] at h1
      simp only [Except.ok.injEq, Prod.mk.injEq] at h1
      obtain ⟨hdf, _, hes1⟩ := h1
      have hget1 : cacheGet es1 (cacheKey sql p) = some df := by
        rw [← hes1, ← hdf]
        exact cacheGet_cachePut_self es (cacheKey sql p) (dbr sql p)
      unfold executorRun
      rw [hkey, hget1]
      exact ⟨df, _, _, rfl, rfl, rfl, rfl, rfl⟩

theorem c8_cache_roundtrip_witness :
    (([(strOf "p0", FVal.vstr (strOf "x")), (strOf "p1", FVal.vstr (strOf "y"))].map Prod.fst).Nodup
      ∧ ([(strOf "p1", FVal.vstr (strOf "y")), (strOf "p0", FVal.vstr (strOf "x"))]).Perm
          [(strOf "p0", FVal.vstr (strOf "x")), (strOf "p1", FVal.vstr (strOf "y"))])
    ∧ ∃ df2 meta2 es2,
        executorRun {} (fun _ _ => { cols := [strOf "a"], rows := [] })
          (match executorRun {} (fun _ _ => { cols := [strOf "a"], rows := [[strOf "1"]] }) {}
              (strOf "SELECT a FROM t")
              [(strOf "p0", FVal.vstr (strOf "x")), (strOf "p1", FVal.vstr (strOf "y"))] with
           | .ok r => r.2.2
           | .error _ => {})
          (strOf "SELECT a FROM t")
          [(strOf "p1", FVal.vstr (strOf "y")), (strOf "p0", FVal.vstr (strOf "x"))]
        = .ok (df2, meta2, es2)
        ∧ meta2.cache_hit = true
        ∧ df2.rows.length = 1 := by
  refine ⟨⟨by decide, List.Perm.swap _ _ _⟩, ?_⟩
  obtain ⟨df2, meta2, es2, hrun, hhit, hlen, _, _⟩ :=
    c8_cache_roundtrip {} (fun _ _ => { cols := [strOf "a"], rows := [[strOf "1"]] })
      (fun _ _ => { cols := [strOf "a"], rows := [] }) {}
      (strOf "SELECT a FROM t")
      [(strOf "p0", FVal.vstr (strOf "x")), (strOf "p1", FVal.vstr (strOf "y"))]
      [(strOf "p1", FVal.vstr (strOf "y")), (strOf "p0", FVal.vstr (strOf "x"))]
      (by decide) (List.Perm.swap _ _ _)
      { cols := [strOf "a"], rows := [[strOf "1"]] } _ _ rfl
  exact ⟨df2, meta2, es2, by simpa using hrun, hhit, by rw [hlen]; rfl⟩

end Spec2Proof

namespace Spec2Proof

lemma validate_fail_or_limit (st : Settings) (sql : Str) :
    (∃ r, validate st sql = failReport r)
    ∨ validate st sql = limitReport st (formatSql (pyStrip sql)) := by
  simp only [validate]
  repeat' split
  all_goals first
    | exact Or.inl ⟨_, rfl⟩
    | exact Or.inr rfl

lemma validate_ok_shape (st : Settings) (sql : Str)
    (h : (validate st sql).ok = true) :
    validate st sql = limitReport st (pyStrip sql) := by
  rcases validate_fail_or_limit st sql with ⟨r, hr⟩ | hl
  · rw [hr] at h
    exact absurd h (by simp [failReport])
  · rw [hl]
    rfl

end Spec2Proof

namespace Spec2Proof

lemma enforce_of_detectors (st : Settings) (n : Str)
    (hd : (hasTopClause (lowerStr n) || hasOffsetFetch (lowerStr n)
          || hasLimitClause (lowerStr n)) = true) :
    enforceRowLimitIfMissing st n = n := by
  simp only [enforceRowLimitIfMissing]
  rw [if_pos hd]

lemma enforce_insert (st : Settings) (n : Str) (i k : Nat)
    (hd : (hasTopClause (lowerStr n) || hasOffsetFetch (lowerStr n)
          || hasLimitClause (lowerStr n)) = false)
    (hf : findSelMatch none 0 n = some (i, k)) :
    enforceRowLimitIfMissing st n
      = n.take (i + k) ++ strOf " TOP ("
        ++ intToStr (if st.MAX_RETURNED_ROWS ≤ 0 then 200000 else st.MAX_RETURNED_ROWS)
        ++ strOf ") " ++ n.drop (i + k) := by
  simp only [enforceRowLimitIfMissing]
  rw [if_neg (by rw [hd]; exact Bool.false_ne_true), hf]

lemma insert_longer (n : Str) (m : Nat) (d : Str) :
    (n.take m ++ strOf " TOP (" ++ d ++ strOf ") " ++ n.drop m) ≠ n := by
  intro hcon
  have hlen := congrArg List.length hcon
  simp only [List.length_append] at hlen
  have h1 : (List.take m n).length = min m n.length := List.length_take m n
  have h2 : (List.drop m n).length = n.length - m := List.length_drop m n
  have h6 : (strOf " TOP (").length = 6 := rfl
  have h7 : (strOf ") ").length = 2 := rfl
  rw [h1, h2, h6, h7] at hlen
  omega

/-- C5: the claim is false as stated.  `validate` accepts `"selectx from t"`
(sqlparse's first token `selectx` passes the `startswith("select")` test) and
the text contains no `TOP(...)`, `OFFSET…FETCH` or `LIMIT` clause, yet the
insertion anchor `\bSELECT\s+` never matches, so no row limit is inserted:
the normalized SQL is returned unchanged and `enforced_limit` records
`applied=false`, refuting the claimed "if and only if". -/
theorem c5_counterexample :
    (validate {} (strOf "selectx from t")).ok = true
    ∧ hasTopClause (lowerStr (pyStrip (strOf "selectx from t"))) = false
    ∧ hasOffsetFetch (lowerStr (pyStrip (strOf "selectx from t"))) = false
    ∧ hasLimitClause (lowerStr (pyStrip (strOf "selectx from t"))) = false
    ∧ (validate {} (strOf "selectx from t")).normalized_sql
        = some (pyStrip (strOf "selectx from t"))
    ∧ (validate {} (strOf "selectx from t")).enforced_limit
        = some { applied := false } := by
  refine ⟨by decide, by decide, by decide, by decide, by decide, by decide⟩

/-- C5 (amended): for every SQL text accepted by `validate` whose text
contains `SELECT` followed by whitespace (the insertion anchor
`\bSELECT\s+`), a row limit is inserted into the normalized SQL immediately
after the leftmost `SELECT [DISTINCT]` if and only if no `TOP(...)`,
`OFFSET…FETCH` or `LIMIT` pattern is present; when nothing is inserted the
normalized SQL is returned unchanged and `enforced_limit` records
`applied=false`. -/
theorem c5_row_limit (st : Settings) (sql : Str)
    (hok : (validate st sql).ok = true)
    (hsel : (findSelMatch none 0 (pyStrip sql)).isSome = true) :
    (if (hasTopClause (lowerStr (pyStrip sql)) || hasOffsetFetch (lowerStr (pyStrip sql))
        || hasLimitClause (lowerStr (pyStrip sql))) = true then
       (validate st sql).normalized_sql = some (pyStrip sql)
       ∧ (validate st sql).enforced_limit = some { applied := false }
     else
       ∃ i k, findSelMatch none 0 (pyStrip sql) = some (i, k)
         ∧ (validate st sql).normalized_sql = some ((pyStrip sql).take (i + k)
             ++ strOf " TOP ("
             ++ intToStr (if st.MAX_RETURNED_ROWS ≤ 0 then 200000 else st.MAX_RETURNED_ROWS)
             ++ strOf ") " ++ (pyStrip sql).drop (i + k))
         ∧ (validate st sql).normalized_sql ≠ some (pyStrip sql)
         ∧ (validate st sql).enforced_limit
             = some { applied := true, max_rows := some st.MAX_RETURNED_ROWS }) := by
  rw [validate_ok_shape st sql hok]
  by_cases hd : (hasTopClause (lowerStr (pyStrip sql)) || hasOffsetFetch (lowerStr (pyStrip sql))
      || hasLimitClause (lowerStr (pyStrip sql))) = true
  · rw [if_pos hd]
    have he := enforce_of_detectors st (pyStrip sql) hd
    simp only [limitReport]
    rw [if_neg (show ¬(enforceRowLimitIfMissing st (pyStrip sql) ≠ pyStrip sql) from
      fun hne => hne he)]
    exact ⟨rfl, rfl⟩
  · rw [if_neg hd]
    have hdf : (hasTopClause (lowerStr (pyStrip sql)) || hasOffsetFetch (lowerStr (pyStrip sql))
        || hasLimitClause (lowerStr (pyStrip sql))) = false := by
      cases hx : (hasTopClause (lowerStr (pyStrip sql)) || hasOffsetFetch (lowerStr (pyStrip sql))
        || hasLimitClause (lowerStr (pyStrip sql))) with
      | false => rfl
      | true => exact absurd hx hd
    obtain ⟨p, hf⟩ := Option.isSome_iff_exists.mp hsel
    obtain ⟨i, k⟩ := p
    have he := enforce_insert st (pyStrip sql) i k hdf hf
    have hne : enforceRowLimitIfMissing st (pyStrip sql) ≠ pyStrip sql := by
      rw [he]
      exact insert_longer _ _ _
    refine ⟨i, k, hf, ?_, ?_, ?_⟩
    · simp only [limitReport]
      rw [if_pos hne, he]
    · simp only [limitReport]
      rw [if_pos hne]
      intro hcon
      rw [Option.some.injEq] at hcon
      exact hne hcon
    · simp only [limitReport]
      rw [if_pos hne]

theorem c5_row_limit_witness :
    ((validate {} (strOf "SELECT TOP (5) a FROM t")).ok = true
      ∧ (findSelMatch none 0 (pyStrip (strOf "SELECT TOP (5) a FROM t"))).isSome = true
      ∧ (validate {} (strOf "SELECT TOP (5) a FROM t")).normalized_sql
          = some (pyStrip (strOf "SELECT TOP (5) a FROM t"))
      ∧ (validate {} (strOf "SELECT TOP (5) a FROM t")).enforced_limit = some { applied := false })
    ∧ ((validate {} (strOf "SELECT a FROM t")).ok = true
      ∧ (findSelMatch none 0 (pyStrip (strOf "SELECT a FROM t"))).isSome = true
      ∧ (validate {} (strOf "SELECT a FROM t")).normalized_sql ≠ some (pyStrip (strOf "SELECT a FROM t"))
      ∧ (validate {} (strOf "SELECT a FROM t")).enforced_limit
          = some { applied := true, max_rows := some 200000 }) := by
  refine ⟨⟨by decide, by decide, ?_, ?_⟩, by decide, by decide, ?_, ?_⟩
  · have := c5_row_limit {} (strOf "SELECT TOP (5) a FROM t") (by decide) (by decide)
    rw [if_pos (by decide)] at this
    exact this.1
  · have := c5_row_limit {} (strOf "SELECT TOP (5) a FROM t") (by decide) (by decide)
    rw [if_pos (by decide)] at this
    exact this.2
  · have := c5_row_limit {} (strOf "SELECT a FROM t") (by decide) (by decide)
    rw [if_neg (by decide)] at this
    obtain ⟨i, k, _, _, hne, _⟩ := this
    exact hne
  · have := c5_row_limit {} (strOf "SELECT a FROM t") (by decide) (by decide)
    rw [if_neg (by decide)] at this
    obtain ⟨i, k, _, _, _, hap⟩ := this
    exact hap

end Spec2Proof

namespace Spec2Proof

lemma validate_ok_marker_free (st : Settings) (sql : Str)
    (hok : (validate st sql).ok = true) (p : Str) (hp : p ∈ COMMENT_PATTERNS) :
    containsSub p (pyStrip sql) = false := by
  cases hx : containsSub p (pyStrip sql) with
  | false => rfl
  | true =>
    exfalso
    have hany : (COMMENT_PATTERNS.any fun q => containsSub q (pyStrip sql)) = true :=
      List.any_eq_true.mpr ⟨p, hp, hx⟩
    simp only [validate] at hok
    by_cases h1 : ((pyStrip sql).isEmpty = true)
    · rw [if_pos h1] at hok
      simp [failReport] at hok
    · rw [if_neg h1, if_pos hany] at hok
      simp [failReport] at hok

/-- Without `--` or `/*` in the text, the comment-skipping group of
`_SELECT_ONLY_RE` can only consume whitespace, so a match forces `select`
(case-insensitively) right after the leading whitespace. -/
lemma selectOnlySkip_select_prefix : ∀ (fuel : Nat) (u : Str),
    containsSub (strOf "--") u = false →
    containsSub (strOf "/*") u = false →
    selectOnlySkip fuel u = true →
    (strOf "select").isPrefixOf (lowerStr (u.dropWhile isWs)) = true := by
  intro fuel
  induction fuel with
  | zero =>
    intro u _ _ h
    simp [selectOnlySkip] at h
  | succ n ih =>
    intro u h2 h3 h
    simp only [selectOnlySkip] at h
    rw [Bool.or_eq_true] at h
    rcases h with hA | hB
    · have hci : ciPrefix (strOf "select") (u.take 6) = true := by
        simp only [Bool.and_eq_true] at hA
        exact hA.1.1
      rw [ciPrefix] at hci
      have hpre6 : strOf "select" <+: lowerStr (u.take 6) :=
        List.isPrefixOf_iff_prefix.mp hci
      have hmt : lowerStr (u.take 6) = (lowerStr u).take 6 := by
        simp [lowerStr, List.map_take]
      rw [hmt] at hpre6
      have hpre : strOf "select" <+: lowerStr u :=
        hpre6.trans (List.take_prefix 6 (lowerStr u))
      cases u with
      | nil =>
        exfalso
        obtain ⟨t, ht⟩ := hpre
        have hlen := congrArg List.length ht
        rw [List.length_append] at hlen
        have h6 : (strOf "select").length = 6 := rfl
        rw [h6] at hlen
        simp [lowerStr] at hlen
      | cons c rest =>
        obtain ⟨t, ht⟩ := hpre
        have hc : pyToLower c = 's' := by
          have ht' : ('s' : Char) :: (strOf "elect" ++ t) = pyToLower c :: lowerStr rest := ht
          injection ht' with hhead _
          exact hhead.symm
        have hws : isWs c = false := by
          cases hxw : isWs c with
          | false => rfl
          | true =>
            exfalso
            simp only [isWs, Bool.or_eq_true, decide_eq_true_eq] at hxw
            rcases hxw with ((((hcw | hcw) | hcw) | hcw) | hcw) | hcw <;>
              subst hcw <;> exact absurd hc (by decide)
        rw [List.dropWhile_cons, if_neg (by rw [hws]; exact Bool.false_ne_true)]
        exact List.isPrefixOf_iff_prefix.mpr ⟨t, ht⟩
    · cases u with
      | nil => simp at hB
      | cons c rest =>
        simp only [containsSub, Bool.or_eq_false_iff] at h2 h3
        have hB' : (if (strOf "--").isPrefixOf (c :: rest) then
              match afterChar '\n' ((c :: rest).drop 2) with
              | some v => selectOnlySkip n v
              | none => false
            else if (strOf "/*").isPrefixOf (c :: rest) then
              (allAfterSub (strOf "*/") ((c :: rest).drop 2)).any fun v => selectOnlySkip n v
            else if isWs c then selectOnlySkip n rest
            else false) = true := hB
        rw [if_neg (by rw [h2.1]; exact Bool.false_ne_true)] at hB'
        rw [if_neg (by rw [h3.1]; exact Bool.false_ne_true)] at hB'
        by_cases hwsc : isWs c = true
        · rw [if_pos hwsc] at hB'
          have hres := ih rest h2.2 h3.2 hB'
          rw [List.dropWhile_cons, if_pos hwsc]
          exact hres
        · rw [if_neg hwsc] at hB'
          exact absurd hB' Bool.false_ne_true

/-- C10 counterexample: the text `/* c */ WITH x */ select a from t` has
first semantic token `WITH` (the first block comment ends at the first `*/`),
yet the DB layer's SELECT-only check accepts it — the lazy `.*?` of
`_SELECT_ONLY_RE` extends the block comment to the second `*/` under DOTALL —
and `run_sql_query` executes it instead of raising `ValueError`.  So it is
not the case that every SQL string whose first semantic token is WITH is
rejected by `run_sql_query`. -/
theorem c10_counterexample :
    (firstSemanticToken (strOf "/* c */ WITH x */ select a from t")).map lowerStr
        = some (strOf "with")
    ∧ enforceSelectOnly (strOf "/* c */ WITH x */ select a from t") = Except.ok ()
    ∧ runSqlQuery (strOf "/* c */ WITH x */ select a from t") [] 30 100
        (SourceResult.whole { cols := [strOf "a"], rows := [[strOf "1"]] })
        = Except.ok { cols := [strOf "a"], rows := [[strOf "1"]] } :=
  ⟨rfl, rfl, rfl⟩

/-- C10 (amended): for every SQL text the safety validator accepts whose
first non-whitespace token begins with `with` (case-insensitively), the
DB-layer entry point `run_sql_query` raises `ValueError`: validator approval
rules out comment markers, and without comment markers the SELECT-only regex
only accepts texts whose first token is SELECT.  So a validator-approved WITH
query can never execute through the DB layer.  (For texts with comment
markers the per-token claim fails; see the counterexample.) -/
theorem c10_with_rejected (st : Settings) (sql : Str) (params : List (Str × FVal))
    (tmo mx : Int) (src : SourceResult)
    (hok : (validate st sql).ok = true)
    (hw : (strOf "with").isPrefixOf (lowerStr ((pyStrip sql).dropWhile isWs)) = true) :
    ∃ e, runSqlQuery sql params tmo mx src = Except.error e := by
  have hdd := validate_ok_marker_free st sql hok (strOf "--") (by decide)
  have hbo := validate_ok_marker_free st sql hok (strOf "/*") (by decide)
  have hsel : selectOnlyMatches (pyStrip sql) = false := by
    cases hx : selectOnlyMatches (pyStrip sql) with
    | false => rfl
    | true =>
      exfalso
      rw [selectOnlyMatches] at hx
      have hpre := selectOnlySkip_select_prefix ((pyStrip sql).length + 1) (pyStrip sql)
        hdd hbo hx
      obtain ⟨t, ht⟩ := List.isPrefixOf_iff_prefix.mp hpre
      obtain ⟨t2, ht2⟩ := List.isPrefixOf_iff_prefix.mp hw
      rw [← ht] at ht2
      have hh : (strOf "with" ++ t2).head? = (strOf "select" ++ t).head? := by rw [ht2]
      have h1 : (strOf "with" ++ t2).head? = some 'w' := rfl
      have h2 : (strOf "select" ++ t).head? = some 's' := rfl
      rw [h1, h2] at hh
      exact absurd hh (by decide)
  cases he : enforceSelectOnly sql with
  | error e =>
    refine ⟨e, ?_⟩
    simp only [runSqlQuery, he]
  | ok u =>
    exfalso
    simp only [enforceSelectOnly] at he
    split at he
    · exact Except.noConfusion he
    · split at he
      · exact Except.noConfusion he
      · split at he
        · exact Except.noConfusion he
        · split at he
          · exact Except.noConfusion he
          · rename_i hcon
            exact hcon (by rw [hsel]; rfl)

theorem c10_with_rejected_witness :
    ((validate {} (strOf "WITH q AS (SELECT 1 AS b FROM t) SELECT b FROM q")).ok = true
      ∧ (strOf "with").isPrefixOf
          (lowerStr ((pyStrip (strOf "WITH q AS (SELECT 1 AS b FROM t) SELECT b FROM q")).dropWhile
            isWs)) = true)
    ∧ ∃ e, runSqlQuery (strOf "WITH q AS (SELECT 1 AS b FROM t) SELECT b FROM q") [] 30 100
        (SourceResult.whole { cols := [strOf "b"], rows := [[strOf "1"]] })
        = Except.error e :=
  ⟨⟨by decide, by decide⟩,
   c10_with_rejected {} (strOf "WITH q AS (SELECT 1 AS b FROM t) SELECT b FROM q") [] 30 100
     (SourceResult.whole { cols := [strOf "b"], rows := [[strOf "1"]] })
     (by decide) (by decide)⟩

end Spec2Proof

namespace Spec2Proof

/-- `generate_sql` seen through the factored pieces (definitional equality). -/
lemma generateSql_cases (st : Settings) (reg : Registry) (plan : Plan)
    (allowedTables : List Str) (largeMode : Option Bool) :
    generateSql st reg plan allowedTables largeMode
      = if (gsTables reg plan allowedTables).isEmpty then
          .error (strOf "Schema registry has no tables. Run schema bootstrap/ingestion first.")
        else .ok (okBundle st reg (gsPlan1 reg plan allowedTables) plan.tables largeMode
                    (gsTables reg plan allowedTables)) := rfl

lemma append_singleton_inj (l1 l2 : Str) (a b : Char) (h : l1 ++ [a] = l2 ++ [b]) :
    a = b ∧ l1 = l2 := by
  have hr := congrArg List.reverse h
  simp only [List.reverse_append, List.reverse_singleton, List.singleton_append] at hr
  injection hr with h1 h2
  refine ⟨h1, ?_⟩
  rw [← List.reverse_reverse l1, h2, List.reverse_reverse]

lemma pyStrip_ne_nil (s : Str) (c : Char) (hc : c ∈ s) (hw : isWs c = false) :
    pyStrip s ≠ [] := by
  intro h
  rw [pyStrip, pyRStrip] at h
  rw [List.reverse_eq_nil_iff] at h
  rw [List.dropWhile_eq_nil_iff] at h
  have hcd : c ∈ List.dropWhile isWs s := by
    have hsplit : List.takeWhile isWs s ++ List.dropWhile isWs s = s :=
      List.takeWhile_append_dropWhile isWs s
    rw [← hsplit] at hc
    rcases List.mem_append.mp hc with h1 | h2
    · have := List.mem_takeWhile_imp h1
      rw [hw] at this
      exact absurd this Bool.false_ne_true
    · exact h2
  have := h c (by rw [List.mem_reverse]; exact hcd)
  rw [hw] at this
  exact Bool.false_ne_true this

lemma dropWhile_head_false (p : Char → Bool) :
    ∀ (l : Str) (c : Char) (rest : Str), l.dropWhile p = c :: rest → p c = false := by
  intro l
  induction l with
  | nil => intro c rest h; simp at h
  | cons a t ih =>
    intro c rest h
    rw [List.dropWhile_cons] at h
    by_cases hp : p a = true
    · rw [if_pos hp] at h
      exact ih c rest h
    · rw [if_neg hp] at h
      injection h with h1 _
      subst h1
      cases hpa : p a with
      | false => rfl
      | true => exact absurd hpa hp

lemma pyStrip_last_nonws (s : Str) (h : pyStrip s ≠ []) :
    ∃ z c0, pyStrip s = z ++ [c0] ∧ isWs c0 = false := by
  have hps : pyStrip s = ((List.dropWhile isWs s).reverse.dropWhile isWs).reverse := rfl
  cases hv : (List.dropWhile isWs s).reverse.dropWhile isWs with
  | nil => rw [hps, hv] at h; simp at h
  | cons c0 v' =>
    refine ⟨v'.reverse, c0, ?_, dropWhile_head_false isWs _ c0 v' hv⟩
    rw [hps, hv, List.reverse_cons]

lemma findClose_spec : ∀ (w content g : Str), findClose content w = some g →
    ∃ tail, g ++ ']' :: tail = content ++ w ∧ allWs tail = true ∧ g ≠ [] := by
  intro w
  induction w with
  | nil => intro content g h; simp [findClose] at h
  | cons c rest ih =>
    intro content g h
    rw [findClose] at h
    by_cases h1 : (c = ']' && !content.isEmpty && allWs rest) = true
    · rw [if_pos h1] at h
      injection h with h2
      simp only [Bool.and_eq_true] at h1
      obtain ⟨⟨hc, hne⟩, hws⟩ := h1
      have hc' : c = ']' := of_decide_eq_true hc
      subst hc'
      subst h2
      refine ⟨rest, rfl, hws, ?_⟩
      intro hcon
      rw [hcon] at hne
      exact absurd hne (by decide)
    · rw [if_neg h1] at h
      by_cases h2 : c = '\x0a'
      · rw [if_pos h2] at h
        exact absurd h (by simp)
      · rw [if_neg h2] at h
        obtain ⟨tail, ht, hws, hg⟩ := ih (content ++ [c]) g h
        refine ⟨tail, ?_, hws, hg⟩
        rw [ht]
        simp

lemma tryAliasAt_spec (u g : Str) (h : tryAliasAt u = some g) :
    ∃ w, ('[' :: w) <:+ u ∧ findClose [] w = some g := by
  simp only [tryAliasAt] at h
  by_cases h1 : wsRunLen u = 0
  · rw [if_pos h1] at h
    exact absurd h (by simp)
  · rw [if_neg h1] at h
    cases hd : u.drop (wsRunLen u) with
    | nil => rw [hd] at h; simp at h
    | cons a tl =>
      cases tl with
      | nil => rw [hd] at h; simp at h
      | cons s2 v =>
        rw [hd] at h
        have h' : (if (a = 'a' || a = 'A') && (s2 = 's' || s2 = 'S') then
              if wsRunLen v = 0 then none
              else
                match v.drop (wsRunLen v) with
                | '[' :: w => findClose [] w
                | _ => none
            else none) = some g := h
        by_cases h2 : ((a = 'a' || a = 'A') && (s2 = 's' || s2 = 'S')) = true
        · rw [if_pos h2] at h'
          by_cases h3 : wsRunLen v = 0
          · rw [if_pos h3] at h'
            simp at h'
          · rw [if_neg h3] at h'
            cases hd2 : v.drop (wsRunLen v) with
            | nil => rw [hd2] at h'; simp at h'
            | cons b w =>
              rw [hd2] at h'
              by_cases h4 : b = '['
              · subst h4
                refine ⟨w, ?_, h'⟩
                have s1 : ('[' :: w) <:+ v := by
                  rw [← hd2]
                  exact List.drop_suffix _ _
                have s3 : v <:+ a :: s2 :: v :=
                  (List.suffix_cons s2 v).trans (List.suffix_cons a (s2 :: v))
                have s4 : (a :: s2 :: v) <:+ u := by
                  rw [← hd]
                  exact List.drop_suffix _ _
                exact s1.trans (s3.trans s4)
              · have h'' : (match (b :: w : Str) with
                    | '[' :: w => findClose [] w
                    | _ => none) = some g := h'
                rw [show (match (b :: w : Str) with
                    | '[' :: w => findClose [] w
                    | _ => none) = none from by
                  split
                  · rename_i heqx
                    injection heqx with hbx _
                    exact absurd hbx h4
                  · rfl] at h''
                exact absurd h'' (by simp)
        · rw [if_neg h2] at h'
          exact absurd h' (by simp)

lemma aliasSearchAux_spec : ∀ (s : Str) (i j : Nat) (g : Str),
    aliasSearchAux i s = some (j, g) → ∃ u, u <:+ s ∧ tryAliasAt u = some g := by
  intro s
  induction s with
  | nil => intro i j g h; simp [aliasSearchAux] at h
  | cons c rest ih =>
    intro i j g h
    rw [aliasSearchAux] at h
    cases ht : tryAliasAt (c :: rest) with
    | some g2 =>
      rw [ht] at h
      have h' : some (i, g2) = some (j, g) := h
      injection h' with h2
      injection h2 with _ h3
      exact ⟨c :: rest, List.suffix_refl _, by rw [ht, h3]⟩
    | none =>
      rw [ht] at h
      have h' : aliasSearchAux (i + 1) rest = some (j, g) := h
      obtain ⟨u, hu, htt⟩ := ih (i + 1) j g h'
      exact ⟨u, hu.trans (List.suffix_cons c rest), htt⟩

/-- Any leftmost match of the alias regex decomposes the text as
`pre ++ "[" ++ group ++ "]" ++ tail` with an all-whitespace tail and a
nonempty group. -/
lemma alias_group_decomp (s : Str) (i : Nat) (g : Str)
    (h : aliasSearch s = some (i, g)) :
    ∃ pre tail, pre ++ ('[' :: (g ++ ']' :: tail)) = s
      ∧ allWs tail = true ∧ g ≠ [] := by
  rw [aliasSearch] at h
  obtain ⟨u, hu, htry⟩ := aliasSearchAux_spec s 0 i g h
  obtain ⟨w, hwu, hfc⟩ := tryAliasAt_spec u g htry
  obtain ⟨tail, htl, hws, hg⟩ := findClose_spec w [] g hfc
  rw [List.nil_append] at htl
  have hws2 : ('[' :: w) <:+ s := hwu.trans hu
  obtain ⟨pre, hpre⟩ := hws2
  refine ⟨pre, tail, ?_, hws, hg⟩
  rw [← htl] at hpre
  exact hpre

lemma group_decomp_tail_nil (pre g tail y : Str)
    (hdec : pre ++ ('[' :: (g ++ ']' :: tail)) = y ++ [']'])
    (hws : allWs tail = true) :
    tail = [] ∧ pre ++ ('[' :: g) = y := by
  rcases List.eq_nil_or_concat tail with h0 | ⟨t2, c0, hc0⟩
  · subst h0
    have hre : pre ++ ('[' :: (g ++ [']'])) = (pre ++ ('[' :: g)) ++ [']'] := by simp
    rw [hre] at hdec
    exact ⟨rfl, (append_singleton_inj _ _ _ _ hdec).2⟩
  · exfalso
    subst hc0
    rw [List.concat_eq_append] at hdec hws
    have hre : pre ++ ('[' :: (g ++ ']' :: (t2 ++ [c0])))
        = (pre ++ ('[' :: (g ++ ']' :: t2))) ++ [c0] := by simp
    rw [hre] at hdec
    have hcc := (append_singleton_inj _ _ _ _ hdec).1
    subst hcc
    rw [allWs] at hws
    have := List.all_eq_true.mp hws ']' (by simp)
    exact absurd this (by decide)

/-- Core A: any column expression ending in a non-whitespace character
followed by `]` has a stripped alias group that is nonempty (when the
regex matches). -/
lemma coreA_group (y : Str) (c0 : Char) (i : Nat) (g : Str)
    (h0 : isWs c0 = false)
    (hm : aliasSearch (y ++ [c0, ']']) = some (i, g)) :
    pyStrip g ≠ [] := by
  obtain ⟨pre, tail, hdec, hws, hg⟩ := alias_group_decomp _ i g hm
  have hsh : y ++ [c0, ']'] = (y ++ [c0]) ++ [']'] := by simp
  rw [hsh] at hdec
  obtain ⟨-, heq⟩ := group_decomp_tail_nil pre g tail (y ++ [c0]) hdec hws
  rcases List.eq_nil_or_concat g with h0g | ⟨g2, gc, hgc⟩
  · exact absurd h0g hg
  · subst hgc
    rw [List.concat_eq_append] at heq
    have hre : pre ++ ('[' :: (g2 ++ [gc])) = (pre ++ ('[' :: g2)) ++ [gc] := by simp
    rw [hre] at heq
    have hcc := (append_singleton_inj _ _ _ _ heq).1
    subst hcc
    exact pyStrip_ne_nil _ gc (by simp) h0

/-- `_alias_name` of a column expression ending in a non-whitespace
character before the final `]` strips to a nonempty name. -/
lemma coreA (y : Str) (c0 : Char) (h0 : isWs c0 = false) :
    pyStrip (aliasName (y ++ [c0, ']'])) ≠ [] := by
  cases hm : aliasSearch (y ++ [c0, ']']) with
  | none =>
    have hn : aliasName (y ++ [c0, ']']) = y ++ [c0, ']'] := by
      rw [aliasName, hm]
    rw [hn]
    exact pyStrip_ne_nil _ ']' (by simp) (by decide)
  | some p =>
    obtain ⟨i, g⟩ := p
    have hn : aliasName (y ++ [c0, ']']) = g := by
      rw [aliasName, hm]
    rw [hn]
    exact coreA_group y c0 i g h0 hm

lemma suffix_of_suffix_le (l1 l2 l : Str) (h1 : l1 <:+ l) (h2 : l2 <:+ l)
    (hl : l1.length ≤ l2.length) : l1 <:+ l2 := by
  have hp := List.prefix_of_prefix_length_le (List.reverse_prefix.mpr h1)
    (List.reverse_prefix.mpr h2) (by simpa using hl)
  exact List.reverse_prefix.mp hp

/-- Core B: a column expression of the form `x AS [al]` where the alias text
`al` contains no `[` and some non-whitespace character has a stripped alias
name that is nonempty. -/
lemma coreB (x al : Str) (hbr : '[' ∉ al) (c1 : Char) (hc1 : c1 ∈ al)
    (hnw : isWs c1 = false) :
    pyStrip (aliasName (x ++ strOf " AS [" ++ al ++ strOf "]")) ≠ [] := by
  have hsh : x ++ strOf " AS [" ++ al ++ strOf "]"
      = ((x ++ strOf " AS [") ++ al) ++ [']'] := by
    have hb : strOf "]" = [']'] := rfl
    rw [hb]
  cases hm : aliasSearch (x ++ strOf " AS [" ++ al ++ strOf "]") with
  | none =>
    have hn : aliasName (x ++ strOf " AS [" ++ al ++ strOf "]")
        = x ++ strOf " AS [" ++ al ++ strOf "]" := by
      rw [aliasName, hm]
    rw [hn]
    refine pyStrip_ne_nil _ c1 ?_ hnw
    rw [hsh]
    simp [hc1]
  | some p =>
    obtain ⟨i, g⟩ := p
    have hn : aliasName (x ++ strOf " AS [" ++ al ++ strOf "]") = g := by
      rw [aliasName, hm]
    rw [hn]
    rw [hsh] at hm
    obtain ⟨pre, tail, hdec, hws, hg⟩ := alias_group_decomp _ i g hm
    obtain ⟨-, heq⟩ := group_decomp_tail_nil pre g tail ((x ++ strOf " AS [") ++ al) hdec hws
    by_cases hlen : ('[' :: g).length ≤ al.length
    · exfalso
      have hsg : ('[' :: g) <:+ (x ++ strOf " AS [") ++ al := ⟨pre, heq⟩
      have hsal : al <:+ (x ++ strOf " AS [") ++ al := List.suffix_append _ al
      have hsub := suffix_of_suffix_le _ _ _ hsg hsal hlen
      obtain ⟨p2, hp2⟩ := hsub
      apply hbr
      rw [← hp2]
      simp
    · have hlen2 : al.length ≤ g.length := by
        simp only [List.length_cons] at hlen
        omega
      have hsg : g <:+ (x ++ strOf " AS [") ++ al := by
        refine ⟨pre ++ ['['], ?_⟩
        rw [← heq]
        simp
      have hsal : al <:+ (x ++ strOf " AS [") ++ al := List.suffix_append _ al
      have hsub := suffix_of_suffix_le _ _ _ hsal hsg hlen2
      obtain ⟨p2, hp2⟩ := hsub
      refine pyStrip_ne_nil _ c1 ?_ hnw
      rw [← hp2]
      simp [hc1]

lemma word_nonws (c : Char) (h : (c.isAlphanum || c = '_') = true) : isWs c = false := by
  cases hx : isWs c with
  | false => rfl
  | true =>
    exfalso
    simp only [isWs, Bool.or_eq_true, decide_eq_true_eq] at hx
    rcases hx with ((((h1 | h1) | h1) | h1) | h1) | h1 <;> subst h1 <;>
      exact absurd h (by decide)

lemma usable_of_mem_tableColumns (reg : Registry) (t c : Str)
    (hus : ∀ e ∈ reg, ∀ x ∈ e.2, x ≠ [] ∧ ∀ ch ∈ x, (ch.isAlphanum || ch = '_') = true)
    (hc : c ∈ tableColumns reg t) :
    c ≠ [] ∧ ∀ ch ∈ c, (ch.isAlphanum || ch = '_') = true := by
  rw [tableColumns] at hc
  cases hf : reg.find? (fun e => e.1 == t) with
  | none => rw [hf] at hc; simp at hc
  | some e =>
    rw [hf] at hc
    exact hus e (List.mem_of_find?_eq_some hf) c hc

lemma tableColumns_ne_nil (reg : Registry) (t : Str)
    (hcols : ∀ e ∈ reg, e.2 ≠ [])
    (ht : t ∈ regTablesOf reg) :
    tableColumns reg t ≠ [] := by
  rw [regTablesOf] at ht
  obtain ⟨e, he, het⟩ := List.mem_map.mp ht
  rw [tableColumns]
  cases hf : reg.find? (fun x => x.1 == t) with
  | none =>
    exfalso
    have := List.find?_eq_none.mp hf e he
    apply this
    rw [het]
    simp
  | some e2 => exact hcols e2 (List.mem_of_find?_eq_some hf)

/-- The generated column reference `a.[c] AS [c]` ends with the last
character of `c` followed by `]`. -/
lemma shape_ends (a c : Str) (hc : c ≠ [])
    (hw : ∀ ch ∈ c, (ch.isAlphanum || ch = '_') = true) :
    ∃ y c0, a ++ strOf ".[" ++ c ++ strOf "] AS [" ++ c ++ strOf "]" = y ++ [c0, ']']
      ∧ isWs c0 = false := by
  rcases List.eq_nil_or_concat c with h0 | ⟨c2, c0, hcc⟩
  · exact absurd h0 hc
  · subst hcc
    refine ⟨a ++ strOf ".[" ++ (c2 ++ [c0]) ++ strOf "] AS [" ++ c2, c0, ?_, ?_⟩
    · have hb : strOf "]" = [']'] := rfl
      rw [List.concat_eq_append, hb]
      simp
    · exact word_nonws c0 (hw c0 (by rw [List.concat_eq_append]; simp))

lemma resolveColumn_ends (reg : Registry) (hint : Str) (tables : List Str)
    (am : List (Str × Str)) (cr : Str)
    (hus : ∀ e ∈ reg, ∀ x ∈ e.2, x ≠ [] ∧ ∀ ch ∈ x, (ch.isAlphanum || ch = '_') = true)
    (h : resolveColumn reg hint tables am = some cr) :
    ∃ y c0, cr = y ++ [c0, ']'] ∧ isWs c0 = false := by
  simp only [resolveColumn] at h
  split at h
  · exact absurd h (by simp)
  · split at h
    · rename_i p0 p1 p2 hsplit
      split at h
      · rename_i a hla
        split at h
        · rename_i hhas
          injection h with h2
          have hmem : p2 ∈ tableColumns reg (p0 ++ '.' :: p1) := by
            rw [hasColumn] at hhas
            simpa using hhas
          obtain ⟨hne, hword⟩ := usable_of_mem_tableColumns reg _ p2 hus hmem
          obtain ⟨y, c0, hy, hnw⟩ := shape_ends a p2 hne hword
          exact ⟨y, c0, by rw [← h2, hy], hnw⟩
        · exact absurd h (by simp)
      · exact absurd h (by simp)
    · exact absurd h (by simp)
    · rename_i hq1 hq2
      obtain ⟨t, ht, hft⟩ := List.exists_of_findSome?_eq_some h
      obtain ⟨c, hcmem, hfc⟩ := List.exists_of_findSome?_eq_some hft
      split at hfc
      · injection hfc with h2
        obtain ⟨hne, hword⟩ := usable_of_mem_tableColumns reg t c hus hcmem
        obtain ⟨y, c0, hy, hnw⟩ := shape_ends ((am.lookup t).getD (strOf "t0")) c hne hword
        exact ⟨y, c0, by rw [← h2, hy], hnw⟩
      · exact absurd hfc (by simp)

lemma dropWhile_ends (c0 c1 : Char) (h0 : isWs c0 = false) :
    ∀ (l : Str), ∃ z, (l ++ [c0, c1]).dropWhile isWs = z ++ [c0, c1] := by
  intro l
  induction l with
  | nil =>
    refine ⟨[], ?_⟩
    rw [List.nil_append, List.dropWhile_cons, if_neg (by rw [h0]; exact Bool.false_ne_true)]
  | cons a t ih =>
    rw [List.cons_append, List.dropWhile_cons]
    by_cases ha : isWs a = true
    · rw [if_pos ha]
      exact ih
    · rw [if_neg ha]
      exact ⟨a :: t, by simp⟩

lemma pyRStrip_ends_nonws (l : Str) (c : Char) (h : isWs c = false) :
    pyRStrip (l ++ [c]) = l ++ [c] := by
  rw [pyRStrip, List.reverse_append]
  have h1 : ([c] : Str).reverse ++ l.reverse = c :: l.reverse := by
    rw [List.reverse_singleton, List.singleton_append]
  rw [h1, List.dropWhile_cons, if_neg (by rw [h]; exact Bool.false_ne_true)]
  rw [List.reverse_cons, List.reverse_reverse]

lemma pyStrip_ends (y : Str) (c0 c1 : Char) (h0 : isWs c0 = false) (h1 : isWs c1 = false) :
    ∃ z, pyStrip (y ++ [c0, c1]) = z ++ [c0, c1] := by
  obtain ⟨z, hz⟩ := dropWhile_ends c0 c1 h0 y
  refine ⟨z, ?_⟩
  rw [pyStrip, hz]
  have h2 : z ++ [c0, c1] = (z ++ [c0]) ++ [c1] := by simp
  rw [h2, pyRStrip_ends_nonws (z ++ [c0]) c1 h1, ← h2]

/-- The alias component returned by `_split_expr_alias` on a column
expression ending in a non-whitespace character before the final `]` is
nonempty and ends in a non-whitespace character. -/
lemma splitExprAlias_snd (colExpr y : Str) (c0 : Char)
    (hshape : colExpr = y ++ [c0, ']']) (h0 : isWs c0 = false) :
    ∃ z c1, (splitExprAlias colExpr).2 = z ++ [c1] ∧ isWs c1 = false := by
  have hphi : pyStrip (aliasName colExpr) ≠ [] := by
    rw [hshape]
    exact coreA y c0 h0
  obtain ⟨z2, hz2⟩ := pyStrip_ends y c0 ']' h0 (by decide)
  simp only [splitExprAlias]
  cases hm : aliasSearch (pyStrip colExpr) with
  | none =>
    exact pyStrip_last_nonws _ hphi
  | some p =>
    obtain ⟨i, g⟩ := p
    show ∃ z c1, (if ((pyStrip colExpr).take i).contains '\x0a' = true then
        (pyStrip colExpr, pyStrip (aliasName colExpr))
      else (pyStrip ((pyStrip colExpr).take i), pyStrip g)).2 = z ++ [c1] ∧ isWs c1 = false
    by_cases hnl : ((pyStrip colExpr).take i).contains '\x0a' = true
    · rw [if_pos hnl]
      exact pyStrip_last_nonws _ hphi
    · rw [if_neg hnl]
      have hg : pyStrip g ≠ [] := by
        rw [hshape] at hm
        rw [hz2] at hm
        exact coreA_group z2 c0 i g h0 hm
      exact pyStrip_last_nonws g hg

lemma pyStrip_subset (s : Str) : ∀ c, c ∈ pyStrip s → c ∈ s := by
  intro c hc
  rw [pyStrip, pyRStrip] at hc
  rw [List.mem_reverse] at hc
  have h1 := (List.dropWhile_sublist isWs).subset hc
  rw [List.mem_reverse] at h1
  exact (List.dropWhile_sublist isWs).subset h1

lemma collapseWsAux_mem : ∀ (b : Bool) (s : Str) (c : Char),
    c ∈ collapseWsAux b s → c = ' ' ∨ c ∈ s := by
  intro b s
  induction s generalizing b with
  | nil => intro c hc; simp [collapseWsAux] at hc
  | cons a t ih =>
    intro c hc
    rw [collapseWsAux] at hc
    by_cases ha : isWs a = true
    · rw [if_pos ha] at hc
      by_cases hb : b = true
      · rw [if_pos hb] at hc
        rcases ih true c hc with h | h
        · exact Or.inl h
        · exact Or.inr (List.mem_cons_of_mem a h)
      · rw [if_neg hb] at hc
        rcases List.mem_cons.mp hc with h | h
        · exact Or.inl h
        · rcases ih true c h with h2 | h2
          · exact Or.inl h2
          · exact Or.inr (List.mem_cons_of_mem a h2)
    · rw [if_neg ha] at hc
      rcases List.mem_cons.mp hc with h | h
      · exact Or.inr (by rw [h]; exact List.mem_cons_self a t)
      · rcases ih false c h with h2 | h2
        · exact Or.inl h2
        · exact Or.inr (List.mem_cons_of_mem a h2)

lemma pyStrip_head_nonws (s : Str) (c : Char) (z : Str) (h : pyStrip s = c :: z) :
    isWs c = false := by
  have hpre : pyStrip s <+: s.dropWhile isWs := by
    have h2 : List.dropWhile isWs (s.dropWhile isWs).reverse <:+ (s.dropWhile isWs).reverse :=
      List.dropWhile_suffix isWs
    have h3 := List.reverse_prefix.mpr h2
    rw [List.reverse_reverse] at h3
    exact h3
  rw [h] at hpre
  obtain ⟨t, ht⟩ := hpre
  rw [List.cons_append] at ht
  exact dropWhile_head_false isWs s c (z ++ t) ht.symm

lemma safeAlias_props (nm : Str) :
    safeAlias nm ≠ [] ∧ '[' ∉ safeAlias nm ∧ ∃ c1 ∈ safeAlias nm, isWs c1 = false := by
  simp only [safeAlias]
  by_cases hemp : (pyStrip (collapseWs ((pyStrip nm).filter
      (fun c => c.isAlphanum || c = ' ' || c = '_' || c = '-')))).isEmpty = true
  · rw [if_pos hemp]
    exact ⟨by decide, by decide, 'm', by decide, by decide⟩
  · rw [if_neg hemp]
    cases hn3 : pyStrip (collapseWs ((pyStrip nm).filter
        (fun c => c.isAlphanum || c = ' ' || c = '_' || c = '-'))) with
    | nil => rw [hn3] at hemp; exact absurd rfl hemp
    | cons c1 n3t =>
      have h64 : (64 : Nat) = 63 + 1 := rfl
      rw [h64, List.take_succ_cons]
      refine ⟨by simp, ?_, c1, List.mem_cons_self _ _, pyStrip_head_nonws _ c1 n3t hn3⟩
      intro hbr
      have hbr2 : '[' ∈ pyStrip (collapseWs ((pyStrip nm).filter
          (fun c => c.isAlphanum || c = ' ' || c = '_' || c = '-'))) := by
        rw [hn3]
        rcases List.mem_cons.mp hbr with h | h
        · rw [← h]; exact List.mem_cons_self _ _
        · exact List.mem_cons_of_mem c1 (List.take_subset 63 n3t h)
      have hbr3 := pyStrip_subset _ '[' hbr2
      rcases collapseWsAux_mem false _ '[' hbr3 with h | h
      · exact absurd h (by decide)
      · have := List.of_mem_filter h
        exact absurd this (by decide)

lemma depLoop_good (reg : Registry) (tables : List Str) (am : List (Str × Str))
    (dimCols : List Str)
    (hus : ∀ e ∈ reg, ∀ x ∈ e.2, x ≠ [] ∧ ∀ ch ∈ x, (ch.isAlphanum || ch = '_') = true) :
    ∀ (cs acc : List Str) (x : Str), x ∈ depLoop reg tables am dimCols acc cs →
      x ∈ acc ∨ pyStrip (aliasName x) ≠ [] := by
  intro cs
  induction cs with
  | nil =>
    intro acc x hx
    rw [depLoop] at hx
    exact Or.inl hx
  | cons c cs2 ih =>
    intro acc x hx
    rw [depLoop] at hx
    cases hr : resolveColumn reg c tables am with
    | none =>
      rw [hr] at hx
      exact ih acc x hx
    | some cr =>
      rw [hr] at hx
      have hx' : x ∈ (if !(dimCols.contains cr) && !(acc.contains cr) then
          depLoop reg tables am dimCols (acc ++ [cr]) cs2
        else depLoop reg tables am dimCols acc cs2) := hx
      by_cases hcnd : (!(dimCols.contains cr) && !(acc.contains cr)) = true
      · rw [if_pos hcnd] at hx'
        rcases ih (acc ++ [cr]) x hx' with hmem | hgood
        · rcases List.mem_append.mp hmem with h | h
          · exact Or.inl h
          · right
            have hxc : x = cr := by simpa using h
            subst hxc
            obtain ⟨y, c0, hy, hnw⟩ := resolveColumn_ends reg c tables am _ hus hr
            rw [hy]
            exact coreA y c0 hnw
        · exact Or.inr hgood
      · rw [if_neg hcnd] at hx'
        exact ih acc x hx'

lemma metric_shape_good (w nm : Str) :
    pyStrip (aliasName (w ++ strOf " AS [" ++ safeAlias nm ++ strOf "]")) ≠ [] := by
  obtain ⟨-, hbr, c1, hc1, hnw⟩ := safeAlias_props nm
  exact coreB _ _ hbr c1 hc1 hnw

lemma metricLoop_good (reg : Registry) (tables : List Str) (am : List (Str × Str))
    (dimCols : List Str)
    (hus : ∀ e ∈ reg, ∀ x ∈ e.2, x ≠ [] ∧ ∀ ch ∈ x, (ch.isAlphanum || ch = '_') = true) :
    ∀ (ms : List Metric) (acc accNames : List Str) (x : Str),
      x ∈ (metricLoop reg tables am dimCols acc accNames ms).1 →
      x ∈ acc ∨ pyStrip (aliasName x) ≠ [] := by
  intro ms
  induction ms with
  | nil =>
    intro acc accNames x hx
    rw [metricLoop] at hx
    exact Or.inl hx
  | cons m rest ih =>
    intro acc accNames x hx
    simp only [metricLoop] at hx
    split at hx
    · exact ih acc accNames x hx
    · split at hx
      · exact ih acc accNames x hx
      · split at hx
        · rcases ih _ accNames x hx with hmem | hgood
          · cases hdep : m.depends_on with
            | none =>
              rw [hdep] at hmem
              exact Or.inl hmem
            | some dep =>
              rw [hdep] at hmem
              exact depLoop_good reg tables am dimCols hus dep acc x hmem
          · exact Or.inr hgood
        · split at hx
          · exact ih acc accNames x hx
          · split at hx
            · exact ih acc accNames x hx
            · rcases ih _ _ x hx with hmem | hgood
              · rcases List.mem_append.mp hmem with h | h
                · exact Or.inl h
                · right
                  rw [List.mem_singleton.mp h]
                  exact metric_shape_good _ _
              · exact Or.inr hgood

lemma dedupeByAlias_ne_nil : ∀ (l : List Str) (c : Str), c ∈ l →
    pyStrip (aliasName c) ≠ [] → dedupeByAlias l ≠ [] := by
  intro l
  rw [dedupeByAlias]
  induction l with
  | nil => intro c hc; simp at hc
  | cons d rest ih =>
    intro c hc hal
    simp only [dedupeByAliasAux]
    by_cases hd : (pyStrip (aliasName d)).isEmpty = true
    · rw [if_neg (by rw [hd]; simp)]
      rcases List.mem_cons.mp hc with h | h
      · exfalso
        rw [← h] at hd
        rw [List.isEmpty_iff] at hd
        exact hal hd
      · exact ih c h hal
    · have hdf : (pyStrip (aliasName d)).isEmpty = false := by
        cases hx : (pyStrip (aliasName d)).isEmpty with
        | false => rfl
        | true => exact absurd hx hd
      rw [if_pos (by rw [hdf]; rfl)]
      exact List.cons_ne_nil _ _

lemma dedupe_select_ne (DIMS METS FB : List Str)
    (hg1 : ∀ x ∈ DIMS, pyStrip (aliasName x) ≠ [])
    (hg2 : ∀ x ∈ METS, pyStrip (aliasName x) ≠ [])
    (hgf : ∀ x ∈ FB, pyStrip (aliasName x) ≠ [])
    (hfbne : FB ≠ []) :
    dedupeByAlias ((if (DIMS.isEmpty && METS.isEmpty) = true then FB else DIMS) ++ METS) ≠ [] := by
  by_cases hfb : (DIMS.isEmpty && METS.isEmpty) = true
  · rw [if_pos hfb]
    cases hfbc : FB with
    | nil => exact absurd hfbc hfbne
    | cons f ft =>
      refine dedupeByAlias_ne_nil _ f ?_ (hgf f (by rw [hfbc]; exact List.mem_cons_self _ _))
      exact List.mem_append_left _ (List.mem_cons_self _ _)
  · rw [if_neg hfb]
    have hor : DIMS.isEmpty = false ∨ METS.isEmpty = false := by
      cases hx : DIMS.isEmpty with
      | false => exact Or.inl rfl
      | true =>
        cases hy : METS.isEmpty with
        | false => exact Or.inr rfl
        | true => exact absurd (by rw [hx, hy]; rfl) hfb
    rcases hor with hD | hM
    · cases hDc : DIMS with
      | nil => rw [hDc] at hD; simp at hD
      | cons d dt =>
        refine dedupeByAlias_ne_nil _ d ?_ (hg1 d (by rw [hDc]; exact List.mem_cons_self _ _))
        exact List.mem_append_left _ (List.mem_cons_self _ _)
    · cases hMc : METS with
      | nil => rw [hMc] at hM; simp at hM
      | cons mm mt =>
        refine dedupeByAlias_ne_nil _ mm ?_ (hg2 mm (by rw [hMc]; exact List.mem_cons_self _ _))
        exact List.mem_append_right _ (List.mem_cons_self _ _)

lemma gsTables_subset (reg : Registry) (plan : Plan) (allowedTables : List Str) :
    ∀ t ∈ gsTables reg plan allowedTables, t ∈ regTablesOf reg := by
  intro t ht
  rw [gsTables] at ht
  by_cases h1 : (gsTables1 reg plan allowedTables).isEmpty = true
  · rw [if_pos h1] at ht
    simp only [recoverTables] at ht
    by_cases h2 : (!allowedTables.isEmpty) = true
    · rw [if_pos h2] at ht
      by_cases h3 : (!(allowedTables.filter (fun u => (regTablesOf reg).contains u)).isEmpty) = true
      · rw [if_pos h3] at ht
        have h4 := List.of_mem_filter (List.mem_of_mem_take ht)
        simpa using h4
      · rw [if_neg h3] at ht
        exact List.mem_of_mem_take ht
    · rw [if_neg h2] at ht
      exact List.mem_of_mem_take ht
  · rw [if_neg h1] at ht
    simp only [gsTables1] at ht
    by_cases h2 : (!allowedTables.isEmpty) = true
    · rw [if_pos h2] at ht
      have h4 := List.of_mem_filter (List.mem_of_mem_filter ht)
      simpa using h4
    · rw [if_neg h2] at ht
      have h4 := List.of_mem_filter ht
      simpa using h4

/-- Every time-bucket selection column has a nonempty stripped alias. -/
lemma timePairs_good (reg : Registry) (tables : List Str) (am : List (Str × Str))
    (tfO grO : Option Str) (isAgg0 : Bool) (dimFsts : List Str) (pr : Str × Str)
    (hus : ∀ e ∈ reg, ∀ x ∈ e.2, x ≠ [] ∧ ∀ ch ∈ x, (ch.isAlphanum || ch = '_') = true)
    (htp : pr ∈ (match tfO with
      | none => ([] : List (Str × Str))
      | some tfh =>
        match resolveColumn reg tfh tables am with
        | none => []
        | some tf =>
          match grO with
          | some grain =>
            if isAgg0 then
              [(timeBucketSqlserver (splitExprAlias tf).1 grain ++ strOf " AS ["
                  ++ (splitExprAlias tf).2 ++ strOf "]",
                timeBucketSqlserver (splitExprAlias tf).1 grain)]
            else
              if !dimFsts.contains tf then [(tf, splitASHead tf)] else []
          | none =>
            if !dimFsts.contains tf then [(tf, splitASHead tf)] else [])) :
    pyStrip (aliasName pr.1) ≠ [] := by
  cases tfO with
  | none => simp at htp
  | some tfh =>
    cases hres : resolveColumn reg tfh tables am with
    | none => simp [hres] at htp
    | some tf =>
      obtain ⟨y, c0, hy, hnw⟩ := resolveColumn_ends reg tfh tables am tf hus hres
      have hgood_tf : pyStrip (aliasName tf) ≠ [] := by
        rw [hy]
        exact coreA y c0 hnw
      obtain ⟨z, c1, hz, hnw1⟩ := splitExprAlias_snd tf y c0 hy hnw
      cases grO with
      | none =>
        simp only [hres] at htp
        split_ifs at htp with hcnt
        · rw [List.mem_singleton.mp htp]
          exact hgood_tf
        · simp at htp
      | some grain =>
        simp only [hres] at htp
        split_ifs at htp with hagg hcnt
        · rw [List.mem_singleton.mp htp]
          show pyStrip (aliasName (timeBucketSqlserver (splitExprAlias tf).1 grain
            ++ strOf " AS [" ++ (splitExprAlias tf).2 ++ strOf "]")) ≠ []
          rw [hz]
          have hsh : timeBucketSqlserver (splitExprAlias tf).1 grain
              ++ strOf " AS [" ++ (z ++ [c1]) ++ strOf "]"
              = (timeBucketSqlserver (splitExprAlias tf).1 grain ++ strOf " AS [" ++ z)
                ++ [c1, ']'] := by
            have hb : strOf "]" = [']'] := rfl
            rw [hb]
            simp
          rw [hsh]
          exact coreA _ c1 hnw1
        · rw [List.mem_singleton.mp htp]
          exact hgood_tf
        · simp at htp

/-- With a registry whose tables all have non-empty lists of word-character
column names, the success branch of `generate_sql` always produces a
non-empty `expected_columns` list. -/
lemma okBundle_expected_ne (st : Settings) (reg : Registry) (plan1 : Plan)
    (planned : List Str) (largeMode : Option Bool) (tables : List Str)
    (hcols : ∀ e ∈ reg, e.2 ≠ [])
    (hus : ∀ e ∈ reg, ∀ x ∈ e.2, x ≠ [] ∧ ∀ ch ∈ x, (ch.isAlphanum || ch = '_') = true)
    (hprim : tables.headD [] ∈ regTablesOf reg) :
    (okBundle st reg plan1 planned largeMode tables).1.expected_columns ≠ [] := by
  simp only [okBundle]
  intro hcon
  rw [List.map_eq_nil_iff] at hcon
  refine dedupe_select_ne _ _ _ ?_ ?_ ?_ ?_ hcon
  · -- dimension and time-bucket selections
    intro x hx
    obtain ⟨pr, hpr, hpx⟩ := List.mem_map.mp hx
    rcases List.mem_append.mp hpr with hd | htp
    · obtain ⟨d, hd2, hsome⟩ := List.mem_filterMap.mp hd
      obtain ⟨cr, hcr, hpair⟩ := Option.map_eq_some'.mp hsome
      obtain ⟨y, c0, hy, hnw⟩ := resolveColumn_ends reg d tables
        (plan1.joins.foldl (joinStep reg tables)
          ⟨[(tables.headD [], strOf "t0")], 1, []⟩).aliasMap cr hus hcr
      have hxc : x = cr := by rw [← hpx, ← hpair]
      rw [hxc, hy]
      exact coreA y c0 hnw
    · rw [← hpx]
      exact timePairs_good reg tables _ plan1.time_field plan1.time_grain _ _ pr hus htp
  · -- metric selections
    intro x hx
    rcases metricLoop_good reg tables
      (plan1.joins.foldl (joinStep reg tables)
        ⟨[(tables.headD [], strOf "t0")], 1, []⟩).aliasMap _ hus plan1.metrics [] [] x hx with
      hmem | hgood
    · exact absurd hmem (by simp)
    · exact hgood
  · -- fallback selections
    intro x hx
    obtain ⟨c, hc, hfx⟩ := List.mem_map.mp hx
    obtain ⟨hne, hword⟩ := usable_of_mem_tableColumns reg (tables.headD []) c hus
      (List.take_subset 12 _ hc)
    obtain ⟨y, c0, hy, hnw⟩ := shape_ends
      (((plan1.joins.foldl (joinStep reg tables)
        ⟨[(tables.headD [], strOf "t0")], 1, []⟩).aliasMap.lookup (tables.headD [])).getD
          (strOf "t0")) c hne hword
    rw [← hfx, hy]
    exact coreA y c0 hnw
  · -- the fallback list is non-empty
    intro hfb0
    rw [List.map_eq_nil_iff, List.take_eq_nil_iff] at hfb0
    rcases hfb0 with h | h
    · exact absurd h (by decide)
    · exact tableColumns_ne_nil reg (tables.headD []) hcols hprim h

/-- C3 counterexample: a registry whose only table has an empty column list
makes `generate_sql` succeed with an empty `expected_columns` list (the
fallback takes the first up-to-12 of zero columns), so the column list of
the generated statement is empty, contrary to the claim. -/
theorem c3_counterexample :
    ∃ r, generateSql {} [(strOf "t", [])] {} [] none = Except.ok r
      ∧ r.1.expected_columns = [] :=
  ⟨_, rfl, rfl⟩

/-- C3 (amended): for every plan and allowlist for which `generate_sql`
returns a result, provided every registry table has a non-empty column list
and every column name is non-empty and made of word characters, the
`expected_columns` list of the result is non-empty: every resolved
dimension, time-bucket and metric selection carries a non-empty alias, and
when nothing resolves the fallback selects the first up-to-12 columns of
the primary table, which exist. -/
theorem c3_fallback_nonempty (st : Settings) (reg : Registry) (plan : Plan)
    (allowedTables : List Str) (largeMode : Option Bool) (r : SqlBundle × Plan)
    (hcols : ∀ e ∈ reg, e.2 ≠ [])
    (hus : ∀ e ∈ reg, ∀ x ∈ e.2, x ≠ [] ∧ ∀ ch ∈ x, (ch.isAlphanum || ch = '_') = true)
    (h : generateSql st reg plan allowedTables largeMode = Except.ok r) :
    r.1.expected_columns ≠ [] := by
  rw [generateSql_cases] at h
  by_cases hemp : (gsTables reg plan allowedTables).isEmpty = true
  · rw [if_pos hemp] at h
    exact Except.noConfusion h
  · rw [if_neg hemp] at h
    injection h with hr
    rw [← hr]
    apply okBundle_expected_ne st reg _ _ largeMode _ hcols hus
    apply gsTables_subset
    have hne : gsTables reg plan allowedTables ≠ [] := by
      intro hc
      rw [hc] at hemp
      exact hemp rfl
    cases hg : gsTables reg plan allowedTables with
    | nil => exact absurd hg hne
    | cons a t =>
      exact List.mem_cons_self a t

theorem c3_fallback_nonempty_witness :
    ((∀ e ∈ [(strOf "t", [strOf "a"])], e.2 ≠ ([] : List Str))
      ∧ (∀ e ∈ [(strOf "t", [strOf "a"])], ∀ x ∈ e.2,
          x ≠ [] ∧ ∀ ch ∈ x, (ch.isAlphanum || ch = '_') = true))
    ∧ ∃ r, generateSql {} [(strOf "t", [strOf "a"])] {} [] none = Except.ok r
        ∧ r.1.expected_columns ≠ [] := by
  refine ⟨⟨by decide, by decide⟩, _, rfl, ?_⟩
  exact c3_fallback_nonempty {} [(strOf "t", [strOf "a"])] {} [] none _
    (by decide) (by decide) rfl

lemma pyToLower_eq_nonlower (c t : Char) (h : pyToLower c = t) (ht : t.isLower = false) :
    c = t := by
  unfold pyToLower at h
  split at h <;> first
    | (rw [← h] at ht; exact absurd ht (by decide))
    | exact h

lemma isWordChar_pyToLower (c : Char) : isWordChar (pyToLower c) = isWordChar c := by
  unfold pyToLower
  split <;> first | decide | rfl

lemma isWs_pyToLower (c : Char) : isWs (pyToLower c) = isWs c := by
  unfold pyToLower
  split <;> first | decide | rfl

lemma mem_of_mem_lowerStr (c : Char) (s : Str) (hlo : c.isLower = false)
    (h : c ∈ lowerStr s) : c ∈ s := by
  rw [lowerStr] at h
  obtain ⟨a, ha, hac⟩ := List.mem_map.mp h
  rw [← pyToLower_eq_nonlower a c hac hlo]
  exact ha

lemma head_mem_of_containsSub (p0 : Char) (pr : Str) :
    ∀ s, containsSub (p0 :: pr) s = true → p0 ∈ s := by
  intro s
  induction s with
  | nil => intro h; simp [containsSub] at h
  | cons c rest ih =>
    intro h
    rw [containsSub] at h
    rcases Bool.or_eq_true _ _ ▸ h with h1 | h2
    · have : p0 = c := by
        cases hx : (p0 :: pr).isPrefixOf (c :: rest) with
        | false => rw [hx] at h1; exact absurd h1 Bool.false_ne_true
        | true =>
          rw [List.isPrefixOf_cons₂] at hx
          exact eq_of_beq (Bool.and_eq_true _ _ ▸ hx).1
      rw [this]
      exact List.mem_cons_self c rest
    · exact List.mem_cons_of_mem c (ih h2)

lemma splitOnChar_single (sep : Char) : ∀ (s : Str), sep ∉ s → splitOnChar sep s = [s] := by
  intro s
  induction s with
  | nil => intro h; rfl
  | cons c rest ih =>
    intro h
    rw [splitOnChar]
    have hc : c ≠ sep := fun hcc => h (by rw [hcc]; exact List.mem_cons_self _ _)
    have hrest : sep ∉ rest := fun hm => h (List.mem_cons_of_mem c hm)
    rw [ih hrest]
    simp [hc]

lemma stackingDetected_false (s : Str) (h : ';' ∉ s) : stackingDetected s = false := by
  induction s with
  | nil => rfl
  | cons c rest ih =>
    rw [stackingDetected]
    have hc : ¬(c = ';') := fun hcc => h (by rw [hcc]; exact List.mem_cons_self _ _)
    have hrest := ih (fun hm => h (List.mem_cons_of_mem c hm))
    rw [hrest]
    simp [hc]

lemma mem_of_head?_eq (l : Str) (a : Char) (h : l.head? = some a) : a ∈ l := by
  cases l with
  | nil => simp at h
  | cons c rest =>
    injection h with h1
    rw [← h1]
    exact List.mem_cons_self c rest

lemma star_of_starAfterWs (u : Str) (h : starAfterWs u = true) : '*' ∈ u := by
  simp only [starAfterWs] at h
  by_cases hk : wsRunLen u = 0
  · rw [if_pos hk] at h
    exact absurd h Bool.false_ne_true
  · rw [if_neg hk] at h
    rcases Bool.or_eq_true _ _ ▸ h with h1 | h2
    · have : ('*' : Char) ∈ u.drop (wsRunLen u) := by
        apply mem_of_head?_eq
        simpa using h1
      exact List.drop_subset _ u this
    · obtain ⟨-, h3⟩ := Bool.and_eq_true _ _ ▸ h2
      obtain ⟨-, h4⟩ := Bool.and_eq_true _ _ ▸ h3
      have : ('*' : Char) ∈ ((u.drop (wsRunLen u)).drop 8).drop
          (wsRunLen ((u.drop (wsRunLen u)).drop 8)) := by
        apply mem_of_head?_eq
        simpa using h4
      exact List.drop_subset _ u (List.drop_subset _ _ (List.drop_subset _ _ this))

lemma selectStarFrom_false (prev : Option Char) (s : Str) (h : '*' ∉ s) :
    selectStarFrom prev s = false := by
  induction s generalizing prev with
  | nil => rfl
  | cons c rest ih =>
    rw [selectStarFrom]
    have h2 : starAfterWs ((c :: rest).drop 6) = false := by
      cases hx : starAfterWs ((c :: rest).drop 6) with
      | false => rfl
      | true =>
        exfalso
        exact h (List.drop_subset 6 _ (star_of_starAfterWs _ hx))
    rw [h2, Bool.and_false, Bool.false_or]
    exact ih (some c) (fun hm => h (List.mem_cons_of_mem c hm))

lemma hasSelectStar_false (s : Str) (h : '*' ∉ s) : hasSelectStar s = false := by
  rw [hasSelectStar]
  apply selectStarFrom_false
  intro hm
  exact h (mem_of_mem_lowerStr '*' s (by decide) hm)

lemma ws_not_word (c : Char) (h : isWs c = true) : isWordChar c = false := by
  simp only [isWs, Bool.or_eq_true, decide_eq_true_eq] at h
  rcases h with ((((h1 | h1) | h1) | h1) | h1) | h1 <;> subst h1 <;> decide

lemma wbAt_mono (kw : Str) (p : Option Char) (s : Str) (h : wbAt kw none s = false) :
    wbAt kw p s = false := by
  cases hpre : kw.isPrefixOf s with
  | false => simp [wbAt, hpre]
  | true =>
    simp [wbAt, hpre] at h
    simp [wbAt, hpre, h]

lemma cwbAux_mono (kw : Str) : ∀ (s : Str) (p : Option Char),
    cwbAux kw none s = false → cwbAux kw p s = false := by
  intro s
  cases s with
  | nil =>
    intro p h
    exact wbAt_mono kw p [] h
  | cons c rest =>
    intro p h
    rw [cwbAux] at h ⊢
    obtain ⟨h1, h2⟩ := Bool.or_eq_false_iff.mp h
    rw [wbAt_mono kw p _ h1, h2]
    rfl

lemma wbAt_nonword_prev (kw : Str) (c : Char) (s : Str) (hc : isWordChar c = false) :
    wbAt kw (some c) s = wbAt kw none s := by
  simp [wbAt, hc]

lemma cwbAux_nonword_prev (kw : Str) (c : Char) (s : Str) (hc : isWordChar c = false) :
    cwbAux kw (some c) s = cwbAux kw none s := by
  cases s with
  | nil => exact wbAt_nonword_prev kw c [] hc
  | cons d rest =>
    rw [cwbAux, cwbAux, wbAt_nonword_prev kw c _ hc]

lemma drop_append_le (n : Nat) (l1 l2 : Str) (h : n ≤ l1.length) :
    (l1 ++ l2).drop n = l1.drop n ++ l2 := by
  induction l1 generalizing n with
  | nil =>
    have h0 : n = 0 := by simpa using h
    subst h0
    rfl
  | cons c t ih =>
    cases n with
    | zero => rfl
    | succ m =>
      rw [List.cons_append, List.drop_succ_cons, List.drop_succ_cons]
      exact ih m (by simpa using h)

lemma cwbAux_append_false (kw : Str) (hkW : ∀ ch ∈ kw, isWordChar ch = true) :
    ∀ (a : Str) (p : Option Char) (b : Str),
      cwbAux kw p a = false → cwbAux kw none b = false →
      ((∃ x cl, a = x ++ [cl] ∧ isWordChar cl = false)
        ∨ (∃ ch y, b = ch :: y ∧ isWordChar ch = false)
        ∨ a = [] ∨ b = []) →
      cwbAux kw p (a ++ b) = false := by
  intro a
  induction a with
  | nil =>
    intro p b ha hb hj
    rw [List.nil_append]
    exact cwbAux_mono kw b p hb
  | cons c a2 ih =>
    intro p b ha hb hj
    rw [cwbAux] at ha
    obtain ⟨ha1, ha2⟩ := Bool.or_eq_false_iff.mp ha
    have htail : cwbAux kw (some c) (a2 ++ b) = false := by
      apply ih (some c) b ha2 hb
      rcases hj with ⟨x, cl, hxe, hcl⟩ | hj2 | hj3 | hj4
      · cases x with
        | nil =>
          injection hxe with h1 h2
          exact Or.inr (Or.inr (Or.inl h2))
        | cons x0 xr =>
          injection hxe with h1 h2
          exact Or.inl ⟨xr, cl, h2, hcl⟩
      · exact Or.inr (Or.inl hj2)
      · exact absurd hj3 (List.cons_ne_nil c a2)
      · exact Or.inr (Or.inr (Or.inr hj4))
    rw [List.cons_append, cwbAux, htail, Bool.or_false]
    cases hw : wbAt kw p (c :: (a2 ++ b)) with
    | false => rfl
    | true =>
      exfalso
      unfold wbAt at hw
      obtain ⟨hw1, hafter⟩ := Bool.and_eq_true _ _ ▸ hw
      obtain ⟨hpre, hprev⟩ := Bool.and_eq_true _ _ ▸ hw1
      have hpre2 : kw <+: (c :: a2) ++ b := by
        have := List.isPrefixOf_iff_prefix.mp hpre
        simpa using this
      by_cases hlen : kw.length ≤ a2.length + 1
      · have hkpre : kw <+: c :: a2 :=
          List.prefix_of_prefix_length_le hpre2 (List.prefix_append _ _) (by simpa using hlen)
      -- kw lies within the first block, so the standalone match already fires
        have hstdpre : kw.isPrefixOf (c :: a2) = true := List.isPrefixOf_iff_prefix.mpr hkpre
        have hstdafter : (match (c :: a2).drop kw.length with
            | [] => true | d :: _ => !isWordChar d) = true := by
          cases hd : (c :: a2).drop kw.length with
          | nil => rfl
          | cons d ds =>
            have hfull : (c :: (a2 ++ b)).drop kw.length = d :: (ds ++ b) := by
              rw [show c :: (a2 ++ b) = (c :: a2) ++ b from rfl,
                drop_append_le _ _ _ (by simpa using hlen), hd]
              rfl
            rw [hfull] at hafter
            exact hafter
        have hcontra : wbAt kw p (c :: a2) = true := by
          unfold wbAt
          rw [hstdpre, hprev, hstdafter]
          rfl
        rw [ha1] at hcontra
        exact Bool.false_ne_true hcontra
      · have hbig : a2.length + 1 < kw.length := by omega
        have hApre : (c :: a2) <+: kw :=
          List.prefix_of_prefix_length_le (List.prefix_append _ _) hpre2
            (by simp only [List.length_cons]; omega)
        obtain ⟨k2, hk2⟩ := hApre
        have hk2ne : k2 ≠ [] := by
          intro h0
          rw [h0, List.append_nil] at hk2
          have := congrArg List.length hk2
          simp at this
          omega
        rcases hj with ⟨x, cl, hxe, hcl⟩ | ⟨ch, y, hbe, hch⟩ | hj3 | hj4
        · have hclm : cl ∈ kw := by
            rw [← hk2]
            apply List.mem_append_left
            rw [hxe]
            simp
          have hthis := hkW cl hclm
          rw [hcl] at hthis
          exact Bool.false_ne_true hthis
        · obtain ⟨t, ht⟩ := hpre2
          rw [← hk2, List.append_assoc] at ht
          have hbt : k2 ++ t = b := List.append_cancel_left ht
          cases k2 with
          | nil => exact hk2ne rfl
          | cons kh kt =>
            rw [hbe] at hbt
            injection hbt with hh _
            have hkhm : kh ∈ kw := by
              rw [← hk2]
              exact List.mem_append_right _ (List.mem_cons_self _ _)
            have hthis := hkW kh hkhm
            rw [hh, hch] at hthis
            exact Bool.false_ne_true hthis
        · exact List.cons_ne_nil c a2 hj3
        · obtain ⟨t, ht⟩ := hpre2
          rw [hj4, List.append_nil] at ht
          have := congrArg List.length ht
          rw [List.length_append] at this
          simp at this
          omega

lemma containsSub_of_cwbAux (kw : Str) :
    ∀ (s : Str) (p : Option Char), cwbAux kw p s = true → containsSub kw s = true := by
  intro s
  induction s with
  | nil =>
    intro p h
    have h2 : wbAt kw p [] = true := h
    unfold wbAt at h2
    obtain ⟨h3, -⟩ := Bool.and_eq_true _ _ ▸ h2
    obtain ⟨h4, -⟩ := Bool.and_eq_true _ _ ▸ h3
    rw [containsSub]
    cases kw with
    | nil => rfl
    | cons k0 kr => simp [List.isPrefixOf] at h4
  | cons c rest ih =>
    intro p h
    rw [cwbAux] at h
    rw [containsSub]
    rcases Bool.or_eq_true _ _ ▸ h with h1 | h2
    · unfold wbAt at h1
      obtain ⟨h3, -⟩ := Bool.and_eq_true _ _ ▸ h1
      obtain ⟨h4, -⟩ := Bool.and_eq_true _ _ ▸ h3
      rw [h4]
      rfl
    · rw [ih (some c) h2]
      simp

lemma cwbAux_append_ws_right (kw : Str) (hkne : kw ≠ []) (w2 : Str)
    (hw2 : ∀ c ∈ w2, isWs c = true) :
    ∀ (s : Str) (p : Option Char), cwbAux kw p s = true → cwbAux kw p (s ++ w2) = true := by
  intro s
  induction s with
  | nil =>
    intro p h
    have h2 : wbAt kw p [] = true := h
    unfold wbAt at h2
    obtain ⟨h3, -⟩ := Bool.and_eq_true _ _ ▸ h2
    obtain ⟨h4, -⟩ := Bool.and_eq_true _ _ ▸ h3
    exfalso
    cases kw with
    | nil => exact hkne rfl
    | cons k0 kr => simp [List.isPrefixOf] at h4
  | cons c rest ih =>
    intro p h
    rw [cwbAux] at h
    rw [List.cons_append, cwbAux]
    rcases Bool.or_eq_true _ _ ▸ h with h1 | h2
    · unfold wbAt at h1
      obtain ⟨h3, hafter⟩ := Bool.and_eq_true _ _ ▸ h1
      obtain ⟨hpre, hprev⟩ := Bool.and_eq_true _ _ ▸ h3
      have hkpre : kw <+: c :: rest := List.isPrefixOf_iff_prefix.mp hpre
      have hklen : kw.length ≤ (c :: rest).length := hkpre.length_le
      have hpre2 : kw.isPrefixOf (c :: (rest ++ w2)) = true := by
        apply List.isPrefixOf_iff_prefix.mpr
        have h5 : (c :: rest) <+: c :: (rest ++ w2) := by
          refine ⟨w2, ?_⟩
          simp
        exact hkpre.trans h5
      have hafter2 : (match (c :: (rest ++ w2)).drop kw.length with
          | [] => true | d :: _ => !isWordChar d) = true := by
        have hfull : (c :: (rest ++ w2)).drop kw.length
            = (c :: rest).drop kw.length ++ w2 := by
          rw [show c :: (rest ++ w2) = (c :: rest) ++ w2 from rfl]
          exact drop_append_le _ _ _ hklen
        rw [hfull]
        cases hd : (c :: rest).drop kw.length with
        | nil =>
          rw [List.nil_append]
          cases hw : w2 with
          | nil => rfl
          | cons d dr =>
            have hmem : d ∈ w2 := by rw [hw]; exact List.mem_cons_self _ _
            have hnw := ws_not_word d (hw2 d hmem)
            show (!isWordChar d) = true
            rw [hnw]
            rfl
        | cons d dr =>
          rw [hd] at hafter
          have hthis : (!isWordChar d) = true := hafter
          rw [List.cons_append]
          exact hthis
      have hwb : wbAt kw p (c :: (rest ++ w2)) = true := by
        unfold wbAt
        rw [hpre2, hprev, hafter2]
        rfl
      rw [hwb]
      rfl
    · rw [ih (some c) h2]
      simp

lemma cwbAux_prepend_ws (kw : Str) (w1 : Str) (hw1 : ∀ c ∈ w1, isWs c = true)
    (s : Str) (h : cwbAux kw none s = true) : cwbAux kw none (w1 ++ s) = true := by
  induction w1 with
  | nil => exact h
  | cons c w1r ih =>
    have hcw : isWs c = true := hw1 c (List.mem_cons_self _ _)
    have hrest : ∀ x ∈ w1r, isWs x = true := fun x hx => hw1 x (List.mem_cons_of_mem c hx)
    rw [List.cons_append, cwbAux]
    have h2 := ih hrest
    have h3 : cwbAux kw (some c) (w1r ++ s) = true := by
      rw [cwbAux_nonword_prev kw c _ (ws_not_word c hcw)]
      exact h2
    rw [h3]
    simp

lemma strip_decomp (s : Str) :
    ∃ w1 w2, (∀ c ∈ w1, isWs c = true) ∧ (∀ c ∈ w2, isWs c = true)
      ∧ s = w1 ++ pyStrip s ++ w2 := by
  refine ⟨s.takeWhile isWs, ((s.dropWhile isWs).reverse.takeWhile isWs).reverse,
    ?_, ?_, ?_⟩
  · intro c hc
    exact List.mem_takeWhile_imp hc
  · intro c hc
    rw [List.mem_reverse] at hc
    exact List.mem_takeWhile_imp hc
  · rw [pyStrip, pyRStrip]
    have h1 : s = s.takeWhile isWs ++ s.dropWhile isWs :=
      (List.takeWhile_append_dropWhile isWs s).symm
    have h2 : s.dropWhile isWs
        = ((s.dropWhile isWs).reverse.dropWhile isWs).reverse
          ++ ((s.dropWhile isWs).reverse.takeWhile isWs).reverse := by
      have h3 : (s.dropWhile isWs).reverse
          = (s.dropWhile isWs).reverse.takeWhile isWs
            ++ (s.dropWhile isWs).reverse.dropWhile isWs :=
        (List.takeWhile_append_dropWhile isWs _).symm
      have h4 := congrArg List.reverse h3
      rw [List.reverse_reverse, List.reverse_append] at h4
      exact h4
    rw [List.append_assoc, ← h2]
    exact h1

lemma lowerStr_dropWhile (s : Str) :
    lowerStr (s.dropWhile isWs) = (lowerStr s).dropWhile isWs := by
  induction s with
  | nil => rfl
  | cons c rest ih =>
    rw [List.dropWhile_cons]
    by_cases hc : isWs c = true
    · rw [if_pos hc, ih]
      rw [show lowerStr (c :: rest) = pyToLower c :: lowerStr rest from rfl,
        List.dropWhile_cons, if_pos (by rw [isWs_pyToLower]; exact hc)]
    · rw [if_neg hc]
      rw [show lowerStr (c :: rest) = pyToLower c :: lowerStr rest from rfl,
        List.dropWhile_cons, if_neg (by rw [isWs_pyToLower]; exact hc)]

lemma lowerStr_pyStrip (s : Str) : lowerStr (pyStrip s) = pyStrip (lowerStr s) := by
  have hrev : ∀ (t : Str), lowerStr t.reverse = (lowerStr t).reverse := by
    intro t
    simp [lowerStr]
  rw [pyStrip, pyStrip, pyRStrip, pyRStrip, hrev, lowerStr_dropWhile, hrev,
    lowerStr_dropWhile]

lemma containsWB_pyStrip_false (kw : Str) (hkne : kw ≠ []) (L : Str)
    (h : containsWB kw L = false) : containsWB kw (pyStrip L) = false := by
  cases hx : containsWB kw (pyStrip L) with
  | false => rfl
  | true =>
    exfalso
    obtain ⟨w1, w2, hw1, hw2, hLe⟩ := strip_decomp L
    have h1 := cwbAux_append_ws_right kw hkne w2 hw2 (pyStrip L) none hx
    have h2 := cwbAux_prepend_ws kw w1 hw1 _ h1
    rw [containsWB] at h
    rw [← List.append_assoc, ← hLe] at h2
    rw [h] at h2
    exact Bool.false_ne_true h2
lemma disallowed_word :
    ∀ kw ∈ DISALLOWED_KEYWORDS, kw ≠ [] ∧ ∀ ch ∈ kw, isWordChar ch = true := by
  decide

lemma CleanFrag_nil : CleanFrag [] := by
  refine ⟨?_, by simp, by simp, by simp, by simp⟩
  decide

lemma CleanFrag_append (a b : Str) (ha : CleanFrag a) (hb : CleanFrag b)
    (hj : (∃ x cl, a = x ++ [cl] ∧ isWordChar cl = false)
      ∨ (∃ ch y, b = ch :: y ∧ isWordChar ch = false)
      ∨ a = [] ∨ b = []) : CleanFrag (a ++ b) := by
  obtain ⟨hk1, hs1, ht1, hd1, hl1⟩ := ha
  obtain ⟨hk2, hs2, ht2, hd2, hl2⟩ := hb
  refine ⟨?_, ?_, ?_, ?_, ?_⟩
  · intro kw hkw
    have hword := (disallowed_word kw hkw).2
    rw [show lowerStr (a ++ b) = lowerStr a ++ lowerStr b from List.map_append _ _ _]
    apply cwbAux_append_false kw hword (lowerStr a) none (lowerStr b) (hk1 kw hkw) (hk2 kw hkw)
    rcases hj with ⟨x, cl, hxe, hcl⟩ | ⟨ch, y, hbe, hch⟩ | hj3 | hj4
    · refine Or.inl ⟨lowerStr x, pyToLower cl, ?_, ?_⟩
      · rw [hxe]
        simp [lowerStr]
      · rw [isWordChar_pyToLower]
        exact hcl
    · refine Or.inr (Or.inl ⟨pyToLower ch, lowerStr y, ?_, ?_⟩)
      · rw [hbe]
        rfl
      · rw [isWordChar_pyToLower]
        exact hch
    · exact Or.inr (Or.inr (Or.inl (by rw [hj3]; rfl)))
    · exact Or.inr (Or.inr (Or.inr (by rw [hj4]; rfl)))
  all_goals
    intro hm
    rcases List.mem_append.mp hm with h | h
  · exact hs1 h
  · exact hs2 h
  · exact ht1 h
  · exact ht2 h
  · exact hd1 h
  · exact hd2 h
  · exact hl1 h
  · exact hl2 h

/-- Right-guarded gluing: the right fragment begins with a non-word
character (or is empty). -/
lemma CleanFrag_glue (a b : Str) (ha : CleanFrag a) (hb : CleanFrag b)
    (hj : b = [] ∨ ∃ ch y, b = ch :: y ∧ isWordChar ch = false) : CleanFrag (a ++ b) := by
  apply CleanFrag_append a b ha hb
  rcases hj with h | h
  · exact Or.inr (Or.inr (Or.inr h))
  · exact Or.inr (Or.inl h)

/-- Left-guarded gluing: the left fragment ends with a non-word character
(or is empty). -/
lemma CleanFrag_glueL (a b : Str) (ha : CleanFrag a) (hb : CleanFrag b)
    (hj : a = [] ∨ ∃ x cl, a = x ++ [cl] ∧ isWordChar cl = false) : CleanFrag (a ++ b) := by
  apply CleanFrag_append a b ha hb
  rcases hj with h | h
  · exact Or.inr (Or.inr (Or.inl h))
  · exact Or.inl h

lemma CleanFrag_of_CleanName (n : Str) (h : CleanName n) : CleanFrag n := by
  obtain ⟨hk, hs, ht, hd, hl⟩ := h
  refine ⟨?_, hs, ht, hd, hl⟩
  intro kw hkw
  cases hx : containsWB kw (lowerStr n) with
  | false => rfl
  | true =>
    exfalso
    have := containsSub_of_cwbAux kw (lowerStr n) none hx
    rw [hk kw hkw] at this
    exact Bool.false_ne_true this

lemma containsSub_exists (pat : Str) :
    ∀ s, containsSub pat s = true → ∃ u, u <:+ s ∧ pat.isPrefixOf u = true := by
  intro s
  induction s with
  | nil =>
    intro h
    rw [containsSub] at h
    refine ⟨[], List.suffix_refl _, ?_⟩
    cases pat with
    | nil => rfl
    | cons p0 pr => simp at h
  | cons c rest ih =>
    intro h
    rw [containsSub] at h
    rcases Bool.or_eq_true _ _ ▸ h with h1 | h2
    · exact ⟨c :: rest, List.suffix_refl _, h1⟩
    · obtain ⟨u, hu, hp⟩ := ih h2
      exact ⟨u, hu.trans (List.suffix_cons c rest), hp⟩

lemma containsSub_of_suffix_prefix (pat : Str) :
    ∀ (s u : Str), u <:+ s → pat.isPrefixOf u = true → containsSub pat s = true := by
  intro s
  induction s with
  | nil =>
    intro u hu hp
    have : u = [] := List.suffix_nil.mp hu
    subst this
    rw [containsSub]
    cases pat with
    | nil => rfl
    | cons p0 pr => simp at hp
  | cons c rest ih =>
    intro u hu hp
    rw [containsSub]
    obtain ⟨t, ht⟩ := hu
    cases t with
    | nil =>
      rw [List.nil_append] at ht
      subst ht
      rw [hp]
      rfl
    | cons t0 tr =>
      injection ht with h1 h2
      have : u <:+ rest := ⟨tr, h2⟩
      rw [ih u this hp]
      simp

lemma containsSub_mono_within (pat t n : Str) (hinf : t <:+: n)
    (h : containsSub pat t = true) : containsSub pat n = true := by
  obtain ⟨u, hu, hp⟩ := containsSub_exists pat t h
  obtain ⟨p, q, hpq⟩ := hinf
  obtain ⟨w, hw⟩ := hu
  have hsuf : u ++ q <:+ n := by
    refine ⟨p ++ w, ?_⟩
    rw [← hpq, ← hw]
    simp
  apply containsSub_of_suffix_prefix pat n (u ++ q) hsuf
  apply List.isPrefixOf_iff_prefix.mpr
  exact (List.isPrefixOf_iff_prefix.mp hp).trans (List.prefix_append u q)

lemma lowerStr_within (t n : Str) (h : t <:+: n) : lowerStr t <:+: lowerStr n := by
  obtain ⟨p, q, hpq⟩ := h
  refine ⟨lowerStr p, lowerStr q, ?_⟩
  rw [← hpq]
  simp [lowerStr]

lemma CleanName_within (t n : Str) (hinf : t <:+: n) (h : CleanName n) : CleanName t := by
  obtain ⟨hk, hs, ht, hd, hl⟩ := h
  have hsub := hinf.subset
  refine ⟨?_, fun hm => hs (hsub hm), fun hm => ht (hsub hm),
    fun hm => hd (hsub hm), fun hm => hl (hsub hm)⟩
  intro kw hkw
  cases hx : containsSub kw (lowerStr t) with
  | false => rfl
  | true =>
    exfalso
    have := containsSub_mono_within kw (lowerStr t) (lowerStr n) (lowerStr_within t n hinf) hx
    rw [hk kw hkw] at this
    exact Bool.false_ne_true this
lemma banned_shape :
    ∀ kw ∈ DISALLOWED_KEYWORDS, 2 ≤ kw.length ∧ ∀ c ∈ kw, c.isAlpha = true := by
  decide

lemma noAdjAlpha_tail (c : Char) (t : Str) (h : noAdjAlpha (c :: t) = true) :
    noAdjAlpha t = true := by
  cases t with
  | nil => rfl
  | cons d r =>
    rw [noAdjAlpha] at h
    exact (Bool.and_eq_true _ _ ▸ h).2

lemma containsSub_noAdjAlpha (k0 k1 : Char) (kr : Str)
    (h0 : k0.isAlpha = true) (h1 : k1.isAlpha = true) :
    ∀ s, noAdjAlpha s = true → containsSub (k0 :: k1 :: kr) s = false := by
  intro s
  induction s with
  | nil => intro h; rfl
  | cons c rest ih =>
    intro h
    rw [containsSub]
    have htail := ih (noAdjAlpha_tail c rest h)
    rw [htail, Bool.or_false]
    cases hp : (k0 :: k1 :: kr).isPrefixOf (c :: rest) with
    | false => rfl
    | true =>
      exfalso
      rw [List.isPrefixOf_cons₂] at hp
      obtain ⟨hk0, hp2⟩ := Bool.and_eq_true _ _ ▸ hp
      cases rest with
      | nil => simp [List.isPrefixOf] at hp2
      | cons d r2 =>
        rw [List.isPrefixOf_cons₂] at hp2
        obtain ⟨hk1, -⟩ := Bool.and_eq_true _ _ ▸ hp2
        have hc : c = k0 := (eq_of_beq hk0).symm
        have hd : d = k1 := (eq_of_beq hk1).symm
        rw [noAdjAlpha] at h
        obtain ⟨hna, -⟩ := Bool.and_eq_true _ _ ▸ h
        rw [hc, hd, h0, h1] at hna
        exact Bool.false_ne_true hna

lemma isAlpha_pyToLower (c : Char) : (pyToLower c).isAlpha = c.isAlpha := by
  unfold pyToLower
  split <;> first | decide | rfl

lemma noAdjAlpha_lowerStr : ∀ (n : Str), noAdjAlpha (lowerStr n) = noAdjAlpha n := by
  intro n
  induction n with
  | nil => rfl
  | cons c t ih =>
    cases t with
    | nil => rfl
    | cons d r =>
      show noAdjAlpha (pyToLower c :: pyToLower d :: lowerStr r) = _
      rw [noAdjAlpha, noAdjAlpha, isAlpha_pyToLower, isAlpha_pyToLower]
      have ih2 : noAdjAlpha (lowerStr (d :: r)) = noAdjAlpha (d :: r) := ih
      rw [show (pyToLower d :: lowerStr r : Str) = lowerStr (d :: r) from rfl, ih2]

lemma CleanName_noAA (n : Str) (hna : noAdjAlpha n = true)
    (hs : ';' ∉ n) (ht : '*' ∉ n) (hd : '-' ∉ n) (hl : '/' ∉ n) : CleanName n := by
  refine ⟨?_, hs, ht, hd, hl⟩
  intro kw hkw
  obtain ⟨hlen, halpha⟩ := banned_shape kw hkw
  match kw, hlen with
  | k0 :: k1 :: kr, _ =>
    apply containsSub_noAdjAlpha k0 k1 kr
      (halpha k0 (List.mem_cons_self _ _))
      (halpha k1 (List.mem_cons_of_mem _ (List.mem_cons_self _ _)))
    rw [noAdjAlpha_lowerStr]
    exact hna

lemma digitCh_mem (k : Nat) : digitCh k ∈ strOf "0123456789" := by
  unfold digitCh
  split_ifs <;> decide

lemma natToStrAux_digits : ∀ (fuel n : Nat) (acc : Str),
    (∀ c ∈ acc, c ∈ strOf "0123456789") →
    ∀ c ∈ natToStrAux fuel n acc, c ∈ strOf "0123456789" := by
  intro fuel
  induction fuel with
  | zero => intro n acc hacc c hc; exact hacc c hc
  | succ f ih =>
    intro n acc hacc c hc
    rw [natToStrAux] at hc
    by_cases hn : n < 10
    · rw [if_pos hn] at hc
      rcases List.mem_cons.mp hc with h | h
      · rw [h]; exact digitCh_mem n
      · exact hacc c h
    · rw [if_neg hn] at hc
      refine ih (n / 10) (digitCh (n % 10) :: acc) ?_ c hc
      intro x hx
      rcases List.mem_cons.mp hx with h | h
      · rw [h]; exact digitCh_mem _
      · exact hacc x h

lemma natToStr_digits (n : Nat) : ∀ c ∈ natToStr n, c ∈ strOf "0123456789" := by
  intro c hc
  exact natToStrAux_digits (n + 1) n [] (by simp) c hc

lemma digit_not_alpha (c : Char) (h : c ∈ strOf "0123456789") : c.isAlpha = false := by
  have h2 : c ∈ (['0','1','2','3','4','5','6','7','8','9'] : List Char) := h
  fin_cases h2 <;> decide

lemma noAdjAlpha_of_tail_nonalpha (h : Char) :
    ∀ (t : Str), (∀ c ∈ t, c.isAlpha = false) → noAdjAlpha (h :: t) = true := by
  intro t
  induction t generalizing h with
  | nil => intro _; rfl
  | cons d r ih =>
    intro hna
    rw [noAdjAlpha]
    have hd : d.isAlpha = false := hna d (List.mem_cons_self _ _)
    rw [hd]
    have hrest := ih d (fun c hc => hna c (List.mem_cons_of_mem d hc))
    rw [hrest]
    simp

/-- Alias and parameter shapes: a head character followed by digits,
underscores and further digit blocks are clean names. -/
lemma CleanName_head_digits (h : Char) (t : Str)
    (hsh : h = 't' ∨ h = 'p' ∨ h = ':' ∨ h = '_')
    (htb : ∀ c ∈ t, c ∈ strOf "0123456789") : CleanName (h :: t) := by
  have hna : ∀ c ∈ t, c.isAlpha = false := fun c hc => digit_not_alpha c (htb c hc)
  refine CleanName_noAA (h :: t) (noAdjAlpha_of_tail_nonalpha h t hna) ?_ ?_ ?_ ?_ <;>
  · intro hm
    rcases List.mem_cons.mp hm with h1 | h1
    · rcases hsh with h2 | h2 | h2 | h2 <;> rw [h2] at h1 <;> exact absurd h1 (by decide)
    · have h3 : _ ∈ (['0','1','2','3','4','5','6','7','8','9'] : List Char) := htb _ h1
      exact absurd h3 (by decide)
lemma CleanName_nil : CleanName ([] : Str) := by
  refine ⟨?_, by simp, by simp, by simp, by simp⟩
  intro kw hkw
  obtain ⟨hlen, -⟩ := banned_shape kw hkw
  match kw, hlen with
  | k0 :: kr, _ => rfl

lemma take_all_of_long (l : Str) (n : Nat) (h : l.length ≤ n) : l.take n = l :=
  List.take_of_length_le h

lemma containsSub_append_false (pat : Str) (hpa : ∀ c ∈ pat, c.isAlpha = true) :
    ∀ (a b : Str), containsSub pat a = false → containsSub pat b = false →
    ((∃ x cl, a = x ++ [cl] ∧ cl.isAlpha = false)
      ∨ (∃ ch y, b = ch :: y ∧ ch.isAlpha = false) ∨ a = [] ∨ b = []) →
    containsSub pat (a ++ b) = false := by
  intro a
  induction a with
  | nil => intro b _ hb _; exact hb
  | cons c a2 ih =>
    intro b ha hb hj
    rw [containsSub] at ha
    have hab := Bool.or_eq_false_iff.mp ha
    rw [List.cons_append, containsSub]
    apply Bool.or_eq_false_iff.mpr
    constructor
    · -- no occurrence at the head position
      cases hp : pat.isPrefixOf (c :: (a2 ++ b)) with
      | false => rfl
      | true =>
        exfalso
        obtain ⟨t, htt⟩ := List.isPrefixOf_iff_prefix.mp hp
        by_cases hlen : pat.length ≤ (c :: a2).length
        · -- the whole pattern fits inside a, contradicting ha
          have h1 : (pat ++ t).take pat.length = pat := by simp
          have h2 : ((c :: a2) ++ b).take pat.length = (c :: a2).take pat.length := by
            rw [List.take_append_eq_append_take, Nat.sub_eq_zero_of_le hlen]
            simp
          rw [htt, ← List.cons_append, h2] at h1
          have hpre : pat <+: (c :: a2) := h1 ▸ List.take_prefix _ _
          rw [List.isPrefixOf_iff_prefix.mpr hpre] at hab
          exact Bool.noConfusion hab.1
        · -- the pattern spans the junction
          push_neg at hlen
          have h1 : (pat ++ t).take pat.length = pat := by simp
          have h2 : ((c :: a2) ++ b).take pat.length
              = (c :: a2) ++ b.take (pat.length - (c :: a2).length) := by
            rw [List.take_append_eq_append_take,
              take_all_of_long (c :: a2) pat.length (Nat.le_of_lt hlen)]
          rw [htt, ← List.cons_append, h2] at h1
          -- h1 : pat = (c :: a2) ++ b.take k with k > 0
          rcases hj with ⟨x, cl, hae, hcl⟩ | ⟨ch, y, hbe, hch⟩ | hae | hbe
          · have hmem : cl ∈ pat := by
              rw [← h1]
              exact List.mem_append_left _ (hae ▸ List.mem_append_right x (by simp))
            rw [hpa cl hmem] at hcl
            exact Bool.noConfusion hcl
          · have hk : 0 < pat.length - (c :: a2).length := Nat.sub_pos_of_lt hlen
            have hmem : ch ∈ pat := by
              rw [← h1]
              apply List.mem_append_right
              rw [hbe]
              match hkk : pat.length - (c :: a2).length, hk with
              | k + 1, _ => exact List.mem_cons_self _ _
            rw [hpa ch hmem] at hch
            exact Bool.noConfusion hch
          · exact absurd hae (by simp)
          · rw [hbe, List.take_nil, List.append_nil] at h1
            rw [h1] at hlen
            exact absurd hlen (lt_irrefl _)
    · -- no occurrence further right
      apply ih b hab.2 hb
      rcases hj with ⟨x, cl, hae, hcl⟩ | hrest | hae | hbe
      · cases x with
        | nil =>
          injection hae with h1 h2
          exact Or.inr (Or.inr (Or.inl h2))
        | cons x0 x2 =>
          injection hae with h1 h2
          exact Or.inl ⟨x2, cl, h2, hcl⟩
      · exact Or.inr (Or.inl hrest)
      · exact absurd hae (by simp)
      · exact Or.inr (Or.inr (Or.inr hbe))

lemma CleanName_append (a b : Str) (ha : CleanName a) (hb : CleanName b)
    (hj : (∃ x cl, a = x ++ [cl] ∧ cl.isAlpha = false)
      ∨ (∃ ch y, b = ch :: y ∧ ch.isAlpha = false) ∨ a = [] ∨ b = []) :
    CleanName (a ++ b) := by
  obtain ⟨hak, has, hat, had, hal⟩ := ha
  obtain ⟨hbk, hbs, hbt, hbd, hbl⟩ := hb
  refine ⟨?_, ?_, ?_, ?_, ?_⟩
  · intro kw hkw
    obtain ⟨-, halpha⟩ := banned_shape kw hkw
    have hlab : lowerStr (a ++ b) = lowerStr a ++ lowerStr b := by simp [lowerStr]
    rw [hlab]
    apply containsSub_append_false kw halpha _ _ (hak kw hkw) (hbk kw hkw)
    rcases hj with ⟨x, cl, hae, hcl⟩ | ⟨ch, y, hbe, hch⟩ | hae | hbe
    · refine Or.inl ⟨lowerStr x, pyToLower cl, ?_, ?_⟩
      · rw [hae]; simp [lowerStr]
      · rw [isAlpha_pyToLower]; exact hcl
    · refine Or.inr (Or.inl ⟨pyToLower ch, lowerStr y, ?_, ?_⟩)
      · rw [hbe]; rfl
      · rw [isAlpha_pyToLower]; exact hch
    · rw [hae]; exact Or.inr (Or.inr (Or.inl rfl))
    · rw [hbe]; exact Or.inr (Or.inr (Or.inr rfl))
  all_goals
    intro hm
    rcases List.mem_append.mp hm with h1 | h1
  · exact has h1
  · exact hbs h1
  · exact hat h1
  · exact hbt h1
  · exact had h1
  · exact hbd h1
  · exact hal h1
  · exact hbl h1

lemma CleanName_appR (a b : Str) (ha : CleanName a) (hb : CleanName b)
    (ch : Char) (y : Str) (hbe : b = ch :: y) (hna : ch.isAlpha = false) :
    CleanName (a ++ b) :=
  CleanName_append a b ha hb (Or.inr (Or.inl ⟨ch, y, hbe, hna⟩))

lemma CleanName_appL (a b : Str) (ha : CleanName a) (hb : CleanName b)
    (x : Str) (cl : Char) (hae : a = x ++ [cl]) (hna : cl.isAlpha = false) :
    CleanName (a ++ b) :=
  CleanName_append a b ha hb (Or.inl ⟨x, cl, hae, hna⟩)

lemma CleanName_intercalate (sep : Str) (c0 : Char) (s1 : Str)
    (hsh : sep = c0 :: s1) (h0 : c0.isAlpha = false)
    (x1 : Str) (cl : Char) (hsl : sep = x1 ++ [cl]) (hcl : cl.isAlpha = false)
    (hsepc : CleanName sep) :
    ∀ (xs : List Str), (∀ x ∈ xs, CleanName x) → CleanName (sep.intercalate xs) := by
  intro xs
  induction xs with
  | nil =>
    intro _
    have he : sep.intercalate ([] : List Str) = [] := by simp [List.intercalate]
    rw [he]
    exact CleanName_nil
  | cons x rest ih =>
    intro hall
    have hx : CleanName x := hall x (List.mem_cons_self _ _)
    cases rest with
    | nil =>
      have he : sep.intercalate [x] = x := by simp [List.intercalate]
      rw [he]
      exact hx
    | cons y zs =>
      have he : sep.intercalate (x :: y :: zs) = x ++ sep ++ sep.intercalate (y :: zs) := by
        simp [List.intercalate, List.intersperse]
      rw [he]
      have hrest : CleanName (sep.intercalate (y :: zs)) :=
        ih (fun z hz => hall z (List.mem_cons_of_mem x hz))
      refine CleanName_appL (x ++ sep) _ ?_ hrest (x ++ x1) cl (by rw [hsl]; simp) hcl
      exact CleanName_appR x sep hx hsepc c0 s1 hsh h0
lemma pyStrip_within (s : Str) : pyStrip s <:+: s := by
  obtain ⟨w1, w2, -, -, hdec⟩ := strip_decomp s
  exact ⟨w1, w2, hdec.symm⟩

lemma CleanName_pyStrip (s : Str) (h : CleanName s) : CleanName (pyStrip s) :=
  CleanName_within _ _ (pyStrip_within s) h

lemma beforeAS_leads : ∀ (s : Str), beforeAS s <+: s := by
  intro s
  induction s with
  | nil => exact List.prefix_refl _
  | cons c rest ih =>
    rw [beforeAS]
    by_cases hp : (strOf " AS ").isPrefixOf (c :: rest) = true
    · rw [if_pos hp]
      exact List.nil_prefix
    · rw [if_neg hp]
      exact List.cons_prefix_cons.mpr ⟨rfl, ih⟩

lemma CleanName_splitASHead (s : Str) (h : CleanName s) : CleanName (splitASHead s) := by
  rw [splitASHead]
  apply CleanName_pyStrip
  exact CleanName_within _ _ (beforeAS_leads s).isInfix h

lemma noDigits_no_alpha (s : Str) (h : ∀ c ∈ s, c ∈ strOf "0123456789") :
    ∀ c ∈ s, c.isAlpha = false :=
  fun c hc => digit_not_alpha c (h c hc)

lemma digit_char_facts (c : Char) (h : c ∈ strOf "0123456789") :
    c.isAlpha = false ∧ c ≠ ';' ∧ c ≠ '*' ∧ c ≠ '-' ∧ c ≠ '/' := by
  have h2 : c ∈ (['0','1','2','3','4','5','6','7','8','9'] : List Char) := h
  fin_cases h2 <;> refine ⟨by decide, by decide, by decide, by decide, by decide⟩

lemma CleanName_digits (s : Str) (h : ∀ c ∈ s, c ∈ strOf "0123456789") :
    CleanName s := by
  cases s with
  | nil => exact CleanName_nil
  | cons c0 t =>
    refine CleanName_noAA _ (noAdjAlpha_of_tail_nonalpha c0 t ?_) ?_ ?_ ?_ ?_
    · exact fun c hc => (digit_char_facts c (h c (List.mem_cons_of_mem _ hc))).1
    all_goals
      intro hm
    · exact (digit_char_facts _ (h _ hm)).2.1 rfl
    · exact (digit_char_facts _ (h _ hm)).2.2.1 rfl
    · exact (digit_char_facts _ (h _ hm)).2.2.2.1 rfl
    · exact (digit_char_facts _ (h _ hm)).2.2.2.2 rfl

lemma noAdjAlpha_cons_nonalpha (c : Char) (s : Str) (hc : c.isAlpha = false)
    (hs : noAdjAlpha s = true) : noAdjAlpha (c :: s) = true := by
  cases s with
  | nil => rfl
  | cons d r =>
    rw [noAdjAlpha, hc]
    simpa using hs

/-- A filter parameter placeholder `:pI_J` is a clean name. -/
lemma CleanName_placeholder (i j : Nat) :
    CleanName (':' :: 'p' :: natToStr i ++ '_' :: natToStr j) := by
  have htail : ∀ c ∈ (natToStr i ++ '_' :: natToStr j : Str), c.isAlpha = false := by
    intro c hc
    rcases List.mem_append.mp hc with h1 | h1
    · exact (digit_char_facts c (natToStr_digits i c h1)).1
    · rcases List.mem_cons.mp h1 with h2 | h2
      · rw [h2]; rfl
      · exact (digit_char_facts c (natToStr_digits j c h2)).1
  have hchars : ∀ c ∈ (':' :: 'p' :: natToStr i ++ '_' :: natToStr j : Str),
      c ≠ ';' ∧ c ≠ '*' ∧ c ≠ '-' ∧ c ≠ '/' := by
    intro c hc
    rcases List.mem_cons.mp hc with h1 | h1
    · rw [h1]; refine ⟨by decide, by decide, by decide, by decide⟩
    rcases List.mem_cons.mp h1 with h2 | h2
    · rw [h2]; refine ⟨by decide, by decide, by decide, by decide⟩
    rcases List.mem_append.mp h2 with h3 | h3
    · have := digit_char_facts c (natToStr_digits i c h3)
      exact ⟨this.2.1, this.2.2.1, this.2.2.2.1, this.2.2.2.2⟩
    rcases List.mem_cons.mp h3 with h4 | h4
    · rw [h4]; refine ⟨by decide, by decide, by decide, by decide⟩
    · have := digit_char_facts c (natToStr_digits j c h4)
      exact ⟨this.2.1, this.2.2.1, this.2.2.2.1, this.2.2.2.2⟩
  refine CleanName_noAA _ ?_ ?_ ?_ ?_ ?_
  · apply noAdjAlpha_cons_nonalpha ':' _ rfl
    exact noAdjAlpha_of_tail_nonalpha 'p' _ htail
  all_goals
    intro hm
  · exact (hchars _ hm).1 rfl
  · exact (hchars _ hm).2.1 rfl
  · exact (hchars _ hm).2.2.1 rfl
  · exact (hchars _ hm).2.2.2 rfl

lemma lookup_mem : ∀ (l : List (Str × Str)) (k v : Str),
    l.lookup k = some v → (k, v) ∈ l := by
  intro l
  induction l with
  | nil => intro k v h; simp [List.lookup] at h
  | cons e rest ih =>
    intro k v h
    rw [List.lookup] at h
    cases hk : k == e.1 with
    | true =>
      rw [hk] at h
      have h2 : some e.2 = some v := h
      injection h2 with h3
      have hke : k = e.1 := eq_of_beq hk
      have hkv : (k, v) = e := by rw [hke, ← h3]
      rw [hkv]
      exact List.mem_cons_self _ _
    | false =>
      rw [hk] at h
      have h2 : List.lookup k rest = some v := h
      exact List.mem_cons_of_mem _ (ih k v h2)

/-- Clean names are determined by the lowercased string. -/
lemma CleanName_of_lower_eq (op w : Str) (hx : lowerStr op = w)
    (hkw : ∀ k ∈ DISALLOWED_KEYWORDS, containsSub k w = false)
    (h1 : ';' ∉ w) (h2 : '*' ∉ w) (h3 : '-' ∉ w) (h4 : '/' ∉ w) :
    CleanName op := by
  refine ⟨fun k hk => by rw [hx]; exact hkw k hk, ?_, ?_, ?_, ?_⟩
  · intro hm
    have hw : (';' : Char) ∈ lowerStr op := List.mem_map_of_mem pyToLower hm
    exact h1 (hx ▸ hw)
  · intro hm
    have hw : ('*' : Char) ∈ lowerStr op := List.mem_map_of_mem pyToLower hm
    exact h2 (hx ▸ hw)
  · intro hm
    have hw : ('-' : Char) ∈ lowerStr op := List.mem_map_of_mem pyToLower hm
    exact h3 (hx ▸ hw)
  · intro hm
    have hw : ('/' : Char) ∈ lowerStr op := List.mem_map_of_mem pyToLower hm
    exact h4 (hx ▸ hw)

/-- The operator kept by the filter loop is clean whenever its lowercase
form is in the safe list. -/
lemma CleanName_safe_op (op : Str) (h : SAFE_OPS.contains (lowerStr op) = true) :
    CleanName op := by
  have hmem : lowerStr op ∈ SAFE_OPS := by simpa using h
  rw [SAFE_OPS] at hmem
  rcases List.mem_cons.mp hmem with hx | hmem
  · exact CleanName_of_lower_eq op _ hx (by decide) (by decide) (by decide) (by decide) (by decide)
  rcases List.mem_cons.mp hmem with hx | hmem
  · exact CleanName_of_lower_eq op _ hx (by decide) (by decide) (by decide) (by decide) (by decide)
  rcases List.mem_cons.mp hmem with hx | hmem
  · exact CleanName_of_lower_eq op _ hx (by decide) (by decide) (by decide) (by decide) (by decide)
  rcases List.mem_cons.mp hmem with hx | hmem
  · exact CleanName_of_lower_eq op _ hx (by decide) (by decide) (by decide) (by decide) (by decide)
  rcases List.mem_cons.mp hmem with hx | hmem
  · exact CleanName_of_lower_eq op _ hx (by decide) (by decide) (by decide) (by decide) (by decide)
  rcases List.mem_cons.mp hmem with hx | hmem
  · exact CleanName_of_lower_eq op _ hx (by decide) (by decide) (by decide) (by decide) (by decide)
  rcases List.mem_cons.mp hmem with hx | hmem
  · exact CleanName_of_lower_eq op _ hx (by decide) (by decide) (by decide) (by decide) (by decide)
  rcases List.mem_cons.mp hmem with hx | hmem
  · exact CleanName_of_lower_eq op _ hx (by decide) (by decide) (by decide) (by decide) (by decide)
  · exact absurd hmem (by simp)

instance CleanName.dec (n : Str) : Decidable (CleanName n) := by
  unfold CleanName
  infer_instance

lemma CleanName_colref (a c : Str) (ha : CleanName a) (hc : CleanName c) :
    CleanName (a ++ strOf ".[" ++ c ++ strOf "] AS [" ++ c ++ strOf "]") := by
  have he : a ++ strOf ".[" ++ c ++ strOf "] AS [" ++ c ++ strOf "]"
      = a ++ (strOf ".[" ++ (c ++ (strOf "] AS [" ++ (c ++ strOf "]")))) := by
    simp
  rw [he]
  refine CleanName_appR a _ ha ?_ '.' _ rfl (by decide)
  refine CleanName_appL (strOf ".[") _ (by decide) ?_ ['.'] '[' rfl (by decide)
  refine CleanName_appR c _ hc ?_ ']' _ rfl (by decide)
  refine CleanName_appL (strOf "] AS [") _ (by decide) ?_ (strOf "] AS ") '[' rfl (by decide)
  exact CleanName_appR c _ hc (by decide) ']' _ rfl (by decide)

lemma fmtTable_clean (t : Str) (h : CleanName t) :
    CleanName (fmtTable t) ∧ (∃ y, fmtTable t = '[' :: y)
      ∧ (∃ x, fmtTable t = x ++ [']']) := by
  have ht' : CleanName (pyStrip t) := CleanName_pyStrip t h
  simp only [fmtTable]
  by_cases hdot : (pyStrip t).contains '.' = true
  · rw [if_pos hdot]
    have hschema : CleanName ((pyStrip t).takeWhile (fun c => c ≠ '.')) :=
      CleanName_within _ _ (List.takeWhile_prefix _).isInfix ht'
    have htable : CleanName (((pyStrip t).dropWhile (fun c => c ≠ '.')).drop 1) := by
      refine CleanName_within _ _ ?_ ht'
      exact ((List.drop_suffix 1 _).trans (List.dropWhile_suffix _)).isInfix
    refine ⟨?_, ⟨_, rfl⟩, ⟨_, rfl⟩⟩
    have he : strOf "[" ++ (pyStrip t).takeWhile (fun c => c ≠ '.') ++ strOf "].["
          ++ ((pyStrip t).dropWhile (fun c => c ≠ '.')).drop 1 ++ strOf "]"
        = strOf "[" ++ ((pyStrip t).takeWhile (fun c => c ≠ '.') ++ (strOf "].["
          ++ (((pyStrip t).dropWhile (fun c => c ≠ '.')).drop 1 ++ strOf "]"))) := by
      simp
    rw [he]
    refine CleanName_appL (strOf "[") _ (by decide) ?_ [] '[' rfl (by decide)
    refine CleanName_appR _ _ hschema ?_ ']' _ rfl (by decide)
    refine CleanName_appL (strOf "].[") _ (by decide) ?_ (strOf "].") '[' rfl (by decide)
    exact CleanName_appR _ _ htable (by decide) ']' _ rfl (by decide)
  · rw [if_neg hdot]
    refine ⟨?_, ⟨_, by rw [show (strOf "[" : Str) = ['['] from rfl, List.cons_append,
      List.nil_append]; rfl⟩, ⟨_, rfl⟩⟩
    have he : strOf "[" ++ pyStrip t ++ strOf "]"
        = strOf "[" ++ (pyStrip t ++ strOf "]") := by simp
    rw [he]
    refine CleanName_appL (strOf "[") _ (by decide) ?_ [] '[' rfl (by decide)
    exact CleanName_appR _ _ ht' (by decide) ']' _ rfl (by decide)

lemma alias_getD_clean (am : List (Str × Str)) (t : Str)
    (ham : ∀ pr ∈ am, CleanName pr.2) :
    CleanName ((am.lookup t).getD (strOf "t0")) := by
  cases hl : am.lookup t with
  | none => exact (by decide : CleanName (strOf "t0"))
  | some a => exact ham (t, a) (lookup_mem am t a hl)

lemma resolveColumn_clean (reg : Registry) (hint : Str) (tables : List Str)
    (am : List (Str × Str)) (cr : Str)
    (hreg : ∀ e ∈ reg, ∀ c ∈ e.2, CleanName c)
    (ham : ∀ pr ∈ am, CleanName pr.2)
    (h : resolveColumn reg hint tables am = some cr) : CleanName cr := by
  simp only [resolveColumn] at h
  split at h
  · exact absurd h (by simp)
  · split at h
    · rename_i p0 p1 p2 hsplit
      split at h
      · rename_i a hla
        split at h
        · rename_i hhas
          injection h with h2
          have hmem : p2 ∈ tableColumns reg (p0 ++ '.' :: p1) := by
            rw [hasColumn] at hhas
            simpa using hhas
          have hcol : CleanName p2 := by
            rw [tableColumns] at hmem
            cases hf : reg.find? (fun e => e.1 == (p0 ++ '.' :: p1)) with
            | none => rw [hf] at hmem; simp at hmem
            | some e =>
              rw [hf] at hmem
              exact hreg e (List.mem_of_find?_eq_some hf) p2 hmem
          have hal : CleanName a := ham _ (lookup_mem am _ a hla)
          rw [← h2]
          exact CleanName_colref a p2 hal hcol
        · exact absurd h (by simp)
      · exact absurd h (by simp)
    · exact absurd h (by simp)
    · rename_i hsplit1 hsplit2
      obtain ⟨t, hmem, hfs⟩ := List.exists_of_findSome?_eq_some h
      obtain ⟨c, hcmem, hcf⟩ := List.exists_of_findSome?_eq_some hfs
      split at hcf
      · injection hcf with h2
        have hcol : CleanName c := by
          rw [tableColumns] at hcmem
          cases hf : reg.find? (fun e => e.1 == t) with
          | none => rw [hf] at hcmem; simp at hcmem
          | some e =>
            rw [hf] at hcmem
            exact hreg e (List.mem_of_find?_eq_some hf) c hcmem
        have hal : CleanName ((am.lookup t).getD (strOf "t0")) := alias_getD_clean am t ham
        rw [← h2]
        exact CleanName_colref _ c hal hcol
      · exact absurd hcf (by simp)
lemma tableColumns_clean (reg : Registry) (t : Str)
    (hreg : ∀ e ∈ reg, CleanName e.1 ∧ ∀ c ∈ e.2, CleanName c) :
    ∀ c ∈ tableColumns reg t, CleanName c := by
  intro c hc
  rw [tableColumns] at hc
  cases hf : reg.find? (fun e => e.1 == t) with
  | none => rw [hf] at hc; simp at hc
  | some e =>
    rw [hf] at hc
    exact (hreg e (List.mem_of_find?_eq_some hf)).2 c hc

lemma app_head_decomp (c : Char) (l w X : Str) (hw : w = c :: l) :
    w ++ X = c :: (l ++ X) := by
  rw [hw, List.cons_append]

lemma jsJt_clean (jto : Option Str) : CleanName (jsJt jto) := by
  simp only [jsJt]
  generalize (match jto with
      | some s => if s.isEmpty then strOf "LEFT" else upperStr s
      | none => strOf "LEFT" : Str) = M
  by_cases hc : (M = strOf "INNER" || M = strOf "LEFT"
      || M = strOf "RIGHT" || M = strOf "FULL" : Bool) = true
  · rw [if_pos hc]
    have hor : M = strOf "INNER" ∨ M = strOf "LEFT" ∨ M = strOf "RIGHT"
        ∨ M = strOf "FULL" := by simpa [or_assoc] using hc
    rcases hor with h | h | h | h <;> rw [h] <;> decide
  · rw [if_neg hc]
    decide

lemma jsExtend_clean (st : List (Str × Str) × Nat) (k : Str)
    (ham : ∀ pr ∈ st.1, CleanName pr.2) :
    ∀ pr ∈ (jsExtend st k).1, CleanName pr.2 := by
  rw [jsExtend]
  by_cases hc : (st.1.lookup k).isSome = true
  · rw [if_pos hc]; exact ham
  · rw [if_neg hc]
    intro pr hpr
    rcases List.mem_append.mp hpr with h1 | h1
    · exact ham pr h1
    · rw [List.mem_singleton.mp h1]
      exact CleanName_head_digits 't' _ (Or.inl rfl) (natToStr_digits st.2)

set_option maxHeartbeats 1000000 in
lemma jsClause_clean (jt rt ra la lk rk : Str)
    (hjt : CleanName jt) (hrt : CleanName rt) (hra : CleanName ra) (hla : CleanName la)
    (hlk : CleanName lk) (hrk : CleanName rk) :
    CleanName (jsClause jt rt ra la lk rk) := by
  have h12 : CleanName (rk ++ strOf "]") :=
    CleanName_appR rk _ hrk (by decide) ']' (strOf "") (app_head_decomp ']' [] _ [] rfl) (by decide)
  have h11 := CleanName_appL (strOf ".[") _ (by decide) h12 ['.'] '[' rfl (by decide)
  have h10 := CleanName_appR ra _ hra h11 '.' _
    (app_head_decomp '.' (strOf "[") _ _ rfl) (by decide)
  have h9 := CleanName_appL (strOf "] = ") _ (by decide) h10 (strOf "] =") ' ' rfl (by decide)
  have h8 := CleanName_appR lk _ hlk h9 ']' _
    (app_head_decomp ']' (strOf " = ") _ _ rfl) (by decide)
  have h7 := CleanName_appL (strOf ".[") _ (by decide) h8 ['.'] '[' rfl (by decide)
  have h6 := CleanName_appR la _ hla h7 '.' _
    (app_head_decomp '.' (strOf "[") _ _ rfl) (by decide)
  have h5 := CleanName_appL (strOf " ON ") _ (by decide) h6 (strOf " ON") ' ' rfl (by decide)
  have h4 := CleanName_appR ra _ hra h5 ' ' _
    (app_head_decomp ' ' (strOf "ON ") _ _ rfl) (by decide)
  have h3 := CleanName_appL (strOf " AS ") _ (by decide) h4 (strOf " AS") ' ' rfl (by decide)
  have h2 := CleanName_appR (fmtTable rt) _ (fmtTable_clean rt hrt).1 h3 ' ' _
    (app_head_decomp ' ' (strOf "AS ") _ _ rfl) (by decide)
  have h1 := CleanName_appL (strOf " JOIN ") _ (by decide) h2 (strOf " JOIN") ' ' rfl (by decide)
  have hres := CleanName_appR jt _ hjt h1 ' ' _
    (app_head_decomp ' ' (strOf "JOIN ") _ _ rfl) (by decide)
  have he : jsClause jt rt ra la lk rk
      = jt ++ (strOf " JOIN " ++ (fmtTable rt ++ (strOf " AS " ++ (ra ++ (strOf " ON "
        ++ (la ++ (strOf ".[" ++ (lk ++ (strOf "] = " ++ (ra ++ (strOf ".["
        ++ (rk ++ strOf "]")))))))))))) := by
    rw [jsClause]
    simp [List.append_assoc]
  rw [he]
  exact hres

lemma joinStep_eq (reg : Registry) (tables : List Str) (acc : JoinAcc) (j : JoinSpec) :
    joinStep reg tables acc j =
      match j.left_table, j.right_table, j.left_key, j.right_key with
      | some lt, some rt, some lk, some rk =>
        if !(tables.contains lt && tables.contains rt) then acc
        else if !(hasColumn reg lt lk && hasColumn reg rt rk) then acc
        else
          let st2 := jsExtend (jsExtend (acc.aliasMap, acc.aliasI) lt) rt
          { aliasMap := st2.1, aliasI := st2.2,
            clauses := acc.clauses ++ [jsClause (jsJt j.join_type) rt
              ((st2.1.lookup rt).getD (strOf "t0"))
              ((st2.1.lookup lt).getD (strOf "t0")) lk rk] }
      | _, _, _, _ => acc := by
  rfl

lemma joinStep_clean (reg : Registry) (tables : List Str) (acc : JoinAcc) (j : JoinSpec)
    (hreg : ∀ e ∈ reg, CleanName e.1 ∧ ∀ c ∈ e.2, CleanName c)
    (htab : ∀ t ∈ tables, CleanName t)
    (ham : ∀ pr ∈ acc.aliasMap, CleanName pr.2)
    (hcl : ∀ cl ∈ acc.clauses, CleanName cl) :
    (∀ pr ∈ (joinStep reg tables acc j).aliasMap, CleanName pr.2)
    ∧ (∀ cl ∈ (joinStep reg tables acc j).clauses, CleanName cl) := by
  rw [joinStep_eq]
  split
  · rename_i lt rt lk rk heq1 heq2 heq3 heq4
    split_ifs with hg1 hg2
    · exact ⟨ham, hcl⟩
    · exact ⟨ham, hcl⟩
    · simp only [Bool.not_eq_true, Bool.not_eq_false', Bool.and_eq_true,
        decide_eq_true_eq] at hg1 hg2
      have hrtm : rt ∈ tables := by
        have := hg1.2
        simpa using this
      have hlkc : lk ∈ tableColumns reg lt := by
        have := hg2.1
        rw [hasColumn] at this
        simpa using this
      have hrkc : rk ∈ tableColumns reg rt := by
        have := hg2.2
        rw [hasColumn] at this
        simpa using this
      have hbase : ∀ pr ∈ ((acc.aliasMap, acc.aliasI) : List (Str × Str) × Nat).1,
          CleanName pr.2 := ham
      have ham2 := jsExtend_clean _ rt (jsExtend_clean (acc.aliasMap, acc.aliasI) lt hbase)
      refine ⟨ham2, ?_⟩
      intro cl hclm
      rcases List.mem_append.mp hclm with h1 | h1
      · exact hcl cl h1
      · rw [List.mem_singleton.mp h1]
        exact jsClause_clean _ rt _ _ lk rk (jsJt_clean _) (htab rt hrtm)
          (alias_getD_clean _ rt ham2) (alias_getD_clean _ lt ham2)
          (tableColumns_clean reg lt hreg lk hlkc)
          (tableColumns_clean reg rt hreg rk hrkc)
  · exact ⟨ham, hcl⟩

lemma joinFold_clean (reg : Registry) (tables : List Str)
    (hreg : ∀ e ∈ reg, CleanName e.1 ∧ ∀ c ∈ e.2, CleanName c)
    (htab : ∀ t ∈ tables, CleanName t) :
    ∀ (js : List JoinSpec) (acc : JoinAcc),
      (∀ pr ∈ acc.aliasMap, CleanName pr.2) → (∀ cl ∈ acc.clauses, CleanName cl) →
      (∀ pr ∈ (js.foldl (joinStep reg tables) acc).aliasMap, CleanName pr.2)
      ∧ (∀ cl ∈ (js.foldl (joinStep reg tables) acc).clauses, CleanName cl) := by
  intro js
  induction js with
  | nil => intro acc ham hcl; exact ⟨ham, hcl⟩
  | cons j rest ih =>
    intro acc ham hcl
    rw [List.foldl_cons]
    obtain ⟨h1, h2⟩ := joinStep_clean reg tables acc j hreg htab ham hcl
    exact ih (joinStep reg tables acc j) h1 h2
lemma CleanName_wrap (pre mid post : Str)
    (hpre : CleanName pre) (hmid : CleanName mid) (hpost : CleanName post)
    (x : Str) (cl : Char) (hx : pre = x ++ [cl]) (hcl : cl.isAlpha = false)
    (ch : Char) (y : Str) (hy : post = ch :: y) (hch : ch.isAlpha = false) :
    CleanName (pre ++ mid ++ post) := by
  have h1 : CleanName (mid ++ post) := CleanName_appR mid post hmid hpost ch y hy hch
  have he : pre ++ mid ++ post = pre ++ (mid ++ post) := by simp
  rw [he]
  exact CleanName_appL pre _ hpre h1 x cl hx hcl

lemma aggSql_clean (agg colLeft : Str) (h : CleanName colLeft) :
    CleanName (aggSql agg colLeft) := by
  simp only [aggSql]
  split_ifs
  · exact CleanName_wrap _ _ _ (by decide) h (by decide) (strOf "SUM") '(' rfl (by decide)
      ')' [] rfl (by decide)
  · exact CleanName_wrap _ _ _ (by decide) h (by decide) (strOf "AVG") '(' rfl (by decide)
      ')' [] rfl (by decide)
  · exact CleanName_wrap _ _ _ (by decide) h (by decide) (strOf "MIN") '(' rfl (by decide)
      ')' [] rfl (by decide)
  · exact CleanName_wrap _ _ _ (by decide) h (by decide) (strOf "MAX") '(' rfl (by decide)
      ')' [] rfl (by decide)
  · decide
  · exact CleanName_wrap _ _ _ (by decide) h (by decide) (strOf "COUNT(DISTINCT") ' ' rfl
      (by decide) ')' [] rfl (by decide)
  · exact CleanName_wrap _ _ _ (by decide) h (by decide) (strOf "SUM") '(' rfl (by decide)
      ')' [] rfl (by decide)

lemma timeBucket_clean (colLeft grain : Str) (h : CleanName colLeft) :
    CleanName (timeBucketSqlserver colLeft grain) := by
  simp only [timeBucketSqlserver]
  split_ifs
  · exact CleanName_wrap _ _ _ (by decide) h (by decide)
      (strOf "DATEADD(day, DATEDIFF(day, 0,") ' ' rfl (by decide) ')' _ rfl (by decide)
  · exact CleanName_wrap _ _ _ (by decide) h (by decide)
      (strOf "DATEADD(week, DATEDIFF(week, 0,") ' ' rfl (by decide) ')' _ rfl (by decide)
  · exact CleanName_wrap _ _ _ (by decide) h (by decide)
      (strOf "DATEADD(month, DATEDIFF(month, 0,") ' ' rfl (by decide) ')' _ rfl (by decide)
  · exact CleanName_wrap _ _ _ (by decide) h (by decide)
      (strOf "DATEADD(year, DATEDIFF(year, 0,") ' ' rfl (by decide) ')' _ rfl (by decide)
  · exact h

lemma CleanName_asAlias (w mal : Str) (hw : CleanName w) (hmal : CleanName mal) :
    CleanName (w ++ strOf " AS [" ++ mal ++ strOf "]") := by
  have he : w ++ strOf " AS [" ++ mal ++ strOf "]"
      = w ++ (strOf " AS [" ++ (mal ++ strOf "]")) := by simp
  rw [he]
  refine CleanName_appR w _ hw ?_ ' ' _ (app_head_decomp ' ' (strOf "AS [") _ _ rfl) (by decide)
  refine CleanName_appL (strOf " AS [") _ (by decide) ?_ (strOf " AS ") '[' rfl (by decide)
  exact CleanName_appR mal _ hmal (by decide) ']' []
    (app_head_decomp ']' [] _ [] rfl) (by decide)

lemma aliasName_within (s : Str) : aliasName s <:+: s := by
  rw [aliasName]
  cases ha : aliasSearch s with
  | none => exact List.infix_refl _
  | some p =>
    obtain ⟨pre, tail, hdec, -, -⟩ := alias_group_decomp s p.1 p.2 (by rw [ha])
    refine ⟨pre ++ ['['], ']' :: tail, ?_⟩
    rw [← hdec]
    simp

lemma splitExprAlias_within (s : Str) :
    (splitExprAlias s).1 <:+: s ∧ (splitExprAlias s).2 <:+: s := by
  have hps : pyStrip s <:+: s := pyStrip_within s
  have han : pyStrip (aliasName s) <:+: s :=
    (pyStrip_within _).trans (aliasName_within s)
  simp only [splitExprAlias]
  split
  · rename_i i g heq
    split_ifs with hnl
    · exact ⟨hps, han⟩
    · constructor
      · exact ((pyStrip_within _).trans (List.take_prefix _ _).isInfix).trans hps
      · obtain ⟨pre, tail, hdec, -, -⟩ := alias_group_decomp _ i g heq
        have hg : g <:+: pyStrip s := by
          refine ⟨pre ++ ['['], ']' :: tail, ?_⟩
          rw [← hdec]
          simp
        exact ((pyStrip_within _).trans hg).trans hps
  · exact ⟨hps, han⟩

lemma depLoop_clean (reg : Registry) (tables : List Str) (am : List (Str × Str))
    (dimCols : List Str)
    (hreg : ∀ e ∈ reg, ∀ c ∈ e.2, CleanName c)
    (ham : ∀ pr ∈ am, CleanName pr.2) :
    ∀ (cs acc : List Str), (∀ x ∈ acc, CleanName x) →
      ∀ x ∈ depLoop reg tables am dimCols acc cs, CleanName x := by
  intro cs
  induction cs with
  | nil =>
    intro acc hacc x hx
    rw [depLoop] at hx
    exact hacc x hx
  | cons c cs2 ih =>
    intro acc hacc x hx
    rw [depLoop] at hx
    cases hr : resolveColumn reg c tables am with
    | none =>
      rw [hr] at hx
      exact ih acc hacc x hx
    | some cr =>
      rw [hr] at hx
      have hx' : x ∈ (if !(dimCols.contains cr) && !(acc.contains cr) then
          depLoop reg tables am dimCols (acc ++ [cr]) cs2
        else depLoop reg tables am dimCols acc cs2) := hx
      have hcr : CleanName cr := resolveColumn_clean reg c tables am cr hreg ham hr
      by_cases hcnd : (!(dimCols.contains cr) && !(acc.contains cr)) = true
      · rw [if_pos hcnd] at hx'
        refine ih (acc ++ [cr]) ?_ x hx'
        intro z hz
        rcases List.mem_append.mp hz with h1 | h1
        · exact hacc z h1
        · rw [List.mem_singleton.mp h1]
          exact hcr
      · rw [if_neg hcnd] at hx'
        exact ih acc hacc x hx'

lemma metricLoop_clean (reg : Registry) (tables : List Str) (am : List (Str × Str))
    (dimCols : List Str)
    (hreg : ∀ e ∈ reg, ∀ c ∈ e.2, CleanName c)
    (ham : ∀ pr ∈ am, CleanName pr.2) :
    ∀ (ms : List Metric),
      (∀ m ∈ ms, ∀ nm, m.name = some nm → CleanName (safeAlias nm)) →
      ∀ (acc accNames : List Str),
      (∀ x ∈ acc, CleanName x) → (∀ x ∈ accNames, CleanName x) →
      (∀ x ∈ (metricLoop reg tables am dimCols acc accNames ms).1, CleanName x)
      ∧ (∀ x ∈ (metricLoop reg tables am dimCols acc accNames ms).2, CleanName x) := by
  intro ms
  induction ms with
  | nil =>
    intro hms acc accNames hacc hnames
    rw [metricLoop]
    exact ⟨hacc, hnames⟩
  | cons m rest ih =>
    intro hms acc accNames hacc hnames
    have hrest : ∀ m2 ∈ rest, ∀ nm, m2.name = some nm → CleanName (safeAlias nm) :=
      fun m2 hm2 => hms m2 (List.mem_cons_of_mem m hm2)
    simp only [metricLoop]
    split
    · exact ih hrest acc accNames hacc hnames
    · rename_i nm hname
      split
      · exact ih hrest acc accNames hacc hnames
      · split
        · cases hdep : m.depends_on with
          | none =>
            exact ih hrest acc accNames hacc hnames
          | some dep =>
            exact ih hrest _ accNames
              (fun x hx => depLoop_clean reg tables am dimCols hreg ham dep acc hacc x hx)
              hnames
        · split
          · exact ih hrest acc accNames hacc hnames
          · rename_i fld hfld
            split
            · exact ih hrest acc accNames hacc hnames
            · rename_i baseCol hbase
              have hmal : CleanName (safeAlias nm) := hms m (List.mem_cons_self _ _) nm hname
              have hcol : CleanName (splitASHead baseCol) :=
                CleanName_splitASHead _ (resolveColumn_clean reg fld tables am _ hreg ham hbase)
              refine ih hrest _ _ ?_ ?_
              · intro x hx
                rcases List.mem_append.mp hx with h1 | h1
                · exact hacc x h1
                · rw [List.mem_singleton.mp h1]
                  exact CleanName_asAlias _ _ (aggSql_clean _ _ hcol) hmal
              · intro x hx
                rcases List.mem_append.mp hx with h1 | h1
                · exact hnames x h1
                · rw [List.mem_singleton.mp h1]
                  exact hmal
lemma dir_clean (M : Str) :
    CleanName (if M = strOf "ASC" || M = strOf "DESC" then M else strOf "ASC") := by
  by_cases hc : (M = strOf "ASC" || M = strOf "DESC" : Bool) = true
  · rw [if_pos hc]
    have hor : M = strOf "ASC" ∨ M = strOf "DESC" := by simpa using hc
    rcases hor with h | h <;> rw [h] <;> decide
  · rw [if_neg hc]
    decide

lemma CleanName_scalar_part (left op' p : Str)
    (hleft : CleanName left) (hop : CleanName op') (hp : CleanName p)
    (hph : ∃ t, p = 'p' :: t) :
    CleanName (left ++ ' ' :: op' ++ strOf " :" ++ p) := by
  obtain ⟨t, hpt⟩ := hph
  have he : left ++ ' ' :: op' ++ strOf " :" ++ p
      = left ++ ((' ' :: op') ++ (strOf " :" ++ p)) := by simp
  rw [he]
  refine CleanName_appR left _ hleft ?_ ' ' _ (app_head_decomp ' ' op' _ _ rfl) (by decide)
  have hsp : CleanName (strOf " :" ++ p) :=
    CleanName_appL (strOf " :") p (by decide) hp (strOf " ") ':' rfl (by decide)
  have hop2 : CleanName (' ' :: op') :=
    CleanName_appL [' '] op' (by decide) hop [] ' ' rfl (by decide)
  exact CleanName_appR (' ' :: op') _ hop2 hsp ' ' _
    (app_head_decomp ' ' (strOf ":") _ _ rfl) (by decide)

lemma CleanName_in_part (left I : Str) (hleft : CleanName left) (hI : CleanName I) :
    CleanName (left ++ strOf " IN (" ++ I ++ strOf ")") := by
  have he : left ++ strOf " IN (" ++ I ++ strOf ")"
      = left ++ (strOf " IN (" ++ (I ++ strOf ")")) := by simp
  rw [he]
  refine CleanName_appR left _ hleft ?_ ' ' _ (app_head_decomp ' ' (strOf "IN (") _ _ rfl)
    (by decide)
  refine CleanName_appL (strOf " IN (") _ (by decide) ?_ (strOf " IN ") '(' rfl (by decide)
  exact CleanName_appR I _ hI (by decide) ')' [] (app_head_decomp ')' [] _ [] rfl) (by decide)

lemma filterLoop_clean (reg : Registry) (tables : List Str) (am : List (Str × Str))
    (hreg : ∀ e ∈ reg, ∀ c ∈ e.2, CleanName c)
    (ham : ∀ pr ∈ am, CleanName pr.2) :
    ∀ (fs : List Filter) (idx : Nat) (params : List (Str × FVal)) (parts : List Str),
      (∀ x ∈ parts, CleanName x) →
      ∀ x ∈ (filterLoop reg tables am idx params parts fs).2, CleanName x := by
  intro fs
  induction fs with
  | nil =>
    intro idx params parts hparts x hx
    rw [filterLoop] at hx
    exact hparts x hx
  | cons f rest ih =>
    intro idx params parts hparts x hx
    simp only [filterLoop] at hx
    split at hx
    · exact ih _ _ _ hparts x hx
    · rename_i colRef hcr
      have hleft : CleanName (splitASHead colRef) :=
        CleanName_splitASHead _ (resolveColumn_clean reg _ tables am _ hreg ham hcr)
      split_ifs at hx with hin hsafe
      · -- "in" operator
        split at hx
        · rename_i elems
          split_ifs at hx with hemp
          · exact ih _ _ _ hparts x hx
          · refine ih _ _ _ ?_ x hx
            intro z hz
            rcases List.mem_append.mp hz with h1 | h1
            · exact hparts z h1
            · rw [List.mem_singleton.mp h1]
              refine CleanName_in_part _ _ hleft ?_
              refine CleanName_intercalate (strOf ", ") ',' _ rfl (by decide)
                (strOf ",") ' ' rfl (by decide) (by decide) _ ?_
              intro ph hph
              obtain ⟨e, -, hpe⟩ := List.mem_map.mp hph
              rw [← hpe]
              exact CleanName_placeholder idx e.1
        · exact ih _ _ _ hparts x hx
      · -- unsafe scalar operator replaced by "="
        refine ih _ _ _ ?_ x hx
        intro z hz
        rcases List.mem_append.mp hz with h1 | h1
        · exact hparts z h1
        · rw [List.mem_singleton.mp h1]
          exact CleanName_scalar_part _ _ _ hleft (by decide)
            (CleanName_head_digits 'p' _ (Or.inr (Or.inl rfl)) (natToStr_digits idx))
            ⟨natToStr idx, rfl⟩
      · -- safe scalar operator kept verbatim
        have hc : SAFE_OPS.contains (lowerStr (pyStrip f.op)) = true := by
          cases hb : SAFE_OPS.contains (lowerStr (pyStrip f.op)) with
          | true => rfl
          | false => exact absurd (by rw [hb]; rfl) hsafe
        refine ih _ _ _ ?_ x hx
        intro z hz
        rcases List.mem_append.mp hz with h1 | h1
        · exact hparts z h1
        · rw [List.mem_singleton.mp h1]
          exact CleanName_scalar_part _ _ _ hleft (CleanName_safe_op _ hc)
            (CleanName_head_digits 'p' _ (Or.inr (Or.inl rfl)) (natToStr_digits idx))
            ⟨natToStr idx, rfl⟩

lemma orderParts_clean (reg : Registry) (tables : List Str) (am : List (Str × Str))
    (metricNames : List Str)
    (hreg : ∀ e ∈ reg, ∀ c ∈ e.2, CleanName c)
    (ham : ∀ pr ∈ am, CleanName pr.2)
    (hmn : ∀ n ∈ metricNames, CleanName n) :
    ∀ (obs : List OrderSpec), ∀ x ∈ orderParts reg tables am metricNames obs,
      CleanName x := by
  intro obs x hx
  rw [orderParts] at hx
  obtain ⟨ob, -, hob⟩ := List.mem_filterMap.mp hx
  simp only [] at hob
  split at hob
  · rename_i colRef hcr
    injection hob with h2
    have hleft : CleanName (splitASHead colRef) :=
      CleanName_splitASHead _ (resolveColumn_clean reg _ tables am _ hreg ham hcr)
    rw [← h2]
    refine CleanName_appR _ _ hleft ?_ ' ' _ rfl (by decide)
    have hd := dir_clean (if (upperStr (pyStrip ob.dir)).isEmpty then strOf "ASC"
      else upperStr (pyStrip ob.dir))
    exact CleanName_appL [' '] _ (by decide) hd [] ' ' rfl (by decide)
  · split at hob
    · rename_i hsa
      injection hob with h2
      have hsac : CleanName (safeAlias (pyStrip ob.field)) :=
        hmn _ (by simpa using hsa)
      rw [← h2]
      have he : '[' :: safeAlias (pyStrip ob.field) ++ strOf "] "
            ++ (if (if (upperStr (pyStrip ob.dir)).isEmpty then strOf "ASC"
                else upperStr (pyStrip ob.dir)) = strOf "ASC"
              || (if (upperStr (pyStrip ob.dir)).isEmpty then strOf "ASC"
                else upperStr (pyStrip ob.dir)) = strOf "DESC"
              then (if (upperStr (pyStrip ob.dir)).isEmpty then strOf "ASC"
                else upperStr (pyStrip ob.dir)) else strOf "ASC")
          = ('[' :: safeAlias (pyStrip ob.field))
            ++ (strOf "] " ++ (if (if (upperStr (pyStrip ob.dir)).isEmpty then strOf "ASC"
                else upperStr (pyStrip ob.dir)) = strOf "ASC"
              || (if (upperStr (pyStrip ob.dir)).isEmpty then strOf "ASC"
                else upperStr (pyStrip ob.dir)) = strOf "DESC"
              then (if (upperStr (pyStrip ob.dir)).isEmpty then strOf "ASC"
                else upperStr (pyStrip ob.dir)) else strOf "ASC")) := by simp
      rw [he]
      have ha : CleanName ('[' :: safeAlias (pyStrip ob.field)) :=
        CleanName_appL ['['] _ (by decide) hsac [] '[' rfl (by decide)
      refine CleanName_appR _ _ ha ?_ ']' _ (app_head_decomp ']' (strOf " ") _ _ rfl)
        (by decide)
      exact CleanName_appL (strOf "] ") _ (by decide) (dir_clean _) (strOf "]") ' ' rfl
        (by decide)
    · exact absurd hob (by simp)

lemma dedupeByAliasAux_subset : ∀ (l seen : List Str), ∀ x ∈ dedupeByAliasAux seen l, x ∈ l := by
  intro l
  induction l with
  | nil => intro seen x hx; rw [dedupeByAliasAux] at hx; exact absurd hx (by simp)
  | cons c rest ih =>
    intro seen x hx
    simp only [dedupeByAliasAux] at hx
    split_ifs at hx with hc
    · rcases List.mem_cons.mp hx with h1 | h1
      · rw [h1]; exact List.mem_cons_self _ _
      · exact List.mem_cons_of_mem _ (ih _ x h1)
    · exact List.mem_cons_of_mem _ (ih _ x hx)

lemma dedupeByAlias_subset (l : List Str) : ∀ x ∈ dedupeByAlias l, x ∈ l := by
  rw [dedupeByAlias]
  exact dedupeByAliasAux_subset l []
lemma dropWhile_append_ne (p : Char → Bool) :
    ∀ (l1 l2 : Str), l1.dropWhile p ≠ [] →
      (l1 ++ l2).dropWhile p = l1.dropWhile p ++ l2 := by
  intro l1
  induction l1 with
  | nil => intro l2 h; exact absurd rfl h
  | cons c r ih =>
    intro l2 h
    rw [List.cons_append, List.dropWhile_cons, List.dropWhile_cons]
    rw [List.dropWhile_cons] at h
    split_ifs at h ⊢ with hp
    · exact ih l2 h
    · rfl

lemma pyRStrip_ne_nil (b : Str) (c : Char) (hc : c ∈ b) (hw : isWs c = false) :
    pyRStrip b ≠ [] := by
  intro h
  rw [pyRStrip, List.reverse_eq_nil_iff, List.dropWhile_eq_nil_iff] at h
  have := h c (List.mem_reverse.mpr hc)
  rw [hw] at this
  exact Bool.noConfusion this

lemma pyRStrip_append (a b : Str) (hb : pyRStrip b ≠ []) :
    pyRStrip (a ++ b) = a ++ pyRStrip b := by
  have hbr : b.reverse.dropWhile isWs ≠ [] := by
    intro h
    rw [pyRStrip, h] at hb
    exact hb rfl
  rw [pyRStrip, List.reverse_append, dropWhile_append_ne isWs b.reverse a.reverse hbr,
    List.reverse_append, List.reverse_reverse, pyRStrip]

lemma pyStrip_idem (s : Str) : pyStrip (pyStrip s) = pyStrip s := by
  cases hv : pyStrip s with
  | nil => rfl
  | cons c z =>
    have hc : isWs c = false := pyStrip_head_nonws s c z hv
    obtain ⟨y, c0, hy, h0⟩ := pyStrip_last_nonws s (by rw [hv]; simp)
    rw [← hv]
    rw [pyStrip]
    have hdw : (pyStrip s).dropWhile isWs = pyStrip s := by
      rw [hv, List.dropWhile_cons, if_neg (by rw [hc]; exact Bool.false_ne_true)]
    rw [hdw, hy]
    exact pyRStrip_ends_nonws y c0 h0
lemma token_select (Z : Str) :
    firstNonWsToken (strOf "SELECT TOP (" ++ Z) = some (strOf "SELECT") := by
  have he : strOf "SELECT TOP (" ++ Z
      = 'S' :: 'E' :: 'L' :: 'E' :: 'C' :: 'T' :: ' ' :: (strOf "TOP (" ++ Z) := rfl
  have hS : ¬(isWs 'S' = true) := by decide
  have p1 : (fun c => !isWs c) 'S' = true := by decide
  have p2 : (fun c => !isWs c) 'E' = true := by decide
  have p3 : (fun c => !isWs c) 'L' = true := by decide
  have p4 : (fun c => !isWs c) 'C' = true := by decide
  have p5 : (fun c => !isWs c) 'T' = true := by decide
  have p7 : ¬((fun c => !isWs c) ' ' = true) := by decide
  rw [firstNonWsToken, he]
  rw [List.dropWhile_cons, if_neg hS]
  rw [List.isEmpty_cons]
  rw [if_neg Bool.false_ne_true]
  rw [List.takeWhile_cons, if_pos p1, List.takeWhile_cons, if_pos p2,
    List.takeWhile_cons, if_pos p3, List.takeWhile_cons, if_pos p2,
    List.takeWhile_cons, if_pos p4, List.takeWhile_cons, if_pos p5,
    List.takeWhile_cons, if_neg p7]
  rfl

lemma limitReport_ok (st : Settings) (normalized : Str) :
    (limitReport st normalized).ok = true := by
  simp only [limitReport]
  split_ifs <;> rfl

lemma intToStr_digits (i : Int) (h : 0 ≤ i) :
    ∀ c ∈ intToStr i, c ∈ strOf "0123456789" := by
  cases i with
  | ofNat n => exact natToStr_digits n
  | negSucc n => exact absurd h (by simp)

lemma headD_clean (tables : List Str) (htab : ∀ t ∈ tables, CleanName t) :
    CleanName (tables.headD []) := by
  cases tables with
  | nil => exact CleanName_nil
  | cons t rest => exact htab t (List.mem_cons_self _ _)

lemma CleanName_ite (c : Prop) [Decidable c] (a b : Str)
    (ha : CleanName a) (hb : CleanName b) : CleanName (if c then a else b) := by
  by_cases h : c
  · rw [if_pos h]; exact ha
  · rw [if_neg h]; exact hb

lemma CleanName_prefixed_intercalate (pre sep : Str) (parts : List Str)
    (hpre : CleanName pre) (x1 : Str) (hx1e : pre = x1 ++ [' '])
    (c0 : Char) (s1 : Str) (hsh : sep = c0 :: s1) (h0 : c0.isAlpha = false)
    (y1 : Str) (cl : Char) (hsl : sep = y1 ++ [cl]) (hcl : cl.isAlpha = false)
    (hsepc : CleanName sep)
    (hparts : ∀ x ∈ parts, CleanName x) :
    CleanName (pre ++ sep.intercalate parts) :=
  CleanName_appL pre _ hpre
    (CleanName_intercalate sep c0 s1 hsh h0 y1 cl hsl hcl hsepc parts hparts)
    x1 ' ' hx1e (by decide)

lemma sqlText_clean (topStr : Str) (selectCols : List Str) (fromClause : Str)
    (joinClauses : List Str) (whereClause groupByClause orderByClause : Str)
    (htop : ∀ c ∈ topStr, c ∈ strOf "0123456789")
    (hsel : ∀ x ∈ selectCols, CleanName x)
    (hfrom : CleanName fromClause)
    (hjoin : ∀ cl ∈ joinClauses, CleanName cl)
    (hwhere : CleanName whereClause) (hgroup : CleanName groupByClause)
    (horder : CleanName orderByClause) :
    CleanName ((strOf "\n").intercalate
      ([strOf "SELECT TOP (" ++ topStr ++ strOf ")",
        strOf "  " ++ (strOf ",\n  ").intercalate selectCols,
        fromClause]
       ++ joinClauses
       ++ [whereClause, groupByClause, orderByClause])) := by
  refine CleanName_intercalate (strOf "\n") '\n' [] rfl (by decide)
    [] '\n' rfl (by decide) (by decide) _ ?_
  intro x hx
  rw [List.cons_append, List.cons_append, List.cons_append] at hx
  rcases List.mem_cons.mp hx with h1 | hx
  · rw [h1]
    exact CleanName_wrap _ _ _ (by decide) (CleanName_digits topStr htop) (by decide)
      (strOf "SELECT TOP ") '(' rfl (by decide) ')' [] rfl (by decide)
  rcases List.mem_cons.mp hx with h1 | hx
  · rw [h1]
    refine CleanName_appL (strOf "  ") _ (by decide) ?_ (strOf " ") ' ' rfl (by decide)
    exact CleanName_intercalate (strOf ",\n  ") ',' _ rfl (by decide)
      (strOf ",\n ") ' ' rfl (by decide) (by decide) _ hsel
  rcases List.mem_cons.mp hx with h1 | hx
  · rw [h1]; exact hfrom
  rcases List.mem_append.mp hx with h1 | hx
  · exact hjoin x h1
  rcases List.mem_cons.mp hx with h1 | hx
  · rw [h1]; exact hwhere
  rcases List.mem_cons.mp hx with h1 | hx
  · rw [h1]; exact hgroup
  rcases List.mem_cons.mp hx with h1 | hx
  · rw [h1]; exact horder
  · exact absurd hx (by simp)
lemma validate_ok_of_checks (st : Settings) (sql : Str)
    (h1 : (pyStrip sql).isEmpty = false)
    (h2 : (COMMENT_PATTERNS.any fun p => containsSub p (pyStrip sql)) = false)
    (h3 : ¬(((splitOnChar ';' (pyStrip sql)).filter
        (fun t => !(pyStrip t).isEmpty)).length ≠ 1))
    (h4 : stackingDetected (pyStrip sql) = false)
    (tok : Str) (h5 : firstNonWsToken (pyStrip sql) = some tok)
    (h6 : (!((strOf "select").isPrefixOf (pyStrip (lowerStr tok))
        || (strOf "with").isPrefixOf (pyStrip (lowerStr tok)))) = false)
    (h7 : DISALLOWED_KEYWORDS.find? (fun kw => containsWB kw (lowerStr (pyStrip sql))) = none)
    (h8 : hasSelectStar (pyStrip sql) = false) :
    (validate st sql).ok = true := by
  simp only [validate]
  rw [if_neg (by rw [h1]; exact Bool.false_ne_true),
      if_neg (by rw [h2]; exact Bool.false_ne_true),
      if_neg h3,
      if_neg (by rw [h4]; exact Bool.false_ne_true),
      h5]
  show (if !((strOf "select").isPrefixOf (pyStrip (lowerStr tok))
      || (strOf "with").isPrefixOf (pyStrip (lowerStr tok))) then
      failReport (strOf "Only SELECT / WITH statements are allowed.")
    else
      match DISALLOWED_KEYWORDS.find? (fun kw => containsWB kw (lowerStr (pyStrip sql))) with
      | some kw => failReport (strOf "Disallowed keyword detected: " ++ kw)
      | none =>
        if hasSelectStar (pyStrip sql) then
          failReport (strOf "SELECT * is not allowed; use explicit column lists.")
        else limitReport st (formatSql (pyStrip sql))).ok = true
  rw [if_neg (by rw [h6]; exact Bool.false_ne_true), h7]
  show (if hasSelectStar (pyStrip sql) then
      failReport (strOf "SELECT * is not allowed; use explicit column lists.")
    else limitReport st (formatSql (pyStrip sql))).ok = true
  rw [if_neg (by rw [h8]; exact Bool.false_ne_true)]
  exact limitReport_ok st _
lemma validate_clean_strip_ok (st : Settings) (X R : Str)
    (hclean : CleanName X)
    (hXeq : X = strOf "SELECT TOP (" ++ R) (hRne : pyRStrip R ≠ []) :
    (validate st (pyStrip X)).ok = true := by
  have hidem : pyStrip (pyStrip X) = pyStrip X := pyStrip_idem X
  have hXd : X.dropWhile isWs = X := by
    rw [hXeq]
    rw [show strOf "SELECT TOP (" ++ R = 'S' :: (strOf "ELECT TOP (" ++ R) from rfl,
      List.dropWhile_cons, if_neg (by decide)]
  have hsX : pyStrip X = strOf "SELECT TOP (" ++ pyRStrip R := by
    rw [pyStrip, hXd, hXeq]
    exact pyRStrip_append _ R hRne
  have hscons : pyStrip X = 'S' :: (strOf "ELECT TOP (" ++ pyRStrip R) := by
    rw [hsX]; rfl
  have hsc : CleanName (pyStrip X) := CleanName_pyStrip X hclean
  obtain ⟨-, hsemi, hstar, hdash, hslash⟩ := hsc
  have H1 : (pyStrip (pyStrip X)).isEmpty = false := by
    rw [hidem, hscons]; rfl
  have H2 : (COMMENT_PATTERNS.any fun p => containsSub p (pyStrip (pyStrip X))) = false := by
    rw [hidem]
    apply List.any_eq_false.mpr
    intro p hp
    rcases List.mem_cons.mp hp with hpe | hp
    · rw [hpe]
      intro hx
      exact hdash (head_mem_of_containsSub '-' ['-'] (pyStrip X) hx)
    rcases List.mem_cons.mp hp with hpe | hp
    · rw [hpe]
      intro hx
      exact hslash (head_mem_of_containsSub '/' ['*'] (pyStrip X) hx)
    rcases List.mem_cons.mp hp with hpe | hp
    · rw [hpe]
      intro hx
      exact hstar (head_mem_of_containsSub '*' ['/'] (pyStrip X) hx)
    · exact absurd hp (by simp)
  have H3 : ¬(((splitOnChar ';' (pyStrip (pyStrip X))).filter
      (fun t => !(pyStrip t).isEmpty)).length ≠ 1) := by
    rw [hidem]
    rw [splitOnChar_single ';' (pyStrip X) hsemi]
    rw [List.filter_cons,
      if_pos (show ((fun t => !(pyStrip t).isEmpty) (pyStrip X)) = true from by
        show (!(pyStrip (pyStrip X)).isEmpty) = true
        rw [hidem, hscons]
        rfl),
      List.filter_nil]
    simp
  have H4 : stackingDetected (pyStrip (pyStrip X)) = false := by
    rw [hidem]
    exact stackingDetected_false _ hsemi
  have H5 : firstNonWsToken (pyStrip (pyStrip X)) = some (strOf "SELECT") := by
    rw [hidem, hsX]
    exact token_select (pyRStrip R)
  have H6 : (!((strOf "select").isPrefixOf (pyStrip (lowerStr (strOf "SELECT")))
      || (strOf "with").isPrefixOf (pyStrip (lowerStr (strOf "SELECT"))))) = false := by
    decide
  have H7 : DISALLOWED_KEYWORDS.find?
      (fun kw => containsWB kw (lowerStr (pyStrip (pyStrip X)))) = none := by
    rw [hidem]
    apply List.find?_eq_none.mpr
    intro kw hkw
    have hcf := CleanFrag_of_CleanName _ (CleanName_pyStrip X hclean)
    rw [hcf.1 kw hkw]
    exact Bool.false_ne_true
  have H8 : hasSelectStar (pyStrip (pyStrip X)) = false := by
    rw [hidem]
    exact hasSelectStar_false _ hstar
  exact validate_ok_of_checks st (pyStrip X) H1 H2 H3 H4 _ H5 H6 H7 H8
set_option maxHeartbeats 2000000 in
lemma okBundle_sql_eq (st : Settings) (reg : Registry) (plan1 : Plan) (planned : List Str)
    (largeMode : Option Bool) (tables : List Str) :
    (okBundle st reg plan1 planned largeMode tables).1.sql
      = pyStrip ((strOf "\n").intercalate
        ([strOf "SELECT TOP (" ++ intToStr (obTop st plan1 largeMode) ++ strOf ")",
          strOf "  " ++ (strOf ",\n  ").intercalate (obSelectCols reg plan1 tables),
          obFrom tables]
         ++ (obJacc reg plan1 tables).clauses
         ++ [obWhere reg plan1 tables, obGroup reg plan1 tables,
             obOrder reg plan1 tables])) := rfl
lemma obAm_clean (reg : Registry) (plan1 : Plan) (tables : List Str)
    (hreg : ∀ e ∈ reg, CleanName e.1 ∧ ∀ c ∈ e.2, CleanName c)
    (htab : ∀ t ∈ tables, CleanName t) :
    (∀ pr ∈ (obJacc reg plan1 tables).aliasMap, CleanName pr.2)
    ∧ (∀ cl ∈ (obJacc reg plan1 tables).clauses, CleanName cl) := by
  rw [obJacc]
  apply joinFold_clean reg tables hreg htab
  · intro pr hpr
    rw [List.mem_singleton.mp hpr]
    exact show CleanName (strOf "t0") by decide
  · intro cl hcl
    exact absurd hcl (by simp)

lemma obDimPairs_clean (reg : Registry) (plan1 : Plan) (tables : List Str)
    (hreg : ∀ e ∈ reg, CleanName e.1 ∧ ∀ c ∈ e.2, CleanName c)
    (htab : ∀ t ∈ tables, CleanName t) :
    ∀ pr ∈ obDimPairs reg plan1 tables, CleanName pr.1 ∧ CleanName pr.2 := by
  intro pr hpr
  rw [obDimPairs] at hpr
  obtain ⟨d, -, hd⟩ := List.mem_filterMap.mp hpr
  cases hr : resolveColumn reg d tables (obJacc reg plan1 tables).aliasMap with
  | none => rw [hr] at hd; exact absurd hd (by simp)
  | some cr =>
    rw [hr] at hd
    injection hd with hd2
    have hc : CleanName cr := resolveColumn_clean reg d tables _ cr
      (fun e he => (hreg e he).2) (obAm_clean reg plan1 tables hreg htab).1 hr
    rw [← hd2]
    exact ⟨hc, CleanName_splitASHead cr hc⟩

lemma obTimePairs_clean (reg : Registry) (plan1 : Plan) (tables : List Str)
    (hreg : ∀ e ∈ reg, CleanName e.1 ∧ ∀ c ∈ e.2, CleanName c)
    (htab : ∀ t ∈ tables, CleanName t) :
    ∀ pr ∈ obTimePairs reg plan1 tables, CleanName pr.1 ∧ CleanName pr.2 := by
  intro pr hpr
  rw [obTimePairs] at hpr
  split at hpr
  · exact absurd hpr (by simp)
  · rename_i tfh htf
    split at hpr
    · exact absurd hpr (by simp)
    · rename_i tf hres
      have htfc : CleanName tf := resolveColumn_clean reg tfh tables _ tf
        (fun e he => (hreg e he).2) (obAm_clean reg plan1 tables hreg htab).1 hres
      have hea := splitExprAlias_within tf
      have hea1 : CleanName (splitExprAlias tf).1 :=
        CleanName_within _ _ hea.1 htfc
      have hea2 : CleanName (splitExprAlias tf).2 :=
        CleanName_within _ _ hea.2 htfc
      split at hpr
      · split_ifs at hpr with hagg hcnt
        · rw [List.mem_singleton.mp hpr]
          refine ⟨?_, timeBucket_clean _ _ hea1⟩
          exact CleanName_asAlias _ _ (timeBucket_clean _ _ hea1) hea2
        · rw [List.mem_singleton.mp hpr]
          exact ⟨htfc, CleanName_splitASHead tf htfc⟩
        · exact absurd hpr (by simp)
      · split_ifs at hpr with hcnt
        · rw [List.mem_singleton.mp hpr]
          exact ⟨htfc, CleanName_splitASHead tf htfc⟩
        · exact absurd hpr (by simp)

lemma obMets_clean (reg : Registry) (plan1 : Plan) (tables : List Str)
    (hreg : ∀ e ∈ reg, CleanName e.1 ∧ ∀ c ∈ e.2, CleanName c)
    (htab : ∀ t ∈ tables, CleanName t)
    (hmet : ∀ m ∈ plan1.metrics, ∀ nm, m.name = some nm → CleanName (safeAlias nm)) :
    (∀ x ∈ (obMets reg plan1 tables).1, CleanName x)
    ∧ (∀ x ∈ (obMets reg plan1 tables).2, CleanName x) := by
  rw [obMets]
  exact metricLoop_clean reg tables _ _ (fun e he => (hreg e he).2)
    (obAm_clean reg plan1 tables hreg htab).1 plan1.metrics hmet [] []
    (by intro x hx; exact absurd hx (by simp))
    (by intro x hx; exact absurd hx (by simp))

lemma obSelectCols_clean (reg : Registry) (plan1 : Plan) (tables : List Str)
    (hreg : ∀ e ∈ reg, CleanName e.1 ∧ ∀ c ∈ e.2, CleanName c)
    (htab : ∀ t ∈ tables, CleanName t)
    (hmet : ∀ m ∈ plan1.metrics, ∀ nm, m.name = some nm → CleanName (safeAlias nm)) :
    ∀ x ∈ obSelectCols reg plan1 tables, CleanName x := by
  intro x hx
  rw [obSelectCols] at hx
  have hx2 := dedupeByAlias_subset _ x hx
  rcases List.mem_append.mp hx2 with h1 | h1
  · rw [obDimSelectCols] at h1
    split_ifs at h1 with hfb
    · obtain ⟨c, hcmem, hce⟩ := List.mem_map.mp h1
      rw [← hce]
      exact CleanName_colref _ c
        (alias_getD_clean _ _ (obAm_clean reg plan1 tables hreg htab).1)
        (tableColumns_clean reg _ hreg c (List.mem_of_mem_take hcmem))
    · rw [obDimSelectCols0] at h1
      obtain ⟨pr, hprm, hpre⟩ := List.mem_map.mp h1
      rw [← hpre]
      rcases List.mem_append.mp hprm with h2 | h2
      · exact (obDimPairs_clean reg plan1 tables hreg htab pr h2).1
      · exact (obTimePairs_clean reg plan1 tables hreg htab pr h2).1
  · exact (obMets_clean reg plan1 tables hreg htab hmet).1 x h1

lemma obFrom_clean (tables : List Str) (htab : ∀ t ∈ tables, CleanName t) :
    CleanName (obFrom tables) := by
  rw [obFrom]
  exact CleanName_wrap _ _ _ (by decide)
    (fmtTable_clean _ (headD_clean tables htab)).1 (by decide)
    (strOf "FROM") ' ' rfl (by decide) ' ' (strOf "AS t0") rfl (by decide)

lemma obWhere_clean (reg : Registry) (plan1 : Plan) (tables : List Str)
    (hreg : ∀ e ∈ reg, CleanName e.1 ∧ ∀ c ∈ e.2, CleanName c)
    (htab : ∀ t ∈ tables, CleanName t) :
    CleanName (obWhere reg plan1 tables) := by
  rw [obWhere]
  refine CleanName_ite _ _ _ ?_ CleanName_nil
  refine CleanName_prefixed_intercalate _ _ _ (by decide) (strOf "WHERE") rfl
    ' ' (strOf "AND ") rfl (by decide) (strOf " AND") ' ' rfl (by decide) (by decide) ?_
  intro x hx
  rw [obWhereParts] at hx
  exact filterLoop_clean reg tables _ (fun e he => (hreg e he).2)
    (obAm_clean reg plan1 tables hreg htab).1 plan1.filters 0 [] []
    (by intro z hz; exact absurd hz (by simp)) x hx

lemma obGroup_clean (reg : Registry) (plan1 : Plan) (tables : List Str)
    (hreg : ∀ e ∈ reg, CleanName e.1 ∧ ∀ c ∈ e.2, CleanName c)
    (htab : ∀ t ∈ tables, CleanName t) :
    CleanName (obGroup reg plan1 tables) := by
  simp only [obGroup]
  refine CleanName_ite _ _ _ ?_ CleanName_nil
  refine CleanName_ite _ _ _ ?_ CleanName_nil
  refine CleanName_prefixed_intercalate _ _ _ (by decide) (strOf "GROUP BY") rfl
    ',' (strOf " ") rfl (by decide) (strOf ",") ' ' rfl (by decide) (by decide) ?_
  intro x hx
  have hx2 := List.mem_of_mem_filter hx
  rw [obGroupByCols] at hx2
  obtain ⟨pr, hprm, hpre⟩ := List.mem_map.mp hx2
  rw [← hpre]
  rcases List.mem_append.mp hprm with h2 | h2
  · exact (obDimPairs_clean reg plan1 tables hreg htab pr h2).2
  · exact (obTimePairs_clean reg plan1 tables hreg htab pr h2).2

lemma obOrder_clean (reg : Registry) (plan1 : Plan) (tables : List Str)
    (hreg : ∀ e ∈ reg, CleanName e.1 ∧ ∀ c ∈ e.2, CleanName c)
    (htab : ∀ t ∈ tables, CleanName t)
    (hmet : ∀ m ∈ plan1.metrics, ∀ nm, m.name = some nm → CleanName (safeAlias nm)) :
    CleanName (obOrder reg plan1 tables) := by
  rw [obOrder]
  refine CleanName_ite _ _ _ ?_ CleanName_nil
  refine CleanName_prefixed_intercalate _ _ _ (by decide) (strOf "ORDER BY") rfl
    ',' (strOf " ") rfl (by decide) (strOf ",") ' ' rfl (by decide) (by decide) ?_
  intro x hx
  rw [obObParts] at hx
  split_ifs at hx with hne
  · exact orderParts_clean reg tables _ _ (fun e he => (hreg e he).2)
      (obAm_clean reg plan1 tables hreg htab).1
      (obMets_clean reg plan1 tables hreg htab hmet).2 plan1.order_by x hx
  · exact absurd hx (by simp)

lemma okBundle_validate_ok (st : Settings) (reg : Registry) (plan1 : Plan)
    (planned : List Str) (largeMode : Option Bool) (tables : List Str)
    (hreg : ∀ e ∈ reg, CleanName e.1 ∧ ∀ c ∈ e.2, CleanName c)
    (htab : ∀ t ∈ tables, CleanName t)
    (hmet : ∀ m ∈ plan1.metrics, ∀ nm, m.name = some nm → CleanName (safeAlias nm))
    (htop1 : 0 ≤ st.MAX_RETURNED_ROWS) (htop2 : 0 ≤ st.DEFAULT_EXPLORATORY_TOP) :
    (validate st (okBundle st reg plan1 planned largeMode tables).1.sql).ok = true := by
  rw [okBundle_sql_eq]
  have h0 : 0 ≤ obTop st plan1 largeMode := by
    rw [obTop]
    split_ifs
    exacts [htop1, htop2]
  have hXeq : (strOf "\n").intercalate
        ([strOf "SELECT TOP (" ++ intToStr (obTop st plan1 largeMode) ++ strOf ")",
          strOf "  " ++ (strOf ",\n  ").intercalate (obSelectCols reg plan1 tables),
          obFrom tables]
         ++ (obJacc reg plan1 tables).clauses
         ++ [obWhere reg plan1 tables, obGroup reg plan1 tables,
             obOrder reg plan1 tables])
      = strOf "SELECT TOP ("
        ++ (intToStr (obTop st plan1 largeMode) ++ (strOf ")" ++ (strOf "\n"
          ++ (strOf "\n").intercalate
            ((strOf "  " ++ (strOf ",\n  ").intercalate (obSelectCols reg plan1 tables))
              :: ([obFrom tables]
                ++ (obJacc reg plan1 tables).clauses
                ++ [obWhere reg plan1 tables, obGroup reg plan1 tables,
                    obOrder reg plan1 tables]))))) := by
    simp [List.intercalate, List.intersperse]
  have hRne : pyRStrip (intToStr (obTop st plan1 largeMode) ++ (strOf ")" ++ (strOf "\n"
      ++ (strOf "\n").intercalate
        ((strOf "  " ++ (strOf ",\n  ").intercalate (obSelectCols reg plan1 tables))
          :: ([obFrom tables]
            ++ (obJacc reg plan1 tables).clauses
            ++ [obWhere reg plan1 tables, obGroup reg plan1 tables,
                obOrder reg plan1 tables]))))) ≠ [] := by
    apply pyRStrip_ne_nil _ ')'
    · apply List.mem_append_right
      apply List.mem_append_left
      decide
    · decide
  apply validate_clean_strip_ok st _ _ ?_ hXeq hRne
  exact sqlText_clean _ _ _ _ _ _ _
    (intToStr_digits _ h0)
    (obSelectCols_clean reg plan1 tables hreg htab hmet)
    (obFrom_clean tables htab)
    (obAm_clean reg plan1 tables hreg htab).2
    (obWhere_clean reg plan1 tables hreg htab)
    (obGroup_clean reg plan1 tables hreg htab)
    (obOrder_clean reg plan1 tables hreg htab hmet)
lemma gsPlan1_metrics (reg : Registry) (plan : Plan) (allowedTables : List Str) :
    (gsPlan1 reg plan allowedTables).metrics = plan.metrics := by
  rw [gsPlan1]
  split_ifs <;> rfl

/-- C1: the claim is false as stated.  A registry whose only table has a
single column named `update` makes `generate_sql` fall back to selecting
that column, and the produced `t0.[update] AS [update]` trips the
validator's disallowed-keyword scan, so `ok` is `false`. -/
theorem c1_counterexample :
    ∃ r, generateSql {} [(strOf "t", [strOf "update"])] {} [] none = Except.ok r
      ∧ (validate {} r.1.sql).ok = false :=
  ⟨_, rfl, rfl⟩

/-- C1 (amended): whenever every registry table key and column name and
every metric alias is free of disallowed keywords and of the characters
`;`, `*`, `-`, `/` (as substrings of their lowercase forms), and the two
row-limit settings are non-negative, every SQL text returned by
`generate_sql` is accepted by `SQLSafetyGuard.validate` with `ok = true`. -/
theorem c1_validator_accepts (st : Settings) (reg : Registry) (plan : Plan)
    (allowedTables : List Str) (largeMode : Option Bool) (r : SqlBundle × Plan)
    (hreg : ∀ e ∈ reg, CleanName e.1 ∧ ∀ c ∈ e.2, CleanName c)
    (hmet : ∀ m ∈ plan.metrics, ∀ nm, m.name = some nm → CleanName (safeAlias nm))
    (htop1 : 0 ≤ st.MAX_RETURNED_ROWS) (htop2 : 0 ≤ st.DEFAULT_EXPLORATORY_TOP)
    (h : generateSql st reg plan allowedTables largeMode = Except.ok r) :
    (validate st r.1.sql).ok = true := by
  rw [generateSql_cases] at h
  by_cases hemp : (gsTables reg plan allowedTables).isEmpty = true
  · rw [if_pos hemp] at h
    exact absurd h (by simp)
  · rw [if_neg hemp] at h
    injection h with h2
    rw [← h2]
    apply okBundle_validate_ok st reg _ plan.tables largeMode _ hreg _ _ htop1 htop2
    · intro t ht
      have h3 := gsTables_subset reg plan allowedTables t ht
      rw [regTablesOf] at h3
      obtain ⟨e, he, hte⟩ := List.mem_map.mp h3
      rw [← hte]
      exact (hreg e he).1
    · intro m hm
      have hx := hm
      rw [gsPlan1_metrics] at hx
      exact hmet m hx

/-- Witness for C1: a one-table, one-column registry with clean names, the
empty plan and default settings; `generate_sql` succeeds and the validator
accepts the result. -/
theorem c1_validator_accepts_witness :
    ∃ r, generateSql {} [(strOf "t", [strOf "a"])] {} [] none = Except.ok r
      ∧ (validate {} r.1.sql).ok = true := by
  refine ⟨_, rfl, ?_⟩
  exact c1_validator_accepts {} [(strOf "t", [strOf "a"])] {} [] none _
    (by decide)
    (by intro m hm; exact absurd hm (List.not_mem_nil m))
    (by decide) (by decide) rfl
end Spec2Proof
